import Mathlib

/-!
# sous-chef: archive extraction and installation pipeline

A shallow embedding of `internal/util/archive.go`, `internal/installer/installer.go`,
`internal/gh/client.go` and `internal/registry/registry.go`, with the parts of the Go standard library they call
(`path/filepath`, `strings`, `os`, `crypto/sha256`, `encoding/hex`) modelled for a
Unix host, where the path separator is `/`.

Conventions:
* a Go `string` is the list of its characters (`GoString`); every string operation
  used here acts on the ASCII characters `/` and `.` or on whole strings, so the
  byte view and the character view agree;
* a Go `error` is a value of `GoError`; `nil` is `none`;
* a function with side effects on the file system takes the state and returns the
  new state together with its result; a function that creates files or
  directories also takes the file mode creation mask (`umask`) of the process.
-/

namespace SousChef

/-! ## Strings and errors -/

/-- A Go string. -/
abbrev GoString := List Char

/-- A Go byte slice. -/
abbrev Bytes := List UInt8

/-- Go error values: sentinels made by `errors.New`, errors made by `fmt.Errorf`
with or without a wrapped error (`%w`), and errors reported by the operating
system or by a collaborator. -/
inductive GoError where
  | sentinel (msg : GoString)
  | wrapf (before : GoString) (inner : GoError) (after : GoString)
  | errorf (msg : GoString)
  | sys (op : GoString) (path : GoString) (errno : GoString)
  | external (msg : GoString)
deriving DecidableEq, Repr

deriving instance DecidableEq for Except

/-- The text of an error, `err.Error()`. -/
def GoError.Error : GoError → GoString
  | .sentinel msg => msg
  | .wrapf before inner after => before ++ inner.Error ++ after
  | .errorf msg => msg
  | .sys op path errno => op ++ " ".toList ++ path ++ ": ".toList ++ errno
  | .external msg => msg

/-- The chain test `errors.Is(err, target)`. -/
def GoError.Is (err target : GoError) : Bool :=
  if err = target then true
  else match err with
    | .wrapf _ inner _ => inner.Is target
    | _ => false

/-- The sentinel `errIllegalPath = errors.New("illegal file path in archive")`. -/
def errIllegalPath : GoError := .sentinel "illegal file path in archive".toList

/-! ## `strings` and `path/filepath` on Unix -/

/-- The host path separator `os.PathSeparator`. -/
def PathSeparator : Char := '/'

/-- The splitter `strings.Split(s, string(sep))` for a one-character separator: the
pieces of `s` between the occurrences of `sep`; there is always at least one. -/
def Split (sep : Char) : GoString → List GoString
  | [] => [[]]
  | c :: cs =>
    if c = sep then [] :: Split sep cs
    else match Split sep cs with
      | [] => [[c]]
      | seg :: rest => (c :: seg) :: rest

/-- The joiner `strings.Join(elems, string(sep))`. -/
def joinWith (sep : Char) : List GoString → GoString
  | [] => []
  | [x] => x
  | x :: y :: rest => x ++ sep :: joinWith sep (y :: rest)

/-- One element of the path read by `filepath.Clean`, against the elements kept so
far (most recent first): empty and `.` elements are dropped; `..` removes the
element before it when there is one that is not itself `..`, is dropped at the
root of a rooted path, and is kept otherwise; any other element is kept. -/
def cleanStep (rooted : Bool) (kept : List GoString) (c : GoString) : List GoString :=
  if c = [] ∨ c = ['.'] then kept
  else if c = ['.', '.'] then
    match kept with
    | [] => if rooted then [] else [c]
    | top :: rest => if top = ['.', '.'] then c :: kept else rest
  else c :: kept

/-- The lexical cleaner `filepath.Clean`: the shortest path equivalent to `path`.
The empty path and a relative path that cancels out give `.`. -/
def Clean (path : GoString) : GoString :=
  if path = [] then ['.']
  else
    let rooted : Bool := path.head? = some PathSeparator
    let kept := (Split PathSeparator path).foldl (cleanStep rooted) []
    let body := joinWith PathSeparator kept.reverse
    if rooted then PathSeparator :: body
    else if body = [] then ['.'] else body

/-- The path joiner `filepath.Join`: leading empty elements are ignored, the rest
is joined with the separator and cleaned; no non-empty element gives `""`. -/
def Join : List GoString → GoString
  | [] => []
  | e :: rest => if e = [] then Join rest else Clean (joinWith PathSeparator (e :: rest))

/-- The test `filepath.IsAbs` on Unix: the path starts with the separator. -/
def IsAbs (path : GoString) : Bool := path.head? = some PathSeparator

/-- The resolver `filepath.Abs` on Unix. `wd` is what `os.Getwd()` returns: the
working directory, or the error that makes `Abs` fail on a relative path. -/
def Abs (wd : Except GoError GoString) (path : GoString) : Except GoError GoString :=
  if IsAbs path then .ok (Clean path)
  else match wd with
    | .error e => .error e
    | .ok w => .ok (Join [w, path])

/-- The converter `filepath.ToSlash`: the identity where the separator is `/`. -/
def ToSlash (path : GoString) : GoString := path

/-- The parent `filepath.Dir`: what precedes the last separator, cleaned. -/
def Dir (path : GoString) : GoString :=
  Clean ((path.reverse.dropWhile (fun c => c != PathSeparator)).reverse)

/-! ## `internal/util/archive.go`: path handling -/

/-- Source `sanitizePath`: checks that `name` is safe to join with `dest`. -/
def sanitizePath (wd : Except GoError GoString) (dest name : GoString) :
    Except GoError GoString :=
  match Abs wd dest with
  | .error err => .error err
  | .ok absDest =>
    let target := Join [absDest, name]
    let cleanTarget := Clean target
    let cleanDest := Clean absDest
    if !(cleanDest ++ [PathSeparator]).isPrefixOf cleanTarget && cleanTarget != cleanDest then
      .error (.wrapf [] errIllegalPath (": ".toList ++ name))
    else .ok cleanTarget

/-- Source `stripPath`: strips leading path components and returns the remaining
path. The count is a natural number: the registry holds no negative count. -/
def stripPath (name : GoString) (stripComponents : Nat) : GoString :=
  let name := ToSlash name
  let parts := Split '/' name
  if parts.length ≤ stripComponents then []
  else Join (parts.drop stripComponents)

/-! ## The file system -/

/-- What a location of the file system holds: a directory, or a regular file with
its content. `perm` is the mode of the node: its permission bits, and the
set-uid, set-gid and sticky bits (octal 4000, 2000, 1000). -/
inductive Node where
  | dir (perm : Nat)
  | file (perm : Nat) (data : Bytes)
deriving DecidableEq, Repr

/-- A location: the names on the way down from the root directory. -/
abbrev Key := List GoString

/-- The state of the file system: the node at each location, if any. There are
only directories and regular files, and every operation is permitted to the
process, so an operation fails only for the shape of the tree. -/
abbrev FS := Key → Option Node

/-- The names of an absolute, cleaned path. -/
def pathKey (path : GoString) : Key :=
  (Split PathSeparator path).filter (fun c => decide (c ≠ []))

/-- The absolute path of a location, for messages. -/
def keyPath (k : Key) : GoString := PathSeparator :: joinWith PathSeparator k

/-- The location a path handed to the operating system denotes: an absolute path
denotes itself, a relative one is taken from the working directory. -/
def resolve (wd : Except GoError GoString) (path : GoString) : Except GoError Key :=
  match Abs wd path with
  | .error e => .error e
  | .ok p => .ok (pathKey p)

/-- The state with node `n` at location `k`. -/
def FS.set (fs : FS) (k : Key) (n : Node) : FS :=
  fun q => if q = k then some n else fs q

/-- The mode bits that `os` hands to the system for a `FileMode` (`syscallMode`):
the permission bits, and the set-uid, set-gid and sticky bits where the
`FileMode` has `ModeSetuid`, `ModeSetgid`, `ModeSticky`. -/
def syscallMode (perm : Nat) : Nat :=
  perm % 512 + (if perm.testBit 23 then 0o4000 else 0) +
    (if perm.testBit 22 then 0o2000 else 0) + (if perm.testBit 20 then 0o1000 else 0)

/-- The mode of a node that a process with the file mode creation mask `umask`
creates with the argument `perm`: the bits handed to the system, less the
permission bits that the mask clears. -/
def createMode (umask perm : Nat) : Nat :=
  syscallMode perm - (syscallMode perm &&& (umask % 512))

/-- One level of `os.MkdirAll`: an existing directory is kept, a missing one is
made with mode `perm`, and a regular file in the way is an error. -/
def ensureDir (perm : Nat) (fs : FS) (k : Key) : Except GoError FS :=
  match fs k with
  | some (.dir _) => .ok fs
  | some (.file _ _) => .error (.sys "mkdir".toList (keyPath k) "not a directory".toList)
  | none => .ok (fs.set k (.dir perm))

/-- The walk of `os.MkdirAll` from location `cur` down the names `todo`. -/
def mkdirFrom (perm : Nat) (fs : FS) (cur : Key) : Key → Except GoError FS
  | [] => ensureDir perm fs cur
  | c :: todo =>
    match ensureDir perm fs cur with
    | .error e => .error e
    | .ok fs1 => mkdirFrom perm fs1 (cur ++ [c]) todo

/-- The call `os.MkdirAll(path, perm)` of a process with the mask `umask`: makes
the directory and every missing parent; leaves the state as it was when it
fails. -/
def MkdirAll (umask : Nat) (wd : Except GoError GoString) (fs : FS) (path : GoString)
    (perm : Nat) : Except GoError FS :=
  match resolve wd path with
  | .error e => .error e
  | .ok k => mkdirFrom (createMode umask perm) fs [] k

/-- The call `os.OpenFile(path, O_CREATE|O_WRONLY|O_TRUNC, perm)` of a process
with the mask `umask`: the parent must be a directory and the path must not be
one; a missing file is created with the mode `createMode umask perm`, an existing
one is emptied and keeps its mode. Gives the new state and the location opened. -/
def OpenFile (umask : Nat) (wd : Except GoError GoString) (fs : FS) (path : GoString)
    (perm : Nat) : Except GoError (FS × Key) :=
  match resolve wd path with
  | .error e => .error e
  | .ok k =>
    match fs k with
    | some (.dir _) => .error (.sys "open".toList path "is a directory".toList)
    | some (.file old _) => .ok (fs.set k (.file old []), k)
    | none =>
      match k.reverse with
      | [] => .error (.sys "open".toList path "is a directory".toList)
      | _ :: up =>
        match fs up.reverse with
        | some (.dir _) => .ok (fs.set k (.file (createMode umask perm) []), k)
        | some (.file _ _) => .error (.sys "open".toList path "not a directory".toList)
        | none => .error (.sys "open".toList path "no such file or directory".toList)

/-- The bytes a reader yields, and the error that ends the stream if it does not
end with `io.EOF`. -/
structure Reader where
  data : Bytes
  err : Option GoError
deriving DecidableEq, Repr

/-- The copy `io.Copy(out, r)` into the open file at `k`: every byte read is
written; the result is the error of the reader, if any. -/
def ioCopy (fs : FS) (k : Key) (r : Reader) : FS × Option GoError :=
  match fs k with
  | some (.file perm old) => (fs.set k (.file perm (old ++ r.data)), r.err)
  | _ => (fs, some (.sys "write".toList (keyPath k) "bad file descriptor".toList))

/-! ## `internal/util/archive.go`: extraction -/

/-- The type flag of a tar header, as far as `ExtractTarGz` tells them apart. -/
inductive Typeflag where
  | TypeReg
  | TypeDir
  | other (flag : Char)
deriving DecidableEq, Repr

/-- One entry of a tar stream: the header fields read by `ExtractTarGz` and the
content the tar reader yields for it. -/
structure TarEntry where
  Name : GoString
  Typeflag : Typeflag
  Mode : Nat
  content : Reader
deriving DecidableEq, Repr

/-- A decoded tar stream: the entries `tr.Next()` returns, then `io.EOF`
(`err = none`) or a read error. -/
structure TarReader where
  entries : List TarEntry
  err : Option GoError
deriving DecidableEq, Repr

/-- One record of the central directory of a zip archive: its name, whether
`f.FileInfo().IsDir()`, its mode `f.Mode()`, and what `f.Open()` gives. -/
structure ZipFile where
  Name : GoString
  IsDir : Bool
  Mode : Nat
  opened : Except GoError Reader

/-- The loop over the entries of an archive: `step` handles one entry, and the
first error ends the loop with the state reached. -/
def forEntries {ε : Type} (step : FS → ε → FS × Option GoError) :
    FS → List ε → FS × Option GoError
  | fs, [] => (fs, none)
  | fs, e :: rest =>
    match step fs e with
    | (fs1, some err) => (fs1, some err)
    | (fs1, none) => forEntries step fs1 rest

/-- Source `extractTarFile` (file closing always succeeds). -/
def extractTarFile (umask : Nat) (wd : Except GoError GoString) (fs : FS) (target : GoString)
    (mode : Nat) (r : Reader) : FS × Option GoError :=
  match MkdirAll umask wd fs (Dir target) 0o755 with
  | .error err => (fs, some err)
  | .ok fs1 =>
    match OpenFile umask wd fs1 target mode with
    | .error err => (fs1, some err)
    | .ok (fs2, f) => ioCopy fs2 f r

/-- The body of the loop of source `ExtractTarGz`, for one header. -/
def extractTarEntry (umask : Nat) (wd : Except GoError GoString) (dest : GoString)
    (stripComponents : Nat) (fs : FS) (header : TarEntry) : FS × Option GoError :=
  let relPath := stripPath header.Name stripComponents
  if relPath = [] then (fs, none)
  else
    match sanitizePath wd dest relPath with
    | .error err => (fs, some err)
    | .ok target =>
      match header.Typeflag with
      | .TypeDir =>
        match MkdirAll umask wd fs target 0o755 with
        | .error err => (fs, some err)
        | .ok fs1 => (fs1, none)
      | .TypeReg => extractTarFile umask wd fs target header.Mode header.content
      | .other _ => (fs, none)

/-- Source `ExtractTarGz`: extracts a .tar.gz archive to `dest`, stripping
`stripComponents` directories. `src` is what opening and decoding the file gives:
an error of `os.Open` or `gzip.NewReader`, or the tar stream. -/
def ExtractTarGz (umask : Nat) (wd : Except GoError GoString) (fs : FS) (src : Except GoError TarReader)
    (dest : GoString) (stripComponents : Nat) : FS × Option GoError :=
  match src with
  | .error err => (fs, some err)
  | .ok tr =>
    match forEntries (extractTarEntry umask wd dest stripComponents) fs tr.entries with
    | (fs1, some err) => (fs1, some err)
    | (fs1, none) => (fs1, tr.err)

/-- Source `extractZipFile` (file closing always succeeds). -/
def extractZipFile (umask : Nat) (wd : Except GoError GoString) (fs : FS) (f : ZipFile)
    (dest : GoString) (stripComponents : Nat) : FS × Option GoError :=
  let relPath := stripPath f.Name stripComponents
  if relPath = [] then (fs, none)
  else
    match sanitizePath wd dest relPath with
    | .error err => (fs, some err)
    | .ok target =>
      if f.IsDir then
        match MkdirAll umask wd fs target 0o755 with
        | .error err => (fs, some err)
        | .ok fs1 => (fs1, none)
      else
        match MkdirAll umask wd fs (Dir target) 0o755 with
        | .error err => (fs, some err)
        | .ok fs1 =>
          match f.opened with
          | .error err => (fs1, some err)
          | .ok rc =>
            match OpenFile umask wd fs1 target f.Mode with
            | .error err => (fs1, some err)
            | .ok (fs2, out) => ioCopy fs2 out rc

/-- Source `ExtractZip`: extracts a .zip archive to `dest`, stripping
`stripComponents` directories. `src` is what `zip.OpenReader` gives: an error, or
the records of the archive in the order of its central directory. -/
def ExtractZip (umask : Nat) (wd : Except GoError GoString) (fs : FS) (src : Except GoError (List ZipFile))
    (dest : GoString) (stripComponents : Nat) : FS × Option GoError :=
  match src with
  | .error err => (fs, some err)
  | .ok files =>
    match Abs wd dest with
    | .error err => (fs, some err)
    | .ok absDest =>
      forEntries (fun fs1 f => extractZipFile umask wd fs1 f absDest stripComponents) fs files

/-! ## Names and locations -/

/-- A name of a directory entry: not empty, not `.` or `..`, and without a separator. -/
def isName (c : GoString) : Bool :=
  decide (c ≠ [] ∧ c ≠ ['.'] ∧ c ≠ ['.', '.'] ∧ PathSeparator ∉ c)

/-- The names `filepath.Clean` keeps of a rooted path with the elements `segs`. -/
def rootedNames (segs : List GoString) : List GoString :=
  (segs.foldl (cleanStep true) []).reverse


/-- The test made by `sanitizePath` on the absolute root `absDest`: the cleaned
join of the root and `name` is neither the cleaned root nor a path that starts
with the cleaned root followed by the separator. -/
def escapesRoot (absDest name : GoString) : Bool :=
  !(Clean absDest ++ [PathSeparator]).isPrefixOf (Clean (Join [absDest, name])) &&
    Clean (Join [absDest, name]) != Clean absDest

/-- The state that holds the listed nodes and nothing else. -/
def fsOf (nodes : List (Key × Node)) : FS := fun k => nodes.lookup k

/-- No regular file stands at a location on the way from the root to `k`, `k`
included: what `os.MkdirAll` needs to succeed. -/
def dirsOK (fs : FS) (k : Key) : Prop :=
  ∀ q, q <+: k → ∀ m d, fs q ≠ some (.file m d)

/-- The state after `os.MkdirAll` has made the directory at `k`: every location on
the way from the root to `k` that held nothing holds a directory. -/
def withDirs (perm : Nat) (fs : FS) (k : Key) : FS :=
  fun q => if q <+: k ∧ fs q = none then some (.dir perm) else fs q

/-- The mode of the file that `os.OpenFile` opens for writing: the mode of the
file that exists, or the mode asked for. -/
def openMode (old : Option Node) (mode : Nat) : Nat :=
  match old with
  | some (.file m _) => m
  | _ => mode

/-- The state after a regular file with content `data` has been extracted with
the mode argument `mode` to the location `k`, by a process with the mask `umask`:
the parents of `k` are directories and `k` holds the file. -/
def written (umask : Nat) (fs : FS) (k : Key) (mode : Nat) (data : Bytes) : FS :=
  (withDirs (createMode umask 0o755) fs k.dropLast).set k
    (.file (openMode (fs k) (createMode umask mode)) data)

/-- What handling one record of an archive does to the file system, once its name
has been stripped and checked: nothing, an error, a directory to make, or a file
to write. -/
inductive Action where
  | skip
  | fail (err : GoError)
  | mkdir (k : Key)
  | write (k : Key) (mode : Nat) (opened : Except GoError Reader)

/-- The action of a zip record, read off source `extractZipFile`. -/
def zipAction (wd : Except GoError GoString) (dest : GoString) (stripComponents : Nat)
    (f : ZipFile) : Action :=
  let relPath := stripPath f.Name stripComponents
  if relPath = [] then .skip
  else
    match sanitizePath wd dest relPath with
    | .error err => .fail err
    | .ok target =>
      if f.IsDir then .mkdir (pathKey target) else .write (pathKey target) f.Mode f.opened

/-- The action, done by a process with the mask `umask`, succeeds in state `fs`
and leaves state `fs'`. -/
def Action.effect (a : Action) (umask : Nat) (fs fs' : FS) : Prop :=
  match a with
  | .skip => fs' = fs
  | .fail _ => False
  | .mkdir k => dirsOK fs k ∧ fs' = withDirs (createMode umask 0o755) fs k
  | .write k mode opened =>
    k ≠ [] ∧ dirsOK fs k.dropLast ∧ (∀ m, fs k ≠ some (.dir m)) ∧
      ∃ rc, opened = .ok rc ∧ rc.err = none ∧ fs' = written umask fs k mode rc.data

/-- The actions succeed one after the other from `fs` and leave `fs'`. -/
def effects (umask : Nat) : FS → List Action → FS → Prop
  | fs, [], fs' => fs' = fs
  | fs, a :: rest, fs' => ∃ s, a.effect umask fs s ∧ effects umask s rest fs'

/-- Two actions do not write the same file. -/
def Action.compat (a b : Action) : Prop :=
  ∀ k1 m1 o1 k2 m2 o2, a = .write k1 m1 o1 → b = .write k2 m2 o2 → k1 ≠ k2

/-! ## Sample states and archives -/

/-- An archive whose third entry escapes the root and whose second entry fails
first: a regular file `a`, a regular file `a/b`, and `../x`. -/
def conflictThenEscape : List TarEntry :=
  [⟨"a".toList, .TypeReg, 0o644, ⟨[1], none⟩⟩,
   ⟨"a/b".toList, .TypeReg, 0o644, ⟨[2], none⟩⟩,
   ⟨"../x".toList, .TypeReg, 0o644, ⟨[3], none⟩⟩]

/-- An empty destination directory `/dest`. -/
def emptyDest : FS := fsOf [([], .dir 0o755), (["dest".toList], .dir 0o755)]

/-- The zip record of the directory `bin/`. -/
def binDirRecord : ZipFile := ⟨"bin/".toList, true, 0o755, .ok ⟨[], none⟩⟩

/-- The zip record of the file `bin/tool`. -/
def binToolRecord : ZipFile := ⟨"bin/tool".toList, false, 0o755, .ok ⟨[127, 69, 76, 70], none⟩⟩

/-- The directory `/dest` with one regular file `x` in it. -/
def destWithFile : FS :=
  fsOf [([], .dir 0o755), (["dest".toList], .dir 0o755),
    (["dest".toList, "x".toList], .file 0o644 [0])]

/-- The zip record of the directory `x/`. -/
def xDirRecord : ZipFile := ⟨"x/".toList, true, 0o755, .ok ⟨[], none⟩⟩

/-- The zip record of the file `y`. -/
def yFileRecord : ZipFile := ⟨"y".toList, false, 0o644, .ok ⟨[7], none⟩⟩

/-- A state with the downloaded file `/tmp/f`, whose content is `abc`. -/
def downloadedAbc : FS :=
  fsOf [([], .dir 0o755), (["tmp".toList], .dir 0o755),
    (["tmp".toList, "f".toList], .file 0o644 [97, 98, 99])]

/-! ## `crypto/sha256` and `encoding/hex` -/

/-- Rotation of a 32-bit word to the right. -/
def rotr (n x : Nat) : Nat := ((x >>> n) ||| (x <<< (32 - n))) % 2 ^ 32

/-- Whether a number is prime, by trial division. -/
def isPrimeNat (n : Nat) : Bool :=
  decide (2 ≤ n) && (List.range n).all (fun d => decide (d < 2) || n % d != 0)

/-- The first 64 primes. -/
def firstPrimes : List Nat := (List.range 312).filter isPrimeNat

/-- The largest `r` below `2 ^ 36` with `r ^ k ≤ x`, found bit by bit. -/
def rootFloor (k x : Nat) : Nat :=
  (List.range 36).foldl
    (fun r i => if (r + 2 ^ (35 - i)) ^ k ≤ x then r + 2 ^ (35 - i) else r) 0

/-- The round constants of SHA-256: the first 32 bits of the fractional parts of
the cube roots of the first 64 primes. -/
def sha256K : List Nat := firstPrimes.map (fun p => rootFloor 3 (p * 2 ^ 96) % 2 ^ 32)

/-- The initial hash value of SHA-256: the first 32 bits of the fractional parts
of the square roots of the first 8 primes. -/
def sha256Init : List Nat :=
  (firstPrimes.take 8).map (fun p => rootFloor 2 (p * 2 ^ 64) % 2 ^ 32)

/-- The message with its padding: a `0x80` byte, zero bytes up to 56 modulo 64,
and the bit length as eight big-endian bytes. -/
def sha256Pad (msg : List Nat) : List Nat :=
  let len := msg.length
  let zeros := (119 - len % 64) % 64
  let bits := len * 8
  msg ++ [0x80] ++ List.replicate zeros 0 ++
    (List.range 8).map (fun i => (bits >>> (8 * (7 - i))) % 256)

/-- The big-endian 32-bit words of a block of bytes. -/
def wordsOf : List Nat → List Nat
  | a :: b :: c :: d :: rest => (a * 2 ^ 24 + b * 2 ^ 16 + c * 2 ^ 8 + d) :: wordsOf rest
  | _ => []

/-- The message schedule, most recent word first, extended by `n` words. -/
def sha256Schedule : Nat → List Nat → List Nat
  | 0, ws => ws
  | n + 1, ws =>
    let w2 := ws.getD 1 0
    let w7 := ws.getD 6 0
    let w15 := ws.getD 14 0
    let w16 := ws.getD 15 0
    let s0 := rotr 7 w15 ^^^ rotr 18 w15 ^^^ (w15 >>> 3)
    let s1 := rotr 17 w2 ^^^ rotr 19 w2 ^^^ (w2 >>> 10)
    sha256Schedule n (((w16 + s0 + w7 + s1) % 2 ^ 32) :: ws)

/-- One round of the compression function on the working variables `a` to `h`. -/
def sha256Round (v : List Nat) (kw : Nat × Nat) : List Nat :=
  match v with
  | [a, b, c, d, e, f, g, h] =>
    let s1 := rotr 6 e ^^^ rotr 11 e ^^^ rotr 25 e
    let ch := (e &&& f) ^^^ ((2 ^ 32 - 1 - e) &&& g)
    let t1 := (h + s1 + ch + kw.1 + kw.2) % 2 ^ 32
    let s0 := rotr 2 a ^^^ rotr 13 a ^^^ rotr 22 a
    let maj := (a &&& b) ^^^ (a &&& c) ^^^ (b &&& c)
    let t2 := (s0 + maj) % 2 ^ 32
    [(t1 + t2) % 2 ^ 32, a, b, c, (d + t1) % 2 ^ 32, e, f, g]
  | _ => v

/-- The compression of one 64-byte block into the hash value. -/
def sha256Block (hash : List Nat) (block : List Nat) : List Nat :=
  let ws := (sha256Schedule 48 (wordsOf block).reverse).reverse
  let v := (sha256K.zip ws).foldl sha256Round hash
  List.zipWith (fun x y => (x + y) % 2 ^ 32) hash v

/-- The digest `sha256.New()` computes of everything written to it. -/
def sha256Sum (data : Bytes) : Bytes :=
  let padded := sha256Pad (data.map UInt8.toNat)
  let hash := (List.range (padded.length / 64)).foldl
    (fun h i => sha256Block h ((padded.drop (64 * i)).take 64)) sha256Init
  hash.flatMap (fun w => [(w >>> 24) % 256, (w >>> 16) % 256, (w >>> 8) % 256, w % 256].map
    (fun b => UInt8.ofNat b))

/-- The lower-case hexadecimal digit of a number below 16. -/
def hexDigit (n : Nat) : Char := "0123456789abcdef".toList.getD n '0'

/-- The encoder `hex.EncodeToString`: two lower-case digits per byte. -/
def hexEncodeToString (data : Bytes) : GoString :=
  data.flatMap (fun b => [hexDigit (b.toNat / 16), hexDigit (b.toNat % 16)])

/-! ## `internal/installer/installer.go`: checksum -/

/-- The read side of `os.Open(path)` followed by reading to the end: the content
of a regular file; a directory opens but cannot be read; a missing file does
not open. -/
def openRead (wd : Except GoError GoString) (fs : FS) (path : GoString) :
    Except GoError Reader :=
  match resolve wd path with
  | .error e => .error e
  | .ok k =>
    match fs k with
    | some (.file _ data) => .ok ⟨data, none⟩
    | some (.dir _) => .ok ⟨[], some (.sys "read".toList path "is a directory".toList)⟩
    | none => .error (.sys "open".toList path "no such file or directory".toList)

/-- Source `verifyChecksum`. -/
def verifyChecksum (wd : Except GoError GoString) (fs : FS) (filepath expected : GoString) :
    Option GoError :=
  match openRead wd fs filepath with
  | .error err => some err
  | .ok f =>
    match f.err with
    | some err => some err
    | none =>
      let actual := hexEncodeToString (sha256Sum f.data)
      if actual ≠ expected then
        some (.errorf ("expected ".toList ++ expected ++ ", got ".toList ++ actual))
      else none

/-- The lower-case form of an ASCII letter; any other character is kept. -/
def asciiLower (c : Char) : Char :=
  if 'A' ≤ c ∧ c ≤ 'Z' then Char.ofNat (c.toNat + 32) else c

/-- Equality of two strings up to the case of ASCII letters. -/
def equalFold (a b : GoString) : Bool := a.map asciiLower == b.map asciiLower

/-! ## `internal/util/platform.go` -/

/-- Source `Platform`: the operating system. -/
inductive Platform where
  | Darwin
  | Linux
deriving DecidableEq, Repr

/-- Source `Arch`: the CPU architecture. -/
inductive Arch where
  | X86_64
  | Aarch64
deriving DecidableEq, Repr

/-- The string of a `Platform` constant. -/
def Platform.str : Platform → GoString
  | .Darwin => "darwin".toList
  | .Linux => "linux".toList

/-- The string of an `Arch` constant. -/
def Arch.str : Arch → GoString
  | .X86_64 => "x86_64".toList
  | .Aarch64 => "aarch64".toList

/-- Source `GetSystemInfo`, on the values of `runtime.GOOS` and `runtime.GOARCH`. -/
def GetSystemInfo (GOOS GOARCH : GoString) : Except GoError (Platform × Arch) :=
  let p : Option Platform :=
    if GOOS = "darwin".toList then some .Darwin
    else if GOOS = "linux".toList then some .Linux
    else none
  match p with
  | none => .error (.errorf ("unsupported platform: ".toList ++ GOOS))
  | some p =>
    let a : Option Arch :=
      if GOARCH = "amd64".toList then some .X86_64
      else if GOARCH = "arm64".toList then some .Aarch64
      else none
    match a with
    | none => .error (.errorf ("unsupported architecture: ".toList ++ GOARCH))
    | some a => .ok (p, a)

/-! ## `internal/gh/client.go` -/

/-- Source `Asset`. -/
structure Asset where
  Name : GoString
  BrowserDownloadURL : GoString
  Digest : GoString
deriving DecidableEq, Repr

/-- Source `Release`; `PublishedAt` is an instant on the time line. -/
structure Release where
  TagName : GoString
  PublishedAt : Int
  Prerelease : Bool
  Draft : Bool
  Assets : List Asset
deriving DecidableEq, Repr

/-- How a call ends: it returns, or the Go run time panics. -/
inductive Outcome (α : Type) where
  | returned (a : α)
  | panicked (msg : GoString)
deriving DecidableEq, Repr

/-- What the world outside the program answers during one run: the platform, the
working directory, the file mode creation mask of the process, the directory
`os.MkdirTemp` picks, the body served for a
download URL, the release served for an API URL, and what the decoders of
`compress/gzip`, `archive/tar` and `archive/zip` make of the bytes of a file. -/
structure Host where
  GOOS : GoString
  GOARCH : GoString
  wd : Except GoError GoString
  umask : Nat
  tempDir : Except GoError GoString
  download : GoString → Except GoError Reader
  release : GoString → Except GoError Release
  untargz : Bytes → Except GoError TarReader
  gunzip : Bytes → Except GoError Reader
  unzip : Bytes → Except GoError (List ZipFile)

/-- The constant `githubAPIBaseURL`. -/
def githubAPIBaseURL : GoString := "https://api.github.com".toList

/-- The URL requested by source `GetReleaseByTag`. -/
def releaseURL (repo tag : GoString) : GoString :=
  githubAPIBaseURL ++ "/repos/".toList ++ repo ++ "/releases/tags/".toList ++ tag

/-- Source `Client.GetReleaseByTag`: the decoded release, or the error of the
request, of the status or of the decoder. -/
def GetReleaseByTag (host : Host) (repo tag : GoString) : Except GoError Release :=
  host.release (releaseURL repo tag)

/-- The length of a string in bytes, `len(s)`. -/
def byteLen (s : GoString) : Nat := (s.map Char.utf8Size).sum

/-- The slice `s[n:]` of a string whose length is at least `n` bytes. A byte left
over from a character that the cut splits is shown as U+FFFD. -/
def sliceFrom : GoString → Nat → GoString
  | [], _ => []
  | c :: cs, n =>
    if n = 0 then c :: cs
    else if c.utf8Size ≤ n then sliceFrom cs (n - c.utf8Size)
    else List.replicate (c.utf8Size - n) (Char.ofNat 0xFFFD) ++ cs

/-- Source `Client.GetAssetChecksum`: the checksum (digest) of an asset if
available, the empty string if the asset is not found or has no digest. The
slice `asset.Digest[7:]` panics on a digest shorter than seven bytes. -/
def GetAssetChecksum (host : Host) (repo tag filename : GoString) :
    Outcome (GoString × Option GoError) :=
  match GetReleaseByTag host repo tag with
  | .error err => .returned ([], some err)
  | .ok release =>
    match release.Assets.find? (fun asset => asset.Name = filename) with
    | some asset =>
      if asset.Digest ≠ [] then
        if byteLen asset.Digest < 7 then
          .panicked "runtime error: slice bounds out of range".toList
        else .returned (sliceFrom asset.Digest 7, none)
      else .returned ([], none)
    | none => .returned ([], none)

/-! ## `internal/registry/registry.go`: tool profiles -/

/-- Source `PluginConfig`: the configuration of a tool. A map is the function
that looks a key up; a function field that may be `nil` is an option. -/
structure PluginConfig where
  Name : GoString
  Cmd : GoString
  Repo : GoString
  AssetTemplate : GoString
  RelativeBinPathTemplate : GoString
  StripComponents : Nat
  ReleaseFilter : Option (Release → Bool)
  PlatformMap : Platform → Option GoString
  ArchMap : Arch → Option GoString
  FormatVersion : Option (GoString → GoString)
  RecoverVersion : Option (GoString → GoString)

/-- Source `NoOpVersion`. -/
def NoOpVersion (v : GoString) : GoString := v

/-- The entry `Registry["zls"]`. -/
def zls : PluginConfig where
  Name := "zls".toList
  Cmd := "zls".toList
  Repo := "zigtools/zls".toList
  AssetTemplate := "zls-\x7b\x7b.Arch\x7d\x7d-\x7b\x7b.Platform\x7d\x7d.tar.xz".toList
  RelativeBinPathTemplate := "zls".toList
  StripComponents := 0
  ReleaseFilter := none
  ArchMap := fun a => match a with
    | .X86_64 => some "x86_64".toList
    | .Aarch64 => some "aarch64".toList
  PlatformMap := fun p => match p with
    | .Darwin => some "macos".toList
    | .Linux => some "linux".toList
  FormatVersion := some NoOpVersion
  RecoverVersion := some NoOpVersion

/-! ## `text/template`, as far as the registry uses it -/

/-- Source `Context`: the data a template is rendered with. -/
structure Context where
  Version : GoString
  Platform : GoString
  Arch : GoString
deriving DecidableEq, Repr

/-- A piece of a template: text to copy, or the inside of an action. -/
inductive Piece where
  | text (s : GoString)
  | action (s : GoString)
deriving DecidableEq, Repr

/-- The pieces of a template, cut at the action delimiters; `cur` is the piece
being read, last character first. An action that is not closed is an error. -/
def lexTemplate : GoString → Bool → GoString → Except GoError (List Piece)
  | [], false, cur => .ok [.text cur.reverse]
  | [], true, _ => .error (.external "template: unclosed action".toList)
  | [c], inAction, cur => lexTemplate [] inAction (c :: cur)
  | c :: d :: rest, inAction, cur =>
    if !inAction && c = '\x7b' && d = '\x7b' then
      match lexTemplate rest true [] with
      | .error e => .error e
      | .ok ps => .ok (.text cur.reverse :: ps)
    else if inAction && c = '\x7d' && d = '\x7d' then
      match lexTemplate rest false [] with
      | .error e => .error e
      | .ok ps => .ok (.action cur.reverse :: ps)
    else lexTemplate (d :: rest) inAction (c :: cur)

/-- The words of an action: what stands between its blanks. -/
def actionWords (s : GoString) : List GoString :=
  (Split ' ' s).filter (fun w => decide (w ≠ []))

/-- The field of the context named by `.Version`, `.Platform` or `.Arch`; any
other field cannot be evaluated. -/
def Context.field (ctx : Context) (name : GoString) : Except GoError GoString :=
  if name = ".Version".toList then .ok ctx.Version
  else if name = ".Platform".toList then .ok ctx.Platform
  else if name = ".Arch".toList then .ok ctx.Arch
  else .error (.external ("template: can't evaluate field ".toList ++ name))

/-- The double quote that delimits a string in an action. -/
def quoteChar : Char := Char.ofNat 34

/-- Where the execution of a template stands with respect to an `if` action. -/
inductive Branch where
  | top
  | thenTaken
  | thenSkipped
  | elseTaken
  | elseSkipped
deriving DecidableEq, Repr

/-- Whether text and fields are written at this point. -/
def Branch.emits : Branch → Bool
  | .top | .thenTaken | .elseTaken => true
  | _ => false

/-- The execution of the pieces of a template. The actions are a field, an
`if eq <field> "<text>"` with its `else` and `end`, not nested; anything else is
reported as an error. -/
def execPieces (ctx : Context) : List Piece → Branch → GoString → Except GoError GoString
  | [], .top, out => .ok out
  | [], _, _ => .error (.external "template: unexpected EOF".toList)
  | .text s :: rest, b, out => execPieces ctx rest b (if b.emits then out ++ s else out)
  | .action a :: rest, b, out =>
    match actionWords a with
    | [w] =>
      if w = "else".toList then
        match b with
        | .thenTaken => execPieces ctx rest .elseSkipped out
        | .thenSkipped => execPieces ctx rest .elseTaken out
        | _ => .error (.external "template: unexpected else".toList)
      else if w = "end".toList then
        match b with
        | .top => .error (.external "template: unexpected end".toList)
        | _ => execPieces ctx rest .top out
      else if b.emits then
        match ctx.field w with
        | .error e => .error e
        | .ok v => execPieces ctx rest b (out ++ v)
      else execPieces ctx rest b out
    | [kw, fn, fld, lit] =>
      if kw = "if".toList ∧ fn = "eq".toList ∧ b = .top then
        match ctx.field fld with
        | .error e => .error e
        | .ok v =>
          if quoteChar :: v ++ [quoteChar] = lit then execPieces ctx rest .thenTaken out
          else execPieces ctx rest .thenSkipped out
      else .error (.external ("template: unsupported action ".toList ++ a))
    | _ => .error (.external ("template: unsupported action ".toList ++ a))

/-- Source `renderTemplate`: parses the template and executes it on the data. -/
def renderTemplate (tmplStr : GoString) (data : Context) : Except GoError GoString :=
  match lexTemplate tmplStr false [] with
  | .error err => .error err
  | .ok pieces => execPieces data pieces .top []

/-! ## The rest of `os` -/

/-- What a run can observe and change: the file system, the lines printed on the
standard output, and the URLs requested over the network, oldest first. -/
structure World where
  fs : FS
  stdout : List GoString
  requests : List GoString

/-- The world after a line has been printed. -/
def World.print (w : World) (line : GoString) : World :=
  { w with stdout := w.stdout ++ [line] }

/-- The world after a URL has been requested. -/
def World.request (w : World) (url : GoString) : World :=
  { w with requests := w.requests ++ [url] }

/-- The error of `os.Stat` on a location, walking down from `cur`: nothing on the
way is `ENOENT`, a regular file on the way is `ENOTDIR`; `none` when the location
holds a node. -/
def statErr (fs : FS) (cur : Key) : Key → Option GoString
  | [] =>
    match fs cur with
    | none => some "no such file or directory".toList
    | some _ => none
  | c :: todo =>
    match fs cur with
    | none => some "no such file or directory".toList
    | some (.file _ _) => some "not a directory".toList
    | some (.dir _) => statErr fs (cur ++ [c]) todo

/-- The test `_, err := os.Stat(path); os.IsNotExist(err)`. -/
def statNotExist (wd : Except GoError GoString) (fs : FS) (path : GoString) : Bool :=
  match resolve wd path with
  | .error _ => true
  | .ok k => statErr fs [] k = some "no such file or directory".toList

/-- The call `os.MkdirTemp("", "sous-chef")`: makes the fresh directory that the
host picks, under an existing directory. Gives the new state and the path. -/
def MkdirTemp (host : Host) (fs : FS) : Except GoError (FS × GoString) :=
  match host.tempDir with
  | .error e => .error e
  | .ok dir =>
    match resolve host.wd dir with
    | .error e => .error e
    | .ok k =>
      match fs k, fs k.dropLast with
      | none, some (.dir _) => .ok (fs.set k (.dir (createMode host.umask 0o700)), dir)
      | some _, _ => .error (.sys "mkdir".toList dir "file exists".toList)
      | none, _ => .error (.sys "mkdir".toList dir "no such file or directory".toList)

/-- The call `os.RemoveAll(path)`: removes the node and everything below it. -/
def RemoveAll (wd : Except GoError GoString) (fs : FS) (path : GoString) : FS :=
  match resolve wd path with
  | .error _ => fs
  | .ok k => fun q => if k.isPrefixOf q then none else fs q

/-- The call `os.Rename(src, dst)`. A regular file replaces a regular file or
takes a free name in an existing directory; a directory moves with everything
below it to a free name. Moving a directory onto an existing node is reported as
an error, also where the host would replace an empty directory. -/
def Rename (wd : Except GoError GoString) (fs : FS) (src dst : GoString) : Except GoError FS :=
  match resolve wd src, resolve wd dst with
  | .error e, _ => .error e
  | _, .error e => .error e
  | .ok ks, .ok kd =>
    match statErr fs [] ks with
    | some errno => .error (.sys "rename".toList src errno)
    | none =>
      if ks = kd then .ok fs
      else
        match fs kd.dropLast with
        | some (.dir _) =>
          match fs ks, fs kd with
          | some (.file _ _), some (.dir _) =>
            .error (.sys "rename".toList src "file exists".toList)
          | some (.file m d), _ =>
            .ok (fun q => if q = kd then some (.file m d) else if q = ks then none else fs q)
          | some (.dir _), some _ => .error (.sys "rename".toList src "file exists".toList)
          | some (.dir _), none =>
            if ks.isPrefixOf kd then .error (.sys "rename".toList src "invalid argument".toList)
            else
              .ok (fun q =>
                if kd.isPrefixOf q then fs (ks ++ q.drop kd.length)
                else if ks.isPrefixOf q then none else fs q)
          | none, _ => .error (.sys "rename".toList src "no such file or directory".toList)
        | some (.file _ _) => .error (.sys "rename".toList src "not a directory".toList)
        | none => .error (.sys "rename".toList src "no such file or directory".toList)

/-- The call `os.Chmod(path, perm)`. -/
def Chmod (wd : Except GoError GoString) (fs : FS) (path : GoString) (perm : Nat) :
    Except GoError FS :=
  match resolve wd path with
  | .error e => .error e
  | .ok k =>
    match statErr fs [] k, fs k with
    | none, some (.file _ d) => .ok (fs.set k (.file perm d))
    | none, some (.dir _) => .ok (fs.set k (.dir perm))
    | some errno, _ => .error (.sys "chmod".toList path errno)
    | none, none => .error (.sys "chmod".toList path "no such file or directory".toList)

/-! ## `internal/util/archive.go`: single files -/

/-- Source `ExtractGz`: extracts a single .gz file to `dest`. `src` is what
opening the file and reading its gzip header gives: an error, or the stream of
the decompressed bytes. -/
def ExtractGz (umask : Nat) (wd : Except GoError GoString) (fs : FS) (src : Except GoError Reader)
    (dest : GoString) : FS × Option GoError :=
  match src with
  | .error err => (fs, some err)
  | .ok gzr =>
    match MkdirAll umask wd fs (Dir dest) 0o755 with
    | .error err => (fs, some err)
    | .ok fs1 =>
      match OpenFile umask wd fs1 dest 0o666 with
      | .error err => (fs1, some err)
      | .ok (fs2, out) => ioCopy fs2 out gzr

/-- Source `CopyFile`: copies a file from `src` to `dst`. -/
def CopyFile (umask : Nat) (wd : Except GoError GoString) (fs : FS) (src dst : GoString) :
    FS × Option GoError :=
  match openRead wd fs src with
  | .error err => (fs, some err)
  | .ok inp =>
    match OpenFile umask wd fs dst 0o666 with
    | .error err => (fs, some err)
    | .ok (fs1, out) => ioCopy fs1 out inp

/-! ## `internal/gh/client.go`: download -/

/-- The URL requested by source `DownloadReleaseAsset`. -/
def assetURL (repo tag filename : GoString) : GoString :=
  "https://github.com/".toList ++ repo ++ "/releases/download/".toList ++ tag ++
    "/".toList ++ filename

/-- Source `Client.DownloadReleaseAsset`: downloads a release asset to a
destination path. The host answers the request with an error (of the transport, or
for a status other than 200) or with the body. -/
def DownloadReleaseAsset (host : Host) (w : World) (repo tag filename destPath : GoString) :
    World × Option GoError :=
  let w1 := w.request (assetURL repo tag filename)
  match host.download (assetURL repo tag filename) with
  | .error err => (w1, some err)
  | .ok body =>
    match OpenFile host.umask host.wd w1.fs destPath 0o666 with
    | .error err => (w1, some err)
    | .ok (fs1, out) =>
      match ioCopy fs1 out body with
      | (fs2, err) => ({ w1 with fs := fs2 }, err)

/-! ## `internal/installer/installer.go`: `Install` -/

/-- The branches of the `if` chain by which `Install` extracts the artifact. -/
inductive Variant where
  | tarGz
  | gz
  | zip
  | raw
deriving DecidableEq, Repr

/-- The branch `Install` takes for a file name: the suffix tests of the `if`
chain, in their order. -/
def variantOf (filename : GoString) : Variant :=
  if ".tar.gz".toList.isSuffixOf filename || ".tgz".toList.isSuffixOf filename then .tarGz
  else if ".gz".toList.isSuffixOf filename then .gz
  else if ".zip".toList.isSuffixOf filename then .zip
  else .raw

/-- What a decoder makes of the file at `path`. -/
def decodeFile {α : Type} (dec : Bytes → Except GoError α) (wd : Except GoError GoString)
    (fs : FS) (path : GoString) : Except GoError α :=
  match openRead wd fs path with
  | .error err => .error err
  | .ok f =>
    match f.err with
    | some err => .error err
    | none => dec f.data

/-- The step `Extract` of source `Install`: the branch chosen by the file name. -/
def extractArtifact (host : Host) (fs : FS) (plugin : PluginConfig)
    (filename downloadPath installDir relBinPath : GoString) : FS × Option GoError :=
  match variantOf filename with
  | .tarGz =>
    ExtractTarGz host.umask host.wd fs (decodeFile host.untargz host.wd fs downloadPath) installDir
      plugin.StripComponents
  | .gz =>
    ExtractGz host.umask host.wd fs (decodeFile host.gunzip host.wd fs downloadPath)
      (Join [installDir, relBinPath])
  | .zip =>
    ExtractZip host.umask host.wd fs (decodeFile host.unzip host.wd fs downloadPath) installDir
      plugin.StripComponents
  | .raw =>
    let targetPath := Join [installDir, relBinPath]
    match MkdirAll host.umask host.wd fs (Dir targetPath) 0o755 with
    | .error err => (fs, some err)
    | .ok fs1 => CopyFile host.umask host.wd fs1 downloadPath targetPath

/-- The steps of source `Install` after extraction: locate the binary, move it to
`bin/`, and make it executable. -/
def relocate (host : Host) (w : World) (plugin : PluginConfig)
    (installDir relBinPath : GoString) : World × Option GoError :=
  let srcBin := Join [installDir, relBinPath]
  let destBinDir := Join [installDir, "bin".toList]
  match MkdirAll host.umask host.wd w.fs destBinDir 0o755 with
  | .error err => (w, some err)
  | .ok fs1 =>
    let w1 : World := { w with fs := fs1 }
    let destBin := Join [destBinDir, plugin.Cmd]
    if statNotExist host.wd fs1 srcBin then
      (w1, some (.errorf ("binary not found at ".toList ++ srcBin)))
    else
      let moved : World × Option GoError :=
        if srcBin ≠ destBin then
          let w2 := w1.print ("Moving ".toList ++ srcBin ++ " to ".toList ++ destBin ++ "...".toList)
          match Rename host.wd w2.fs srcBin destBin with
          | .error err => (w2, some err)
          | .ok fs2 => ({ w2 with fs := fs2 }, none)
        else (w1, none)
      match moved with
      | (w3, some err) => (w3, some err)
      | (w3, none) =>
        match Chmod host.wd w3.fs destBin 0o755 with
        | .error err => (w3, some err)
        | .ok fs3 => ({ w3 with fs := fs3 }, none)

/-- The steps of source `Install` from the rendering of the relative binary path
on: render, extract, relocate. -/
def afterChecksum (host : Host) (w : World) (plugin : PluginConfig) (ctx : Context)
    (filename downloadPath installDir : GoString) : World × Outcome (Option GoError) :=
  match renderTemplate plugin.RelativeBinPathTemplate ctx with
  | .error err =>
    (w, .returned (some (.wrapf "failed to render relative bin path: ".toList err [])))
  | .ok relBinPath =>
    let w1 := w.print ("Extracting to ".toList ++ installDir ++ "...".toList)
    match extractArtifact host w1.fs plugin filename downloadPath installDir relBinPath with
    | (fs2, some err) => ({ w1 with fs := fs2 }, .returned (some err))
    | (fs2, none) =>
      match relocate host { w1 with fs := fs2 } plugin installDir relBinPath with
      | (w3, err) => (w3, .returned err)

/-- The line printed before the download. -/
def downloadingLine (plugin : PluginConfig) (filename tag : GoString) : GoString :=
  "Downloading ".toList ++ (plugin.Repo ++ "/".toList ++ filename ++ "@".toList ++ tag ++
    "...".toList)

/-- The line printed when the checksum cannot be fetched. -/
def warningLine (err : GoError) : GoString :=
  "Warning: failed to get checksum: ".toList ++ err.Error

/-- The line printed before the checksum is verified. -/
def verifyingLine (filename : GoString) : GoString :=
  "Verifying checksum for ".toList ++ (filename ++ "...".toList)

/-- The line printed after the checksum has been verified. -/
def verifiedLine : GoString := "Checksum verified.".toList

/-- The line printed when there is no checksum to verify. -/
def skippedLine : GoString := "No checksum found in GitHub API, skipping verification.".toList

/-- The lines printed for the error of `GetAssetChecksum`: a warning, if there is
an error. -/
def warningLines (err : Option GoError) : List GoString :=
  match err with
  | some e => [warningLine e]
  | none => []

/-- The world after the error of `GetAssetChecksum`, if any, has been reported. -/
def noteChecksumError (w : World) (err : Option GoError) : World :=
  match err with
  | some e => w.print (warningLine e)
  | none => w

/-- The steps of source `Install` while the temporary directory exists: download,
checksum, and the rest. -/
def installInTemp (host : Host) (w : World) (plugin : PluginConfig) (ctx : Context)
    (filename tag tempDir installDir : GoString) : World × Outcome (Option GoError) :=
  let downloadPath := Join [tempDir, filename]
  let w1 := w.print (downloadingLine plugin filename tag)
  match DownloadReleaseAsset host w1 plugin.Repo tag filename downloadPath with
  | (w2, some err) => (w2, .returned (some (.wrapf "failed to download asset: ".toList err [])))
  | (w2, none) =>
    let w3 := w2.request (releaseURL plugin.Repo tag)
    match GetAssetChecksum host plugin.Repo tag filename with
    | .panicked msg => (w3, .panicked msg)
    | .returned (checksum, err) =>
      let w4 := noteChecksumError w3 err
      if checksum ≠ [] then
        let w5 := w4.print (verifyingLine filename)
        match verifyChecksum host.wd w5.fs downloadPath checksum with
        | some e =>
          (w5, .returned (some (.wrapf "checksum verification failed: ".toList e [])))
        | none =>
          afterChecksum host (w5.print verifiedLine) plugin ctx filename downloadPath installDir
      else
        afterChecksum host (w4.print skippedLine) plugin ctx filename downloadPath installDir

/-- The data the templates are rendered with: the version, and the platform and
architecture strings of the plugin where its maps have them. -/
def renderContext (plugin : PluginConfig) (version : GoString) (plat : Platform) (arch : Arch) :
    Context :=
  let platStr := match plugin.PlatformMap plat with
    | some val => val
    | none => plat.str
  let archStr := match plugin.ArchMap arch with
    | some val => val
    | none => arch.str
  { Version := version, Platform := platStr, Arch := archStr }

/-- The GitHub tag of a display version. -/
def releaseTag (plugin : PluginConfig) (version : GoString) : GoString :=
  match plugin.RecoverVersion with
  | some f => f version
  | none => version

/-- Source `Install`: handles the download and installation of a tool. The
deferred `os.RemoveAll(tempDir)` runs however the steps after its creation
end. -/
def Install (host : Host) (w : World) (plugin : PluginConfig) (version installDir : GoString) :
    World × Outcome (Option GoError) :=
  match GetSystemInfo host.GOOS host.GOARCH with
  | .error err => (w, .returned (some err))
  | .ok (plat, arch) =>
    let ctx := renderContext plugin version plat arch
    match renderTemplate plugin.AssetTemplate ctx with
    | .error err => (w, .returned (some (.wrapf "failed to render filename: ".toList err [])))
    | .ok filename =>
      let tag := releaseTag plugin version
      match MkdirTemp host w.fs with
      | .error err => (w, .returned (some err))
      | .ok (fs1, tempDir) =>
        match installInTemp host { w with fs := fs1 } plugin ctx filename tag tempDir installDir with
        | (w', r) => ({ w' with fs := RemoveAll host.wd w'.fs tempDir }, r)

/-- A line printed by the steps after the checksum. -/
def isLateLine (l : GoString) : Prop :=
  (∃ x, l = "Extracting to ".toList ++ x) ∨ (∃ x, l = "Moving ".toList ++ x)

/-! ## Sample hosts -/

/-- A Linux host on amd64, with the umask 022, that serves the asset
`zls-x86_64-linux.tar.xz` of the release `0.15.0` of `zigtools/zls`, an xz stream,
with no digest. -/
def zlsHost : Host where
  GOOS := "linux".toList
  GOARCH := "amd64".toList
  wd := .ok "/home/u".toList
  umask := 0o022
  tempDir := .ok "/tmp/sous-chef1".toList
  download := fun url =>
    if url = ("https://github.com/zigtools/zls/releases/download/0.15.0/".toList ++
        "zls-x86_64-linux.tar.xz".toList) then
      .ok ⟨[253, 55, 122, 88, 90, 0], none⟩
    else .error (.errorf "download failed: 404 Not Found".toList)
  release := fun _ =>
    .ok ⟨"0.15.0".toList, 0, false, false, [⟨"zls-x86_64-linux.tar.xz".toList, [], []⟩]⟩
  untargz := fun _ => .error (.external "gzip: invalid header".toList)
  gunzip := fun _ => .error (.external "gzip: invalid header".toList)
  unzip := fun _ => .error (.external "zip: not a valid zip file".toList)

/-- A world with the directories `/tmp` and `/home/u`, nothing printed and
nothing requested. -/
def freshWorld : World :=
  ⟨fsOf [([], .dir 0o755), (["tmp".toList], .dir 0o755), (["home".toList], .dir 0o755),
    (["home".toList, "u".toList], .dir 0o755)], [], []⟩

/-! ## `internal/registry/registry.go`: the registry -/

/-- The cut `strings.TrimPrefix(s, p)`: `s` without the leading `p`, if it has it. -/
def trimLeading (s p : GoString) : GoString :=
  if p.isPrefixOf s then s.drop p.length else s

/-- The replacement `strings.ReplaceAll(s, old, new)` for one-character strings. -/
def replaceAllChar (s : GoString) (old new : Char) : GoString :=
  s.map (fun c => if c = old then new else c)

/-- Source `RemoveVPrefixFormatVersion`. -/
def RemoveVPrefixFormatVersion (v : GoString) : GoString := trimLeading v "v".toList

/-- Source `AddVPrefixRecoverVersion`: adds the `v` in front of a version that
starts with a digit. -/
def AddVPrefixRecoverVersion (v : GoString) : GoString :=
  match v with
  | [] => v
  | c :: _ =>
    if !"v".toList.isPrefixOf v && decide ('0' ≤ c) && decide (c ≤ '9') then 'v' :: v else v

/-- Source `GetDisplayVersion`: converts a GitHub tag to a user-friendly version
string. -/
def GetDisplayVersion (p : PluginConfig) (tag : GoString) : GoString :=
  match p.FormatVersion with
  | some f => f tag
  | none => tag

/-- The entry `Registry["neovim"]`. -/
def neovim : PluginConfig where
  Name := "neovim".toList
  Cmd := "nvim".toList
  Repo := "neovim/neovim".toList
  AssetTemplate := "nvim-\x7b\x7b.Platform\x7d\x7d-\x7b\x7b.Arch\x7d\x7d.tar.gz".toList
  RelativeBinPathTemplate := "bin/nvim".toList
  StripComponents := 1
  ReleaseFilter := none
  PlatformMap := fun x => match x with
    | .Darwin => some "macos".toList
    | .Linux => some "linux".toList
  ArchMap := fun x => match x with
    | .X86_64 => some "x86_64".toList
    | .Aarch64 => some "arm64".toList
  FormatVersion := some RemoveVPrefixFormatVersion
  RecoverVersion := some AddVPrefixRecoverVersion

/-- The entry `Registry["rust-analyzer"]`. -/
def rustAnalyzer : PluginConfig where
  Name := "rust-analyzer".toList
  Cmd := "rust-analyzer".toList
  Repo := "rust-lang/rust-analyzer".toList
  AssetTemplate := "rust-analyzer-\x7b\x7b.Arch\x7d\x7d-\x7b\x7b.Platform\x7d\x7d.gz".toList
  RelativeBinPathTemplate := "rust-analyzer".toList
  StripComponents := 0
  ReleaseFilter := none
  PlatformMap := fun x => match x with
    | .Darwin => some "apple-darwin".toList
    | .Linux => some "unknown-linux-gnu".toList
  ArchMap := fun _ => none
  FormatVersion := some (fun v => replaceAllChar v '-' '.')
  RecoverVersion := some (fun v => replaceAllChar v '.' '-')

/-- The entry `Registry["lazygit"]`. -/
def lazygit : PluginConfig where
  Name := "lazygit".toList
  Cmd := "lazygit".toList
  Repo := "jesseduffield/lazygit".toList
  AssetTemplate := "lazygit_\x7b\x7b.Version\x7d\x7d_\x7b\x7b.Platform\x7d\x7d_\x7b\x7b.Arch\x7d\x7d.tar.gz".toList
  RelativeBinPathTemplate := "lazygit".toList
  StripComponents := 0
  ReleaseFilter := none
  PlatformMap := fun x => match x with
    | .Darwin => some "darwin".toList
    | .Linux => some "linux".toList
  ArchMap := fun x => match x with
    | .X86_64 => some "x86_64".toList
    | .Aarch64 => some "arm64".toList
  FormatVersion := some RemoveVPrefixFormatVersion
  RecoverVersion := some AddVPrefixRecoverVersion

/-- The entry `Registry["fzf"]`. -/
def fzf : PluginConfig where
  Name := "fzf".toList
  Cmd := "fzf".toList
  Repo := "junegunn/fzf".toList
  AssetTemplate := "fzf-\x7b\x7b.Version\x7d\x7d-\x7b\x7b.Platform\x7d\x7d_\x7b\x7b.Arch\x7d\x7d.tar.gz".toList
  RelativeBinPathTemplate := "fzf".toList
  StripComponents := 0
  ReleaseFilter := none
  PlatformMap := fun x => match x with
    | .Darwin => some "darwin".toList
    | .Linux => some "linux".toList
  ArchMap := fun x => match x with
    | .X86_64 => some "amd64".toList
    | .Aarch64 => some "arm64".toList
  FormatVersion := some RemoveVPrefixFormatVersion
  RecoverVersion := some AddVPrefixRecoverVersion

/-- The entry `Registry["fd"]`. -/
def fd : PluginConfig where
  Name := "fd".toList
  Cmd := "fd".toList
  Repo := "sharkdp/fd".toList
  AssetTemplate := "fd-v\x7b\x7b.Version\x7d\x7d-\x7b\x7b.Arch\x7d\x7d-\x7b\x7b.Platform\x7d\x7d.tar.gz".toList
  RelativeBinPathTemplate := "fd".toList
  StripComponents := 1
  ReleaseFilter := none
  PlatformMap := fun x => match x with
    | .Darwin => some "apple-darwin".toList
    | .Linux => some "unknown-linux-gnu".toList
  ArchMap := fun _ => none
  FormatVersion := some RemoveVPrefixFormatVersion
  RecoverVersion := some AddVPrefixRecoverVersion

/-- The entry `Registry["ripgrep"]`. -/
def ripgrep : PluginConfig where
  Name := "ripgrep".toList
  Cmd := "rg".toList
  Repo := "BurntSushi/ripgrep".toList
  AssetTemplate := "ripgrep-\x7b\x7b.Version\x7d\x7d-\x7b\x7b.Arch\x7d\x7d-\x7b\x7b.Platform\x7d\x7d.tar.gz".toList
  RelativeBinPathTemplate := "rg".toList
  StripComponents := 1
  ReleaseFilter := none
  PlatformMap := fun x => match x with
    | .Darwin => some "apple-darwin".toList
    | .Linux => some "unknown-linux-musl".toList
  ArchMap := fun _ => none
  FormatVersion := some NoOpVersion
  RecoverVersion := some NoOpVersion

/-- The entry `Registry["gh"]`. -/
def gh : PluginConfig where
  Name := "gh".toList
  Cmd := "gh".toList
  Repo := "cli/cli".toList
  AssetTemplate := "gh_\x7b\x7b.Version\x7d\x7d_\x7b\x7b.Platform\x7d\x7d_\x7b\x7b.Arch\x7d\x7d.\x7b\x7bif eq .Platform \"macOS\"\x7d\x7dzip\x7b\x7belse\x7d\x7dtar.gz\x7b\x7bend\x7d\x7d".toList
  RelativeBinPathTemplate := "bin/gh".toList
  StripComponents := 1
  ReleaseFilter := none
  PlatformMap := fun x => match x with
    | .Darwin => some "macOS".toList
    | .Linux => some "linux".toList
  ArchMap := fun x => match x with
    | .X86_64 => some "amd64".toList
    | .Aarch64 => some "arm64".toList
  FormatVersion := some RemoveVPrefixFormatVersion
  RecoverVersion := some AddVPrefixRecoverVersion

/-- The entry `Registry["shfmt"]`. -/
def shfmt : PluginConfig where
  Name := "shfmt".toList
  Cmd := "shfmt".toList
  Repo := "mvdan/sh".toList
  AssetTemplate := "shfmt_v\x7b\x7b.Version\x7d\x7d_\x7b\x7b.Platform\x7d\x7d_\x7b\x7b.Arch\x7d\x7d".toList
  RelativeBinPathTemplate := "shfmt".toList
  StripComponents := 0
  ReleaseFilter := none
  PlatformMap := fun _ => none
  ArchMap := fun x => match x with
    | .X86_64 => some "amd64".toList
    | .Aarch64 => some "arm64".toList
  FormatVersion := some RemoveVPrefixFormatVersion
  RecoverVersion := some AddVPrefixRecoverVersion

/-- The entry `Registry["gofumpt"]`. -/
def gofumpt : PluginConfig where
  Name := "gofumpt".toList
  Cmd := "gofumpt".toList
  Repo := "mvdan/gofumpt".toList
  AssetTemplate := "gofumpt_v\x7b\x7b.Version\x7d\x7d_\x7b\x7b.Platform\x7d\x7d_\x7b\x7b.Arch\x7d\x7d".toList
  RelativeBinPathTemplate := "gofumpt".toList
  StripComponents := 0
  ReleaseFilter := none
  PlatformMap := fun _ => none
  ArchMap := fun x => match x with
    | .X86_64 => some "amd64".toList
    | .Aarch64 => some "arm64".toList
  FormatVersion := some RemoveVPrefixFormatVersion
  RecoverVersion := some AddVPrefixRecoverVersion

/-- The entry `Registry["taplo"]`. -/
def taplo : PluginConfig where
  Name := "taplo".toList
  Cmd := "taplo".toList
  Repo := "tamasfe/taplo".toList
  AssetTemplate := "taplo-\x7b\x7b.Platform\x7d\x7d-\x7b\x7b.Arch\x7d\x7d.gz".toList
  RelativeBinPathTemplate := "taplo".toList
  StripComponents := 0
  ReleaseFilter := some (fun r => match r.TagName with
    | [] => false
    | c :: _ => decide ('0' ≤ c) && decide (c ≤ '9'))
  PlatformMap := fun _ => none
  ArchMap := fun _ => none
  FormatVersion := some NoOpVersion
  RecoverVersion := some NoOpVersion

/-- The entry `Registry["stylua"]`. -/
def stylua : PluginConfig where
  Name := "stylua".toList
  Cmd := "stylua".toList
  Repo := "JohnnyMorganz/StyLua".toList
  AssetTemplate := "stylua-\x7b\x7b.Platform\x7d\x7d-\x7b\x7b.Arch\x7d\x7d.zip".toList
  RelativeBinPathTemplate := "stylua".toList
  StripComponents := 0
  ReleaseFilter := none
  PlatformMap := fun x => match x with
    | .Darwin => some "macos".toList
    | .Linux => some "linux".toList
  ArchMap := fun _ => none
  FormatVersion := some RemoveVPrefixFormatVersion
  RecoverVersion := some AddVPrefixRecoverVersion

/-- The entry `Registry["lua-language-server"]`. -/
def luaLanguageServer : PluginConfig where
  Name := "lua-language-server".toList
  Cmd := "lua-language-server".toList
  Repo := "LuaLS/lua-language-server".toList
  AssetTemplate := "lua-language-server-\x7b\x7b.Version\x7d\x7d-\x7b\x7b.Platform\x7d\x7d-\x7b\x7b.Arch\x7d\x7d.tar.gz".toList
  RelativeBinPathTemplate := "bin/lua-language-server".toList
  StripComponents := 0
  ReleaseFilter := none
  PlatformMap := fun _ => none
  ArchMap := fun x => match x with
    | .X86_64 => some "x64".toList
    | .Aarch64 => some "arm64".toList
  FormatVersion := some NoOpVersion
  RecoverVersion := some NoOpVersion

/-- The entry `Registry["starship"]`. -/
def starship : PluginConfig where
  Name := "starship".toList
  Cmd := "starship".toList
  Repo := "starship/starship".toList
  AssetTemplate := "starship-\x7b\x7b.Arch\x7d\x7d-\x7b\x7b.Platform\x7d\x7d.tar.gz".toList
  RelativeBinPathTemplate := "starship".toList
  StripComponents := 0
  ReleaseFilter := none
  PlatformMap := fun x => match x with
    | .Darwin => some "apple-darwin".toList
    | .Linux => some "unknown-linux-gnu".toList
  ArchMap := fun _ => none
  FormatVersion := some RemoveVPrefixFormatVersion
  RecoverVersion := some AddVPrefixRecoverVersion

/-- The entry `Registry["zoxide"]`. -/
def zoxide : PluginConfig where
  Name := "zoxide".toList
  Cmd := "zoxide".toList
  Repo := "ajeetdsouza/zoxide".toList
  AssetTemplate := "zoxide-\x7b\x7b.Version\x7d\x7d-\x7b\x7b.Arch\x7d\x7d-\x7b\x7b.Platform\x7d\x7d.tar.gz".toList
  RelativeBinPathTemplate := "zoxide".toList
  StripComponents := 0
  ReleaseFilter := none
  PlatformMap := fun x => match x with
    | .Darwin => some "apple-darwin".toList
    | .Linux => some "unknown-linux-musl".toList
  ArchMap := fun _ => none
  FormatVersion := some RemoveVPrefixFormatVersion
  RecoverVersion := some AddVPrefixRecoverVersion

/-- The entry `Registry["uv"]`. -/
def uv : PluginConfig where
  Name := "uv".toList
  Cmd := "uv".toList
  Repo := "astral-sh/uv".toList
  AssetTemplate := "uv-\x7b\x7b.Arch\x7d\x7d-\x7b\x7b.Platform\x7d\x7d.tar.gz".toList
  RelativeBinPathTemplate := "uv".toList
  StripComponents := 1
  ReleaseFilter := none
  PlatformMap := fun x => match x with
    | .Darwin => some "apple-darwin".toList
    | .Linux => some "unknown-linux-gnu".toList
  ArchMap := fun _ => none
  FormatVersion := some NoOpVersion
  RecoverVersion := some NoOpVersion

/-- The entry `Registry["tree-sitter"]`. -/
def treeSitter : PluginConfig where
  Name := "tree-sitter".toList
  Cmd := "tree-sitter".toList
  Repo := "tree-sitter/tree-sitter".toList
  AssetTemplate := "tree-sitter-\x7b\x7b.Platform\x7d\x7d-\x7b\x7b.Arch\x7d\x7d.gz".toList
  RelativeBinPathTemplate := "tree-sitter".toList
  StripComponents := 0
  ReleaseFilter := none
  PlatformMap := fun x => match x with
    | .Darwin => some "macos".toList
    | .Linux => some "linux".toList
  ArchMap := fun x => match x with
    | .X86_64 => some "x64".toList
    | .Aarch64 => some "arm64".toList
  FormatVersion := some RemoveVPrefixFormatVersion
  RecoverVersion := some AddVPrefixRecoverVersion

/-- The entry `Registry["ty"]`. -/
def ty : PluginConfig where
  Name := "ty".toList
  Cmd := "ty".toList
  Repo := "astral-sh/ty".toList
  AssetTemplate := "ty-\x7b\x7b.Arch\x7d\x7d-\x7b\x7b.Platform\x7d\x7d.tar.gz".toList
  RelativeBinPathTemplate := "ty".toList
  StripComponents := 1
  ReleaseFilter := some (fun r => !r.Prerelease)
  PlatformMap := fun x => match x with
    | .Darwin => some "apple-darwin".toList
    | .Linux => some "unknown-linux-gnu".toList
  ArchMap := fun _ => none
  FormatVersion := some NoOpVersion
  RecoverVersion := some NoOpVersion

/-- The entry `Registry["codex"]`. -/
def codex : PluginConfig where
  Name := "codex".toList
  Cmd := "codex".toList
  Repo := "openai/codex".toList
  AssetTemplate := "codex-\x7b\x7b.Arch\x7d\x7d-\x7b\x7b.Platform\x7d\x7d.tar.gz".toList
  RelativeBinPathTemplate := "codex-\x7b\x7b.Arch\x7d\x7d-\x7b\x7b.Platform\x7d\x7d".toList
  StripComponents := 0
  ReleaseFilter := some (fun r => "rust-v".toList.isPrefixOf r.TagName && !r.Prerelease)
  PlatformMap := fun x => match x with
    | .Darwin => some "apple-darwin".toList
    | .Linux => some "unknown-linux-musl".toList
  ArchMap := fun _ => none
  FormatVersion := some (fun v => trimLeading v "rust-v".toList)
  RecoverVersion := some (fun v => if "rust-v".toList.isPrefixOf v then v else "rust-v".toList ++ trimLeading v "v".toList)

/-- Source `Registry`: all known plugins, by name. -/
def registryEntries : List (GoString × PluginConfig) :=
  [("neovim".toList, neovim),
   ("rust-analyzer".toList, rustAnalyzer),
   ("lazygit".toList, lazygit),
   ("fzf".toList, fzf),
   ("fd".toList, fd),
   ("ripgrep".toList, ripgrep),
   ("gh".toList, gh),
   ("shfmt".toList, shfmt),
   ("gofumpt".toList, gofumpt),
   ("taplo".toList, taplo),
   ("stylua".toList, stylua),
   ("lua-language-server".toList, luaLanguageServer),
   ("starship".toList, starship),
   ("zoxide".toList, zoxide),
   ("uv".toList, uv),
   ("tree-sitter".toList, treeSitter),
   ("ty".toList, ty),
   ("codex".toList, codex),
   ("zls".toList, zls)]

/-- The lookup `Registry[name]`. -/
def Registry (name : GoString) : Option PluginConfig := registryEntries.lookup name

/-! ## `golang.org/x/mod/semver`

The module is not part of the repository. `IsValid` follows its parser: `v`,
then MAJOR[.MINOR[.PATCH[-PRERELEASE][+BUILD]]]. `Compare` follows its
documentation: the precedence of semantic versions; an invalid version is less
than a valid one, and invalid versions compare equal. -/

/-- The test of `semver` for a character of an identifier: `[0-9A-Za-z-]`. -/
def isIdentChar (c : Char) : Bool :=
  (decide ('A' ≤ c) && decide (c ≤ 'Z')) || (decide ('a' ≤ c) && decide (c ≤ 'z')) ||
    c.isDigit || c == '-'

/-- The number parser of `semver`: the leading digits, without a leading zero
unless they are the one digit `0`, and the rest. -/
def parseInt (v : GoString) : Option (GoString × GoString) :=
  match v with
  | [] => none
  | c :: _ =>
    if !c.isDigit then none
    else if c = '0' ∧ (v.takeWhile Char.isDigit).length ≠ 1 then none
    else some (v.takeWhile Char.isDigit, v.dropWhile Char.isDigit)

/-- All characters are digits. -/
def isNum (v : GoString) : Bool := v.all Char.isDigit

/-- A number of more than one digit with a leading zero. -/
def isBadNum (v : GoString) : Bool := isNum v && decide (1 < v.length) && v.head? == some '0'

/-- The pre-release parser of `semver`, for a string that starts with `-`: the
identifiers up to a `+` or the end, which are not empty, made of identifier
characters, and not numbers with a leading zero. Gives the pre-release without
its hyphen, and the rest. -/
def parsePrerelease (v : GoString) : Option (GoString × GoString) :=
  match v with
  | '-' :: tl =>
    let body := tl.takeWhile (fun c => c != '+')
    if body.all (fun c => isIdentChar c || c == '.') &&
        (Split '.' body).all (fun ident => !ident.isEmpty && !isBadNum ident) then
      some (body, tl.dropWhile (fun c => c != '+'))
    else none
  | _ => none

/-- The build parser of `semver`, for a string that starts with `+`: the
identifiers up to the end, not empty and made of identifier characters. -/
def parseBuild (v : GoString) : Option (GoString × GoString) :=
  match v with
  | '+' :: tl =>
    if tl.all (fun c => isIdentChar c || c == '.') &&
        (Split '.' tl).all (fun ident => !ident.isEmpty) then
      some (tl, [])
    else none
  | _ => none

/-- A parsed version: the three numbers, and the identifiers of the
pre-release, if there is one. -/
structure Parsed where
  major : GoString
  minor : GoString
  patch : GoString
  prerelease : Option (List GoString)
deriving DecidableEq, Repr

/-- What follows the patch number: an optional pre-release, an optional build,
and nothing else. -/
def parseTail (major minor patch : GoString) (v : GoString) : Option Parsed :=
  let pre : Option (Option (List GoString) × GoString) :=
    match v with
    | '-' :: _ =>
      match parsePrerelease v with
      | none => none
      | some (p, rest) => some (some (Split '.' p), rest)
    | _ => some (none, v)
  match pre with
  | none => none
  | some (p, v1) =>
    let build : Option GoString :=
      match v1 with
      | '+' :: _ =>
        match parseBuild v1 with
        | none => none
        | some (_, rest) => some rest
      | _ => some v1
    match build with
    | none => none
    | some v2 => if v2 = [] then some ⟨major, minor, patch, p⟩ else none

/-- The parser of `semver`. -/
def parse (v : GoString) : Option Parsed :=
  match v with
  | 'v' :: v1 =>
    match parseInt v1 with
    | none => none
    | some (major, []) => some ⟨major, "0".toList, "0".toList, none⟩
    | some (major, '.' :: v2) =>
      match parseInt v2 with
      | none => none
      | some (minor, []) => some ⟨major, minor, "0".toList, none⟩
      | some (minor, '.' :: v3) =>
        match parseInt v3 with
        | none => none
        | some (patch, v4) => parseTail major minor patch v4
      | some (_, _ :: _) => none
    | some (_, _ :: _) => none
  | _ => none

/-- The function `semver.IsValid`. -/
def IsValid (v : GoString) : Bool := (parse v).isSome

/-- The number a string of digits denotes. -/
def digitsValue (s : GoString) : Nat := s.foldl (fun n c => 10 * n + (c.toNat - 48)) 0

/-- The key of an identifier of a pre-release: a number, which is lower than any
other identifier, with its value; or the characters of the identifier. -/
def identKey (ident : GoString) : List Nat :=
  if isNum ident then [0, digitsValue ident]
  else 1 :: (ident.map (fun c => c.toNat + 1) ++ [0])

/-- The key of a version. The precedence of two versions is the lexicographic
order of their keys: major, minor, patch as numbers; then a version with a
pre-release before the one without; then the identifiers of the pre-release,
field by field, a shorter list before its extensions. -/
def precedenceKey (p : Parsed) : List Nat :=
  [digitsValue p.major, digitsValue p.minor, digitsValue p.patch] ++
    (match p.prerelease with
     | none => [1]
     | some idents => 0 :: idents.flatMap identKey)

/-- The lexicographic order of keys. -/
def keyLess : List Nat → List Nat → Bool
  | _, [] => false
  | [], _ :: _ => true
  | a :: as, b :: bs => decide (a < b) || (a == b && keyLess as bs)

/-- The function `semver.Compare`. -/
def Compare (v w : GoString) : Int :=
  match parse v, parse w with
  | none, none => 0
  | none, some _ => -1
  | some _, none => 1
  | some p, some q =>
    if keyLess (precedenceKey p) (precedenceKey q) then -1
    else if keyLess (precedenceKey q) (precedenceKey p) then 1
    else 0

/-! ## `sort.Slice` and `GetReleases` -/

/-- The inner loop of an insertion sort: `x`, put behind a sorted slice, moves to
the left past the elements it is less than. The slice is given last element
first, and so is the result. -/
def insertBack {α : Type} (less : α → α → Bool) (x : α) : List α → List α
  | [] => [x]
  | y :: ys => if less x y then y :: insertBack less x ys else x :: y :: ys

/-- The call `sort.Slice(s, less)`, with `less` on the elements: the slice
sorted by `less`. The library promises a sorted permutation and not which one;
this is the insertion sort it runs on a short slice. -/
def sortSlice {α : Type} (less : α → α → Bool) (s : List α) : List α :=
  (s.foldl (fun sorted x => insertBack less x sorted) []).reverse

/-- The comparator of source `GetReleases`. -/
def releaseLess (FormatVersion : GoString → GoString) (ri rj : Release) : Bool :=
  let vi := 'v' :: FormatVersion ri.TagName
  let vj := 'v' :: FormatVersion rj.TagName
  let viValid := IsValid vi
  let vjValid := IsValid vj
  if viValid && vjValid then decide (Compare vi vj > 0)
  else if viValid != vjValid then viValid
  else decide (ri.PublishedAt > rj.PublishedAt)

/-- The filter loop of source `GetReleases`. -/
def accepted (p : PluginConfig) (r : Release) : Bool :=
  match p.ReleaseFilter with
  | some f => f r
  | none => true

/-- Source `GetReleases`: fetches, filters, and sorts releases for the plugin.
`listed` is what `client.ListReleases(p.Repo)` returns. The comparator calls
`p.FormatVersion` unguarded: where it is `nil`, the first comparison panics. -/
def GetReleases (p : PluginConfig) (listed : Except GoError (List Release)) :
    Outcome (Except GoError (List Release)) :=
  match listed with
  | .error err => .returned (.error err)
  | .ok releases =>
    let filtered := releases.filter (accepted p)
    match p.FormatVersion with
    | some f => .returned (.ok (sortSlice (releaseLess f) filtered))
    | none =>
      if filtered.length < 2 then .returned (.ok filtered)
      else .panicked "runtime error: invalid memory address or nil pointer dereference".toList

/-! ## Sample releases, hosts and profiles -/

/-- A host as `zlsHost` whose release lookup answers `rel` for every tag. -/
def hostServing (rel : Release) : Host :=
  { zlsHost with release := fun _ => .ok rel }

/-- A release whose asset `tool.tar.gz` carries the four-byte digest `md5:`. -/
def shortDigestRelease : Release :=
  ⟨"v1.0.0".toList, 0, false, false, [⟨"tool.tar.gz".toList, [], "md5:".toList⟩]⟩

/-- A release whose asset `tool.tar.gz` carries a digest labelled `sha512:`. -/
def sha512Release : Release :=
  ⟨"v1.0.0".toList, 0, false, false, [⟨"tool.tar.gz".toList, [], "sha512:cf83e135".toList⟩]⟩

/-- A profile as `zls` whose relative binary path template names a field that
the render context does not have. -/
def unrenderableBinPath : PluginConfig :=
  { zls with RelativeBinPathTemplate := "\x7b\x7b.Bin\x7d\x7d".toList }

/-- A Linux host on amd64, with the umask 022, that answers the request for `url`
with a gzip stream which decodes to the tar stream `tr`, and whose releases carry
no digest. -/
def tarHost (url : GoString) (tr : TarReader) : Host where
  GOOS := "linux".toList
  GOARCH := "amd64".toList
  wd := .ok "/home/u".toList
  umask := 0o022
  tempDir := .ok "/tmp/sous-chef1".toList
  download := fun u =>
    if u = url then .ok ⟨[31, 139, 8, 0], none⟩
    else .error (.errorf "download failed: 404 Not Found".toList)
  release := fun _ => .ok ⟨[], 0, false, false, []⟩
  untargz := fun _ => .ok tr
  gunzip := fun _ => .error (.external "gzip: invalid header".toList)
  unzip := fun _ => .error (.external "zip: not a valid zip file".toList)

/-- The host serves `nvim-linux-x86_64.tar.gz` of the release `v0.10.0` of
`neovim/neovim`; the archive breaks off inside its entry
`nvim-linux-x86_64/bin/nvim`, after four bytes of it. -/
def truncatedNvimHost : Host :=
  tarHost
    ("https://github.com/neovim/neovim/releases/download/v0.10.0/".toList ++
      "nvim-linux-x86_64.tar.gz".toList)
    ⟨[⟨"nvim-linux-x86_64/bin/nvim".toList, .TypeReg, 0o755,
        ⟨[127, 69, 76, 70], some (.external "unexpected EOF".toList)⟩⟩], none⟩

/-- The host serves `lazygit_0.44.1_linux_x86_64.tar.gz` of the release `v0.44.1`
of `jesseduffield/lazygit`; the archive holds one regular file, named `bin`, and
no `lazygit`. -/
def binFileLazygitHost : Host :=
  tarHost
    ("https://github.com/jesseduffield/lazygit/releases/download/v0.44.1/".toList ++
      "lazygit_0.44.1_linux_x86_64.tar.gz".toList)
    ⟨[⟨"bin".toList, .TypeReg, 0o644, ⟨[35, 33], none⟩⟩], none⟩

/-- The host serves `lazygit_0.44.1_linux_x86_64.tar.gz` of the release `v0.44.1`
of `jesseduffield/lazygit`; the archive holds a `README.md` and no `lazygit`. -/
def noBinaryLazygitHost : Host :=
  tarHost
    ("https://github.com/jesseduffield/lazygit/releases/download/v0.44.1/".toList ++
      "lazygit_0.44.1_linux_x86_64.tar.gz".toList)
    ⟨[⟨"README.md".toList, .TypeReg, 0o644, ⟨[35, 32], none⟩⟩], none⟩

/-- The world of the run for `lazygit` on `noBinaryLazygitHost` after the
download. -/
def noBinaryDownloaded : World :=
  (DownloadReleaseAsset noBinaryLazygitHost
    ((World.mk (freshWorld.fs.set ["tmp".toList, "sous-chef1".toList] (.dir 0o700))
      freshWorld.stdout freshWorld.requests).print
      (downloadingLine lazygit "lazygit_0.44.1_linux_x86_64.tar.gz".toList
        (releaseTag lazygit "0.44.1".toList)))
    lazygit.Repo (releaseTag lazygit "0.44.1".toList)
    "lazygit_0.44.1_linux_x86_64.tar.gz".toList
    (Join ["/tmp/sous-chef1".toList, "lazygit_0.44.1_linux_x86_64.tar.gz".toList])).1

/-- The files of that run after the extraction into `tools`. -/
def noBinaryExtracted : FS :=
  (extractArtifact noBinaryLazygitHost noBinaryDownloaded.fs lazygit
    "lazygit_0.44.1_linux_x86_64.tar.gz".toList
    (Join ["/tmp/sous-chef1".toList, "lazygit_0.44.1_linux_x86_64.tar.gz".toList])
    "tools".toList "lazygit".toList).1

/-- The files of that run after the directory `tools/bin` has been made. -/
def noBinaryWithBin : FS :=
  match MkdirAll noBinaryLazygitHost.umask noBinaryLazygitHost.wd noBinaryExtracted
      (Join ["tools".toList, "bin".toList]) 0o755 with
  | .ok fs => fs
  | .error _ => noBinaryExtracted

/-- The state `fs` in which some of three nodes have been made under the
directory `ks`: the node `f1` at `b`, the node `dir` at `c` and the node `f2` at
`c/d`, each where its flag is set. -/
def partlyExtracted (fs : FS) (ks : Key) (b c d : GoString) (f1 dir f2 : Node)
    (hasB hasC hasD : Bool) : FS :=
  fun q =>
    if q = ks ++ [b] then (if hasB then some f1 else fs q)
    else if q = ks ++ [c] then (if hasC then some dir else fs q)
    else if q = ks ++ [c, d] then (if hasD then some f2 else fs q)
    else fs q

/-- An archive as `tar` writes it for the directory `a` with the files `a/b.txt`
and `a/c/d.txt` and a symbolic link `a/link`. -/
def roundTripArchive : List TarEntry :=
  [⟨"a/".toList, .TypeDir, 0o755, ⟨[], none⟩⟩,
   ⟨"a/b.txt".toList, .TypeReg, 0o644, ⟨[104, 105], none⟩⟩,
   ⟨"a/c/".toList, .TypeDir, 0o755, ⟨[], none⟩⟩,
   ⟨"a/c/d.txt".toList, .TypeReg, 0o755, ⟨[33], none⟩⟩,
   ⟨"a/link".toList, .other '2', 0o777, ⟨[], none⟩⟩]

/-- An archive whose regular files are `a/b.txt` and `a/c/d.txt`, with an entry
for an empty directory `a/e/`. -/
def extraDirArchive : List TarEntry :=
  [⟨"a/b.txt".toList, .TypeReg, 0o644, ⟨[104, 105], none⟩⟩,
   ⟨"a/c/d.txt".toList, .TypeReg, 0o755, ⟨[33], none⟩⟩,
   ⟨"a/e/".toList, .TypeDir, 0o755, ⟨[], none⟩⟩]

/-- A profile as `zls` whose asset template names a field that the render context
does not have. -/
def unrenderableAsset : PluginConfig :=
  { zls with AssetTemplate := "zls-\x7b\x7b.Bin\x7d\x7d.tar.xz".toList }

/-- Releases as `astral-sh/ty` lists them: two versions, a release marked as a
pre-release, and a tag that is no version. -/
def tyReleases : List Release :=
  [⟨"0.0.1-alpha.7".toList, 3, false, false, []⟩, ⟨"0.0.2-rc1".toList, 5, true, false, []⟩,
   ⟨"nightly".toList, 6, false, false, []⟩, ⟨"0.0.1-alpha.8".toList, 4, false, false, []⟩]

set_option autoImplicit false

/-! ## Facts about `strings.Split`, `strings.Join` and `filepath.Clean` -/

theorem Split_ne_nil (sep : Char) (s : GoString) : Split sep s ≠ [] := by
  induction s with
  | nil => simp [Split]
  | cons c cs ih =>
    unfold Split
    split_ifs
    · simp
    · split <;> simp

theorem Split_cons_ne (sep c : Char) (cs : GoString) (h : c ≠ sep) :
    ∃ seg rest, Split sep cs = seg :: rest ∧ Split sep (c :: cs) = (c :: seg) :: rest := by
  cases hs : Split sep cs with
  | nil => exact absurd hs (Split_ne_nil sep cs)
  | cons seg rest =>
    refine ⟨seg, rest, rfl, ?_⟩
    rw [Split, if_neg h, hs]

theorem Split_append_sep (sep : Char) (a b : GoString) :
    Split sep (a ++ sep :: b) = Split sep a ++ Split sep b := by
  induction a with
  | nil => simp [Split]
  | cons c cs ih =>
    by_cases h : c = sep
    · simp [Split, h, ih]
    · obtain ⟨seg, rest, h1, h2⟩ := Split_cons_ne sep c cs h
      obtain ⟨seg', rest', h1', h2'⟩ := Split_cons_ne sep c (cs ++ sep :: b) h
      rw [List.cons_append, h2', h2]
      rw [ih, h1] at h1'
      simp at h1'
      simp [h1'.1, h1'.2]

theorem Split_noSep (sep : Char) (s : GoString) (h : sep ∉ s) : Split sep s = [s] := by
  induction s with
  | nil => rfl
  | cons c cs ih =>
    have hc : c ≠ sep := fun e => h (by simp [e])
    have hcs : sep ∉ cs := fun e => h (by simp [e])
    rw [Split, if_neg hc, ih hcs]

theorem Split_joinWith (sep : Char) (x : GoString) (xs : List GoString)
    (h : ∀ c ∈ x :: xs, sep ∉ c) : Split sep (joinWith sep (x :: xs)) = x :: xs := by
  induction xs generalizing x with
  | nil => simpa [joinWith] using Split_noSep sep x (h x (by simp))
  | cons y ys ih =>
    rw [joinWith, Split_append_sep, Split_noSep sep x (h x (by simp)), ih y]
    · rfl
    · intro c hc; exact h c (List.mem_cons_of_mem _ hc)

theorem Split_mem_noSep (sep : Char) (s : GoString) : ∀ seg ∈ Split sep s, sep ∉ seg := by
  induction s with
  | nil => simp [Split]
  | cons c cs ih =>
    by_cases h : c = sep
    · intro seg hseg
      simp [Split, h] at hseg
      rcases hseg with rfl | hseg
      · simp
      · exact ih seg hseg
    · obtain ⟨seg0, rest, h1, h2⟩ := Split_cons_ne sep c cs h
      intro seg hseg
      rw [h2] at hseg
      rw [h1] at ih
      rcases List.mem_cons.1 hseg with rfl | hseg
      · intro hm
        rcases List.mem_cons.1 hm with e | hm
        · exact h e.symm
        · exact ih seg0 (by simp) hm
      · exact ih seg (List.mem_cons_of_mem _ hseg)

theorem joinWith_Split (sep : Char) (s : GoString) : joinWith sep (Split sep s) = s := by
  induction s with
  | nil => rfl
  | cons c cs ih =>
    by_cases h : c = sep
    · rw [Split, if_pos h]
      cases hs : Split sep cs with
      | nil => exact absurd hs (Split_ne_nil sep cs)
      | cons seg rest => rw [hs] at ih; simp [joinWith, ih, h]
    · obtain ⟨seg0, rest, h1, h2⟩ := Split_cons_ne sep c cs h
      rw [h2]
      rw [h1] at ih
      cases rest with
      | nil => simpa [joinWith] using ih
      | cons r rs => simp only [joinWith] at ih ⊢; simp [ih]
theorem isName_iff (c : GoString) :
    isName c = true ↔ c ≠ [] ∧ c ≠ ['.'] ∧ c ≠ ['.', '.'] ∧ PathSeparator ∉ c := by
  simp [isName]

theorem cleanStep_name (r : Bool) (kept : List GoString) (c : GoString) (h : isName c = true) :
    cleanStep r kept c = c :: kept := by
  obtain ⟨h1, h2, h3, _⟩ := (isName_iff c).1 h
  simp [cleanStep, h1, h2, h3]

theorem foldl_cleanStep_names (r : Bool) (ks : List GoString) (acc : List GoString)
    (h : ∀ c ∈ ks, isName c = true) : ks.foldl (cleanStep r) acc = ks.reverse ++ acc := by
  induction ks generalizing acc with
  | nil => rfl
  | cons k ks ih =>
    rw [List.foldl_cons, cleanStep_name r acc k (h k (by simp)), ih _ (fun c hc => h c (by simp [hc]))]
    simp

theorem cleanStep_rooted_names (kept : List GoString) (c : GoString)
    (hk : ∀ k ∈ kept, isName k = true) (hc : PathSeparator ∉ c) :
    ∀ k ∈ cleanStep true kept c, isName k = true := by
  by_cases h1 : c = [] ∨ c = ['.']
  · unfold cleanStep; rw [if_pos h1]; exact hk
  · by_cases h2 : c = ['.', '.']
    · unfold cleanStep; rw [if_neg h1, if_pos h2]
      cases kept with
      | nil => simp
      | cons top rest =>
        have htop := (isName_iff top).1 (hk top (by simp))
        simp only [htop.2.2.1, if_false]
        intro k hk'
        exact hk k (by simp [hk'])
    · unfold cleanStep; rw [if_neg h1, if_neg h2]
      intro k hk'
      rcases List.mem_cons.1 hk' with rfl | hk'
      · rw [isName_iff]
        push_neg at h1
        exact ⟨h1.1, h1.2, h2, hc⟩
      · exact hk k hk'

theorem foldl_cleanStep_rooted_names (segs : List GoString) (acc : List GoString)
    (hacc : ∀ k ∈ acc, isName k = true) (hs : ∀ c ∈ segs, PathSeparator ∉ c) :
    ∀ k ∈ segs.foldl (cleanStep true) acc, isName k = true := by
  induction segs generalizing acc with
  | nil => simpa using hacc
  | cons c cs ih =>
    rw [List.foldl_cons]
    exact ih _ (cleanStep_rooted_names acc c hacc (hs c (by simp))) (fun c' hc' => hs c' (by simp [hc']))

theorem rootedNames_isName (segs : List GoString) (hs : ∀ c ∈ segs, PathSeparator ∉ c) :
    ∀ k ∈ rootedNames segs, isName k = true := by
  intro k hk
  rw [rootedNames, List.mem_reverse] at hk
  exact foldl_cleanStep_rooted_names segs [] (by simp) hs k hk

theorem rootedNames_names (ks : List GoString) (h : ∀ c ∈ ks, isName c = true) :
    rootedNames ks = ks := by
  rw [rootedNames, foldl_cleanStep_names true ks [] h]; simp

theorem Clean_rooted (x : GoString) :
    Clean (PathSeparator :: x) =
      PathSeparator :: joinWith PathSeparator (rootedNames (Split PathSeparator x)) := by
  simp [Clean, Split, rootedNames, cleanStep]

theorem pathKey_rooted (ks : List GoString) (h : ∀ c ∈ ks, isName c = true) :
    pathKey (PathSeparator :: joinWith PathSeparator ks) = ks := by
  have hne : ∀ c ∈ ks, decide (c ≠ []) = true := fun c hc => by
    simpa using ((isName_iff c).1 (h c hc)).1
  cases ks with
  | nil => simp [pathKey, Split, joinWith]
  | cons k ks =>
    have hsep : ∀ c ∈ k :: ks, PathSeparator ∉ c := fun c hc => ((isName_iff c).1 (h c hc)).2.2.2
    rw [pathKey, Split, if_pos rfl, Split_joinWith _ _ _ hsep, List.filter_cons_of_neg (by simp)]
    exact List.filter_eq_self.2 hne

theorem Clean_names (ks : List GoString) (h : ∀ c ∈ ks, isName c = true) :
    Clean (PathSeparator :: joinWith PathSeparator ks) =
      PathSeparator :: joinWith PathSeparator ks := by
  rw [Clean_rooted]
  cases ks with
  | nil => simp [Split, joinWith, rootedNames, cleanStep]
  | cons k ks =>
    have hsep : ∀ c ∈ k :: ks, PathSeparator ∉ c := fun c hc => ((isName_iff c).1 (h c hc)).2.2.2
    rw [Split_joinWith _ _ _ hsep, rootedNames_names _ h]

/-! ## C1: `sanitizePath` -/

theorem Join_pair_rooted (a n : GoString) :
    Join [PathSeparator :: a, n] =
      PathSeparator :: joinWith PathSeparator
        (rootedNames (Split PathSeparator a ++ Split PathSeparator n)) := by
  rw [Join, if_neg (by simp)]
  show Clean ((PathSeparator :: a) ++ PathSeparator :: n) = _
  rw [List.cons_append, Clean_rooted, Split_append_sep]

theorem IsAbs_iff (p : GoString) : IsAbs p = true ↔ ∃ x, p = PathSeparator :: x := by
  cases p with
  | nil => simp [IsAbs]
  | cons c cs => simp [IsAbs]

theorem mem_append_Split_noSep (a n : GoString) :
    ∀ c ∈ Split PathSeparator a ++ Split PathSeparator n, PathSeparator ∉ c := by
  intro c hc
  rcases List.mem_append.1 hc with h | h
  · exact Split_mem_noSep _ _ c h
  · exact Split_mem_noSep _ _ c h

/-- The path `sanitizePath` accepts under an absolute root is made of names only. -/
theorem sanitizePath_names (wd : Except GoError GoString) (dest name absDest target : GoString)
    (habs : Abs wd dest = .ok absDest) (hroot : IsAbs absDest = true)
    (h : sanitizePath wd dest name = .ok target) :
    ∃ ks, (∀ k ∈ ks, isName k = true) ∧ target = PathSeparator :: joinWith PathSeparator ks := by
  obtain ⟨a, rfl⟩ := (IsAbs_iff absDest).1 hroot
  have hj := Join_pair_rooted a name
  have hn := rootedNames_isName _ (mem_append_Split_noSep a name)
  simp only [sanitizePath, habs] at h
  split_ifs at h
  simp only [Except.ok.injEq] at h
  rw [hj, Clean_names _ hn] at h
  exact ⟨_, hn, h.symm⟩

theorem sanitizePath_eq (wd : Except GoError GoString) (dest name absDest : GoString)
    (habs : Abs wd dest = .ok absDest) :
    sanitizePath wd dest name =
      if Clean (Join [absDest, name]) = Clean absDest ∨
          (Clean absDest ++ [PathSeparator]) <+: Clean (Join [absDest, name])
      then .ok (Clean (Join [absDest, name]))
      else .error (.wrapf [] errIllegalPath (": ".toList ++ name)) := by
  simp only [sanitizePath, habs]
  by_cases h1 : Clean (Join [absDest, name]) = Clean absDest
  · simp [h1]
  · by_cases h2 : (Clean absDest ++ [PathSeparator]) <+: Clean (Join [absDest, name])
    · have h2' := List.isPrefixOf_iff_prefix.2 h2
      simp [h1, h2, h2']
    · have h2' : (Clean absDest ++ [PathSeparator]).isPrefixOf (Clean (Join [absDest, name])) = false := by
        rw [Bool.eq_false_iff]; intro h; exact h2 (List.isPrefixOf_iff_prefix.1 h)
      simp [h1, h2, h2']

theorem pathKey_append_sep (a b : GoString) :
    pathKey (a ++ PathSeparator :: b) = pathKey a ++ pathKey b := by
  simp [pathKey, Split_append_sep]

theorem sanitizePath_within (wd : Except GoError GoString) (dest name absDest p : GoString)
    (habs : Abs wd dest = .ok absDest) (h : sanitizePath wd dest name = .ok p) :
    pathKey (Clean absDest) <+: pathKey p := by
  rw [sanitizePath_eq wd dest name absDest habs] at h
  split_ifs at h with hc
  simp only [Except.ok.injEq] at h
  subst h
  rcases hc with hc | ⟨t, ht⟩
  · rw [hc]
  · rw [← ht, List.append_assoc, List.singleton_append, pathKey_append_sep]
    exact List.prefix_append _ _

/-- C1. For every destination root whose absolute form `absDest` is known and every
candidate name, `sanitizePath` succeeds exactly when the cleaned join of the
absolute root and the name equals the cleaned root or starts with the cleaned root
followed by the path separator; on success it returns that cleaned target, and
otherwise it returns an error that wraps `errIllegalPath`. Every returned path
passes through the names of the root, and under an absolute root it is an absolute
path made of plain names only (no `.` or `..`), hence the root or a descendant. -/
theorem sanitizePath_contract (wd : Except GoError GoString) (dest name absDest : GoString)
    (habs : Abs wd dest = .ok absDest) :
    (sanitizePath wd dest name =
      if Clean (Join [absDest, name]) = Clean absDest ∨
          (Clean absDest ++ [PathSeparator]) <+: Clean (Join [absDest, name])
      then .ok (Clean (Join [absDest, name]))
      else .error (.wrapf [] errIllegalPath (": ".toList ++ name)))
    ∧ (GoError.wrapf [] errIllegalPath (": ".toList ++ name)).Is errIllegalPath = true
    ∧ (∀ p, sanitizePath wd dest name = .ok p → pathKey (Clean absDest) <+: pathKey p)
    ∧ (IsAbs absDest = true → ∀ p, sanitizePath wd dest name = .ok p →
        IsAbs p = true ∧ ∀ c ∈ pathKey p, isName c = true) := by
  refine ⟨sanitizePath_eq wd dest name absDest habs, ?_, ?_, ?_⟩
  · simp [GoError.Is, errIllegalPath]
  · intro p hp
    exact sanitizePath_within wd dest name absDest p habs hp
  · intro hroot p hp
    obtain ⟨ks, hks, rfl⟩ := sanitizePath_names wd dest name absDest p habs hroot hp
    refine ⟨by simp [IsAbs], ?_⟩
    rw [pathKey_rooted ks hks]
    exact hks

theorem sanitizePath_contract_witness :
    Abs (.ok "/home/u".toList) "tools".toList = .ok "/home/u/tools".toList ∧
    sanitizePath (.ok "/home/u".toList) "tools".toList "a/../../x".toList =
      .error (.wrapf [] errIllegalPath (": ".toList ++ "a/../../x".toList)) ∧
    sanitizePath (.ok "/home/u".toList) "tools".toList "bin/../lib/x".toList =
      .ok "/home/u/tools/lib/x".toList := by
  have h := sanitizePath_contract (.ok "/home/u".toList) "tools".toList "a/../../x".toList
    "/home/u/tools".toList (by decide)
  refine ⟨by decide, ?_, by decide⟩
  rw [h.1]
  decide
/-! ## C3 and C4: `stripPath` -/

theorem forEntries_append {ε : Type} (step : FS → ε → FS × Option GoError) (fs : FS)
    (a b : List ε) :
    forEntries step fs (a ++ b) =
      match forEntries step fs a with
      | (fs1, some err) => (fs1, some err)
      | (fs1, none) => forEntries step fs1 b := by
  induction a generalizing fs with
  | nil => simp [forEntries]
  | cons x xs ih =>
    simp only [List.cons_append, forEntries]
    rcases h : step fs x with ⟨fs1, _ | err⟩
    · exact ih fs1
    · rfl

theorem forEntries_skip {ε : Type} (step : FS → ε → FS × Option GoError) (fs : FS)
    (pre post : List ε) (e : ε) (h : ∀ s, step s e = (s, none)) :
    forEntries step fs (pre ++ e :: post) = forEntries step fs (pre ++ post) := by
  rw [forEntries_append, forEntries_append]
  rcases forEntries step fs pre with ⟨fs1, _ | err⟩
  · simp only [forEntries, h]
  · rfl

theorem extractTarEntry_skip (umask : Nat) (wd : Except GoError GoString) (dest : GoString) (n : Nat)
    (fs : FS) (e : TarEntry) (h : stripPath e.Name n = []) :
    extractTarEntry umask wd dest n fs e = (fs, none) := by
  simp [extractTarEntry, h]

theorem extractZipFile_skip (umask : Nat) (wd : Except GoError GoString) (dest : GoString) (n : Nat)
    (fs : FS) (f : ZipFile) (h : stripPath f.Name n = []) :
    extractZipFile umask wd fs f dest n = (fs, none) := by
  simp [extractZipFile, h]

theorem ExtractTarGz_skip (umask : Nat) (wd : Except GoError GoString) (fs : FS) (dest : GoString) (n : Nat)
    (pre post : List TarEntry) (e : TarEntry) (tail : Option GoError)
    (h : stripPath e.Name n = []) :
    ExtractTarGz umask wd fs (.ok ⟨pre ++ e :: post, tail⟩) dest n =
      ExtractTarGz umask wd fs (.ok ⟨pre ++ post, tail⟩) dest n := by
  simp only [ExtractTarGz]
  rw [forEntries_skip _ fs pre post e (fun s => extractTarEntry_skip umask wd dest n s e h)]

theorem ExtractZip_skip (umask : Nat) (wd : Except GoError GoString) (fs : FS) (dest : GoString) (n : Nat)
    (pre post : List ZipFile) (f : ZipFile) (h : stripPath f.Name n = []) :
    ExtractZip umask wd fs (.ok (pre ++ f :: post)) dest n =
      ExtractZip umask wd fs (.ok (pre ++ post)) dest n := by
  simp only [ExtractZip]
  cases Abs wd dest with
  | error e => rfl
  | ok absDest =>
    exact forEntries_skip _ fs pre post f (fun s => extractZipFile_skip umask wd absDest n s f h)

/-- C3. For every strip count `n` and every entry name with `n` or fewer segments
when split on `/`, `stripPath` returns the empty string, and `ExtractTarGz` and
`ExtractZip` skip an entry of that name: handling it returns no error and leaves
the file system as it is, so the whole extraction is the extraction of the archive
without that entry. With `n = 1` the wrapper directory entry `toolname-1.2.3/` is
skipped in the same way. -/
theorem stripPath_skips_short_names (umask : Nat) (n : Nat) (name : GoString) :
    ((Split '/' name).length ≤ n →
      stripPath name n = [] ∧
      (∀ wd dest fs (e : TarEntry), e.Name = name →
        extractTarEntry umask wd dest n fs e = (fs, none)) ∧
      (∀ wd dest fs (f : ZipFile), f.Name = name →
        extractZipFile umask wd fs f dest n = (fs, none)) ∧
      (∀ wd fs dest pre post tail (e : TarEntry), e.Name = name →
        ExtractTarGz umask wd fs (.ok ⟨pre ++ e :: post, tail⟩) dest n =
          ExtractTarGz umask wd fs (.ok ⟨pre ++ post, tail⟩) dest n) ∧
      (∀ wd fs dest pre post (f : ZipFile), f.Name = name →
        ExtractZip umask wd fs (.ok (pre ++ f :: post)) dest n =
          ExtractZip umask wd fs (.ok (pre ++ post)) dest n)) ∧
    (stripPath "toolname-1.2.3/".toList 1 = [] ∧
      (∀ wd dest fs (e : TarEntry), e.Name = "toolname-1.2.3/".toList →
        extractTarEntry umask wd dest 1 fs e = (fs, none)) ∧
      (∀ wd dest fs (f : ZipFile), f.Name = "toolname-1.2.3/".toList →
        extractZipFile umask wd fs f dest 1 = (fs, none))) := by
  have hw : stripPath "toolname-1.2.3/".toList 1 = [] := by decide
  refine ⟨fun h => ?_, hw, ?_, ?_⟩
  · have hs : stripPath name n = [] := by simp [stripPath, ToSlash, h]
    refine ⟨hs, ?_, ?_, ?_, ?_⟩
    · intro wd dest fs e he
      exact extractTarEntry_skip umask wd dest n fs e (he ▸ hs)
    · intro wd dest fs f hf
      exact extractZipFile_skip umask wd dest n fs f (hf ▸ hs)
    · intro wd fs dest pre post tail e he
      exact ExtractTarGz_skip umask wd fs dest n pre post e tail (he ▸ hs)
    · intro wd fs dest pre post f hf
      exact ExtractZip_skip umask wd fs dest n pre post f (hf ▸ hs)
  · intro wd dest fs e he
    exact extractTarEntry_skip umask wd dest 1 fs e (he ▸ hw)
  · intro wd dest fs f hf
    exact extractZipFile_skip umask wd dest 1 fs f (hf ▸ hw)

theorem stripPath_skips_short_names_witness :
    (Split '/' "toolname-1.2.3".toList).length ≤ 1 ∧
    stripPath "toolname-1.2.3".toList 1 = [] ∧
    stripPath "a/b".toList 2 = [] :=
  ⟨by decide, ((stripPath_skips_short_names 0o022 1 "toolname-1.2.3".toList).1 (by decide)).1,
    by decide⟩

theorem joinWith_ne_nil (sep : Char) (k : GoString) (ks : List GoString) (h : k ≠ []) :
    joinWith sep (k :: ks) ≠ [] := by
  cases ks with
  | nil => simpa [joinWith] using h
  | cons y ys => simp [joinWith, h]

theorem joinWith_head (sep : Char) (k : GoString) (ks : List GoString) (h : k ≠ []) :
    (joinWith sep (k :: ks)).head? = k.head? := by
  cases k with
  | nil => exact absurd rfl h
  | cons c cs =>
    cases ks with
    | nil => simp [joinWith]
    | cons y ys => simp [joinWith]

/-- The cleaner keeps a relative path made of names as it is. -/
theorem Clean_relative_names (k : GoString) (ks : List GoString)
    (h : ∀ c ∈ k :: ks, isName c = true) :
    Clean (joinWith PathSeparator (k :: ks)) = joinWith PathSeparator (k :: ks) := by
  have hk := (isName_iff k).1 (h k (by simp))
  have hsep : ∀ c ∈ k :: ks, PathSeparator ∉ c := fun c hc => ((isName_iff c).1 (h c hc)).2.2.2
  have hne := joinWith_ne_nil PathSeparator k ks hk.1
  have hhead : ((joinWith PathSeparator (k :: ks)).head? = some PathSeparator) = False := by
    rw [joinWith_head _ _ _ hk.1, eq_iff_iff, iff_false]
    intro hh
    cases k with
    | nil => exact hk.1 rfl
    | cons c cs =>
      simp only [List.head?_cons, Option.some.injEq] at hh
      exact hk.2.2.2 (by simp [hh])
  simp only [Clean, if_neg hne, hhead, decide_False, Split_joinWith _ _ _ hsep,
    foldl_cleanStep_names false _ [] h, List.append_nil, List.reverse_reverse, if_neg hne]
  simp

/-- C4, as the code has it. For every entry name with more than `n` segments when
split on `/`, `stripPath` returns `filepath.Join` of the segments after the first
`n`: joined with the host separator and cleaned, so that empty and `.` segments
vanish and `..` cancels the segment before it. When each remaining segment is a
plain name this is exactly the remaining segments rejoined with the separator. -/
theorem stripPath_joins_rest (n : Nat) (name : GoString)
    (h : n < (Split '/' name).length) :
    stripPath name n = Join ((Split '/' name).drop n) ∧
    ((∀ c ∈ (Split '/' name).drop n, isName c = true) →
      stripPath name n = joinWith PathSeparator ((Split '/' name).drop n)) := by
  have h1 : stripPath name n = Join ((Split '/' name).drop n) := by
    simp [stripPath, ToSlash, Nat.not_le.2 h]
  refine ⟨h1, fun hn => ?_⟩
  rw [h1]
  cases hd : (Split '/' name).drop n with
  | nil =>
    have := List.drop_eq_nil_iff.1 hd
    omega
  | cons k ks =>
    rw [hd] at hn
    have hk := (isName_iff k).1 (hn k (by simp))
    rw [Join, if_neg hk.1, Clean_relative_names k ks hn]

theorem stripPath_joins_rest_witness :
    1 < (Split '/' "tool-1.2/bin/tool".toList).length ∧
    stripPath "tool-1.2/bin/tool".toList 1 = "bin/tool".toList := by
  refine ⟨by decide, ?_⟩
  rw [(stripPath_joins_rest 1 "tool-1.2/bin/tool".toList (by decide)).2 (by decide)]
  decide

/-- C4, counterexample. The directory entry `a/b/` has three segments, and with
strip count 1 the two remaining segments rejoined are `b/`, but `stripPath`
returns `b`; likewise `a//b` with strip count 0 gives `a/b`. -/
theorem stripPath_not_plain_rejoin :
    1 < (Split '/' "a/b/".toList).length ∧
    joinWith PathSeparator ((Split '/' "a/b/".toList).drop 1) = "b/".toList ∧
    stripPath "a/b/".toList 1 = "b".toList ∧
    stripPath "a/b/".toList 1 ≠ joinWith PathSeparator ((Split '/' "a/b/".toList).drop 1) ∧
    stripPath "a//b".toList 0 ≠ joinWith PathSeparator ((Split '/' "a//b".toList).drop 0) := by
  decide
/-! ## C2: an entry that escapes the destination root -/

/-- What `filepath.Abs` returns, when the working directory is an absolute path:
an absolute path made of names. -/
theorem Abs_names (wd : Except GoError GoString) (hwd : ∀ w, wd = .ok w → IsAbs w = true)
    (path a : GoString) (h : Abs wd path = .ok a) :
    ∃ ks, (∀ k ∈ ks, isName k = true) ∧ a = PathSeparator :: joinWith PathSeparator ks := by
  unfold Abs at h
  split_ifs at h with hp
  · obtain ⟨x, rfl⟩ := (IsAbs_iff path).1 hp
    simp only [Except.ok.injEq] at h
    rw [Clean_rooted] at h
    exact ⟨_, rootedNames_isName _ (Split_mem_noSep _ x), h.symm⟩
  · cases wd with
    | error e => simp at h
    | ok w =>
      obtain ⟨x, rfl⟩ := (IsAbs_iff w).1 (hwd w rfl)
      simp only [Except.ok.injEq] at h
      rw [Join_pair_rooted] at h
      exact ⟨_, rootedNames_isName _ (mem_append_Split_noSep x path), h.symm⟩

theorem Abs_of_names (wd : Except GoError GoString) (ks : List GoString)
    (h : ∀ k ∈ ks, isName k = true) :
    Abs wd (PathSeparator :: joinWith PathSeparator ks) =
      .ok (PathSeparator :: joinWith PathSeparator ks) := by
  simp [Abs, IsAbs, Clean_names ks h]

theorem sanitizePath_eq_escapes (wd : Except GoError GoString) (dest name absDest : GoString)
    (habs : Abs wd dest = .ok absDest) :
    sanitizePath wd dest name =
      if escapesRoot absDest name = true
      then .error (.wrapf [] errIllegalPath (": ".toList ++ name))
      else .ok (Clean (Join [absDest, name])) := by
  simp only [sanitizePath, habs, escapesRoot]

/-- Under the absolute root that `ExtractZip` computes, `sanitizePath` gives what it
gives under the destination itself. -/
theorem sanitizePath_absDest (wd : Except GoError GoString)
    (hwd : ∀ w, wd = .ok w → IsAbs w = true) (dest name absDest : GoString)
    (habs : Abs wd dest = .ok absDest) :
    sanitizePath wd absDest name = sanitizePath wd dest name := by
  obtain ⟨ks, hks, rfl⟩ := Abs_names wd hwd dest absDest habs
  rw [sanitizePath_eq_escapes wd _ name _ (Abs_of_names wd ks hks),
    sanitizePath_eq_escapes wd dest name _ habs]

theorem forEntries_stop {ε : Type} (step : FS → ε → FS × Option GoError) (fs : FS)
    (pre post : List ε) (e : ε) (err : GoError) (h : ∀ s, step s e = (s, some err)) :
    forEntries step fs (pre ++ e :: post) =
      match forEntries step fs pre with
      | (fs1, some err1) => (fs1, some err1)
      | (fs1, none) => (fs1, some err) := by
  rw [forEntries_append]
  rcases forEntries step fs pre with ⟨fs1, _ | err1⟩
  · simp only [forEntries, h]
  · rfl

theorem illegalPath_Is (name : GoString) :
    (GoError.wrapf [] errIllegalPath (": ".toList ++ name)).Is errIllegalPath = true := by
  simp [GoError.Is, errIllegalPath]

/-- C2, as the code has it. Let an entry of the archive have a stripped path that
is not empty and resolves outside the destination root. Then `ExtractTarGz` and
`ExtractZip` return an error, and neither that entry nor any entry after it
changes the file system: the state is the one that extracting the entries before
it leaves. The error is the one of the first failing entry: it wraps
`errIllegalPath` when the entries before are extracted without error, and is
the error of an earlier entry otherwise. -/
theorem extraction_stops_at_escaping_entry (umask : Nat) (wd : Except GoError GoString)
    (hwd : ∀ w, wd = .ok w → IsAbs w = true) (fs : FS) (dest absDest : GoString) (n : Nat)
    (habs : Abs wd dest = .ok absDest) :
    (∀ (pre post : List TarEntry) (e : TarEntry) (tail : Option GoError),
      stripPath e.Name n ≠ [] → escapesRoot absDest (stripPath e.Name n) = true →
      ExtractTarGz umask wd fs (.ok ⟨pre ++ e :: post, tail⟩) dest n =
        (match ExtractTarGz umask wd fs (.ok ⟨pre, none⟩) dest n with
         | (fs1, some err1) => (fs1, some err1)
         | (fs1, none) =>
            (fs1, some (.wrapf [] errIllegalPath (": ".toList ++ stripPath e.Name n))))) ∧
    (∀ (pre post : List ZipFile) (f : ZipFile),
      stripPath f.Name n ≠ [] → escapesRoot absDest (stripPath f.Name n) = true →
      ExtractZip umask wd fs (.ok (pre ++ f :: post)) dest n =
        (match ExtractZip umask wd fs (.ok pre) dest n with
         | (fs1, some err1) => (fs1, some err1)
         | (fs1, none) =>
            (fs1, some (.wrapf [] errIllegalPath (": ".toList ++ stripPath f.Name n))))) ∧
    (∀ name : GoString,
      (GoError.wrapf [] errIllegalPath (": ".toList ++ name)).Is errIllegalPath = true) := by
  refine ⟨?_, ?_, illegalPath_Is⟩
  · intro pre post e tail hne hesc
    have hstep : ∀ s, extractTarEntry umask wd dest n s e =
        (s, some (.wrapf [] errIllegalPath (": ".toList ++ stripPath e.Name n))) := by
      intro s
      simp [extractTarEntry, hne, sanitizePath_eq_escapes wd dest _ absDest habs, hesc]
    simp only [ExtractTarGz]
    rw [forEntries_stop _ fs pre post e _ hstep]
    rcases forEntries (extractTarEntry umask wd dest n) fs pre with ⟨fs1, _ | err1⟩ <;> rfl
  · intro pre post f hne hesc
    have hstep : ∀ s, extractZipFile umask wd s f absDest n =
        (s, some (.wrapf [] errIllegalPath (": ".toList ++ stripPath f.Name n))) := by
      intro s
      simp [extractZipFile, hne, sanitizePath_absDest wd hwd dest _ absDest habs,
        sanitizePath_eq_escapes wd dest _ absDest habs, hesc]
    simp only [ExtractZip, habs]
    rw [forEntries_stop _ fs pre post f _ hstep]

theorem extraction_stops_at_escaping_entry_witness :
    Abs (.ok "/".toList) "/dest".toList = .ok "/dest".toList ∧
    ExtractTarGz 0o022 (.ok "/".toList) emptyDest
      (.ok ⟨[] ++ (⟨"../x".toList, .TypeReg, 0o644, ⟨[3], none⟩⟩ : TarEntry) :: [], none⟩)
      "/dest".toList 0 =
      (emptyDest, some (.wrapf [] errIllegalPath (": ".toList ++ "../x".toList))) :=
  ⟨by decide,
   ((extraction_stops_at_escaping_entry 0o022 (.ok "/".toList) (fun w h => by cases h; rfl) emptyDest "/dest".toList
      "/dest".toList 0 (by decide)).1 [] [] ⟨"../x".toList, .TypeReg, 0o644, ⟨[3], none⟩⟩ none
      (by decide) (by decide))⟩

/-- C2, counterexample. Extracting `conflictThenEscape` into the empty directory
`/dest` with strip count 0: the third entry resolves outside the root, yet the
error returned is the one of the second entry, whose parent `a` is a regular
file, and it does not wrap `errIllegalPath`. -/
theorem escaping_entry_after_failure :
    stripPath "../x".toList 0 ≠ [] ∧
    escapesRoot "/dest".toList (stripPath "../x".toList 0) = true ∧
    (ExtractTarGz 0o022 (.ok "/".toList) emptyDest (.ok ⟨conflictThenEscape, none⟩)
        "/dest".toList 0).2 =
      some (.sys "mkdir".toList "/dest/a".toList "not a directory".toList) ∧
    (GoError.sys "mkdir".toList "/dest/a".toList "not a directory".toList).Is errIllegalPath
      = false := by
  decide
/-! ## The file-system operations in closed form -/

theorem ensureDir_ok (perm : Nat) (fs : FS) (k : Key) (h : ∀ m d, fs k ≠ some (.file m d)) :
    ensureDir perm fs k =
      .ok (fun q => if q = k ∧ fs q = none then some (.dir perm) else fs q) := by
  unfold ensureDir
  cases hk : fs k with
  | none =>
    simp only
    congr 1
    funext q
    by_cases hq : q = k
    · simp [FS.set, hq, hk]
    · simp [FS.set, hq]
  | some nd =>
    cases nd with
    | dir p =>
      simp only
      congr 1
      funext q
      by_cases hq : q = k
      · simp [hq, hk]
      · simp [hq]
    | file m d => exact absurd hk (h m d)

theorem ensureDir_file (perm : Nat) (fs : FS) (k : Key) (m : Nat) (d : Bytes)
    (h : fs k = some (.file m d)) : ∃ e, ensureDir perm fs k = .error e := by
  simp [ensureDir, h]

theorem prefix_step (cur q : Key) (c : GoString) (t : Key) (h1 : cur <+: q)
    (h2 : q <+: cur ++ c :: t) : q = cur ∨ cur ++ [c] <+: q := by
  obtain ⟨r, rfl⟩ := h1
  have h3 : r <+: c :: t := (List.prefix_append_right_inj cur).1 h2
  cases r with
  | nil => left; simp
  | cons c' r' =>
    right
    obtain ⟨s, hs⟩ := h3
    simp only [List.cons_append, List.cons.injEq] at hs
    rw [hs.1]
    exact ⟨r', by simp⟩

theorem prefix_snoc_ne (cur q : Key) (c : GoString) (h : cur ++ [c] <+: q) : q ≠ cur := by
  rintro rfl
  have := h.length_le
  simp at this

theorem mkdirFrom_ok (perm : Nat) (fs : FS) (cur todo : Key)
    (h : ∀ q, cur <+: q → q <+: cur ++ todo → ∀ m d, fs q ≠ some (.file m d)) :
    mkdirFrom perm fs cur todo =
      .ok (fun q => if (cur <+: q ∧ q <+: cur ++ todo) ∧ fs q = none
        then some (.dir perm) else fs q) := by
  induction todo generalizing fs cur with
  | nil =>
    rw [mkdirFrom, ensureDir_ok perm fs cur (h cur (List.prefix_refl _) (by simp))]
    congr 1
    funext q
    by_cases hq : q = cur
    · simp [hq]
    · have : ¬ (cur <+: q ∧ q <+: cur) := by
        rintro ⟨h1, h2⟩
        exact hq (List.Sublist.antisymm h2.sublist h1.sublist)
      simp [hq, this]
  | cons c t ih =>
    rw [mkdirFrom, ensureDir_ok perm fs cur (h cur (List.prefix_refl _) (List.prefix_append _ _))]
    simp only
    rw [ih]
    · congr 1
      funext q
      by_cases hq : q = cur
      · subst hq
        have : ¬ (q ++ [c] <+: q) := fun hp => prefix_snoc_ne q q c hp rfl
        simp [this]
      · have hiff : (cur ++ [c] <+: q ∧ q <+: cur ++ [c] ++ t) ↔
            (cur <+: q ∧ q <+: cur ++ c :: t) := by
          constructor
          · rintro ⟨h1, h2⟩
            exact ⟨(List.prefix_append cur [c]).trans h1, by simpa using h2⟩
          · rintro ⟨h1, h2⟩
            rcases prefix_step cur q c t h1 h2 with h3 | h3
            · exact absurd h3 hq
            · exact ⟨h3, by simpa using h2⟩
        simp only [hq, false_and, if_false, hiff]
    · intro q h1 h2 m d
      have hq := prefix_snoc_ne cur q c h1
      simp only [hq, false_and, if_false]
      exact h q ((List.prefix_append cur [c]).trans h1) (by simpa using h2) m d

theorem mkdirFrom_file (perm : Nat) (fs : FS) (cur todo : Key) (q : Key)
    (h1 : cur <+: q) (h2 : q <+: cur ++ todo) (m : Nat) (d : Bytes)
    (hq : fs q = some (.file m d)) : ∃ e, mkdirFrom perm fs cur todo = .error e := by
  induction todo generalizing fs cur with
  | nil =>
    rw [List.append_nil] at h2
    have : q = cur := List.Sublist.antisymm h2.sublist h1.sublist
    subst this
    exact ensureDir_file perm fs q m d hq
  | cons c t ih =>
    rw [mkdirFrom]
    by_cases hcur : ∀ m d, fs cur ≠ some (.file m d)
    · rw [ensureDir_ok perm fs cur hcur]
      simp only
      rcases prefix_step cur q c t h1 h2 with h3 | h3
      · subst h3; exact absurd hq (hcur m d)
      · apply ih _ _ h3 (by simpa using h2)
        simp [prefix_snoc_ne cur q c h3, hq]
    · push_neg at hcur
      obtain ⟨m', d', hf⟩ := hcur
      obtain ⟨e, he⟩ := ensureDir_file perm fs cur m' d' hf
      exact ⟨e, by rw [he]⟩

theorem mkdirFrom_root_ok (perm : Nat) (fs : FS) (k : Key) (h : dirsOK fs k) :
    mkdirFrom perm fs [] k = .ok (withDirs perm fs k) := by
  rw [mkdirFrom_ok perm fs [] k (fun q _ h2 => h q (by simpa using h2))]
  congr 1
  funext q
  simp [withDirs]

theorem mkdirFrom_root_inv (perm : Nat) (fs fs1 : FS) (k : Key)
    (h : mkdirFrom perm fs [] k = .ok fs1) : dirsOK fs k ∧ fs1 = withDirs perm fs k := by
  have hok : dirsOK fs k := by
    intro q hq m d hf
    obtain ⟨e, he⟩ := mkdirFrom_file perm fs [] k q List.nil_prefix (by simpa using hq) m d hf
    rw [he] at h
    cases h
  refine ⟨hok, ?_⟩
  rw [mkdirFrom_root_ok perm fs k hok] at h
  exact (Except.ok.inj h).symm
/-! ## Targets, parents and the extraction of one file -/

theorem joinWith_snoc (sep : Char) (init : List GoString) (x : GoString) (h : init ≠ []) :
    joinWith sep (init ++ [x]) = joinWith sep init ++ sep :: x := by
  induction init with
  | nil => exact absurd rfl h
  | cons a as ih =>
    cases as with
    | nil => simp [joinWith]
    | cons b bs =>
      have h1 : joinWith sep (b :: (bs ++ [x])) = joinWith sep (b :: bs) ++ sep :: x := by
        simpa using ih (by simp)
      show joinWith sep (a :: b :: (bs ++ [x])) = joinWith sep (a :: b :: bs) ++ sep :: x
      rw [joinWith, joinWith, h1]
      simp

theorem dropWhile_last_segment (a b : GoString) (hb : PathSeparator ∉ b) :
    (((a ++ PathSeparator :: b).reverse.dropWhile (fun c => c != PathSeparator)).reverse) =
      a ++ [PathSeparator] := by
  have h1 : (a ++ PathSeparator :: b).reverse = b.reverse ++ (PathSeparator :: a.reverse) := by
    simp
  rw [h1, List.dropWhile_append_of_pos]
  · simp [List.dropWhile]
  · intro c hc
    have : c ≠ PathSeparator := fun e => hb (by simpa [e] using hc)
    simpa using this

theorem resolve_names (wd : Except GoError GoString) (ks : List GoString)
    (h : ∀ k ∈ ks, isName k = true) :
    resolve wd (PathSeparator :: joinWith PathSeparator ks) = .ok ks := by
  simp only [resolve, Abs_of_names wd ks h, pathKey_rooted ks h]

theorem Dir_names (ks : List GoString) (h : ∀ k ∈ ks, isName k = true) :
    Dir (PathSeparator :: joinWith PathSeparator ks) =
      PathSeparator :: joinWith PathSeparator ks.dropLast := by
  rcases List.eq_nil_or_concat ks with rfl | ⟨init, last, rfl⟩
  · decide
  · rw [List.concat_eq_append] at h ⊢
    have hlast : PathSeparator ∉ last := ((isName_iff last).1 (h last (by simp))).2.2.2
    have hinit : ∀ k ∈ init, isName k = true := fun k hk => h k (by simp [hk])
    rw [List.dropLast_concat]
    cases init with
    | nil =>
      have := dropWhile_last_segment [] last hlast
      simp only [List.nil_append] at this
      simp only [Dir, List.nil_append, joinWith, this]
      decide
    | cons i is =>
      have := dropWhile_last_segment (PathSeparator :: joinWith PathSeparator (i :: is)) last hlast
      rw [joinWith_snoc _ _ _ (by simp)]
      simp only [List.cons_append] at this
      simp only [Dir, this]
      rw [Clean_rooted, Split_append_sep,
        Split_joinWith _ _ _ (fun c hc => ((isName_iff c).1 (hinit c hc)).2.2.2)]
      simp only [rootedNames, List.foldl_append, foldl_cleanStep_names true _ [] hinit]
      simp [Split, cleanStep]

theorem dropLast_not_prefix (k : Key) (h : k ≠ []) : ¬ k <+: k.dropLast := by
  intro hp
  have h1 := hp.length_le
  rw [List.length_dropLast] at h1
  have : 0 < k.length := List.length_pos.2 h
  omega

/-- The three steps that extract a regular file, when they succeed: the parents
are made, the file is opened and the content is copied. -/
theorem write_steps_ok (umask : Nat) (wd : Except GoError GoString) (fs : FS) (ks : Key)
    (hn : ∀ k ∈ ks, isName k = true) (hne : ks ≠ []) (hd : dirsOK fs ks.dropLast)
    (hk : ∀ m, fs ks ≠ some (.dir m)) (mode : Nat) (r : Reader) :
    MkdirAll umask wd fs (Dir (PathSeparator :: joinWith PathSeparator ks)) 0o755 =
      .ok (withDirs (createMode umask 0o755) fs ks.dropLast) ∧
    OpenFile umask wd (withDirs (createMode umask 0o755) fs ks.dropLast) (PathSeparator :: joinWith PathSeparator ks) mode =
      .ok (written umask fs ks mode [], ks) ∧
    ioCopy (written umask fs ks mode []) ks r = (written umask fs ks mode r.data, r.err) := by
  have hnd : ∀ k ∈ ks.dropLast, isName k = true :=
    fun k hk' => hn k (List.mem_of_mem_dropLast hk')
  have hsame : withDirs (createMode umask 0o755) fs ks.dropLast ks = fs ks := by
    simp [withDirs, dropLast_not_prefix ks hne]
  refine ⟨?_, ?_, ?_⟩
  · simp only [Dir_names _ hn, MkdirAll, resolve_names wd _ hnd, mkdirFrom_root_ok _ _ _ hd]
  · obtain ⟨init, last, rfl⟩ : ∃ init last, ks = init ++ [last] := by
      rcases List.eq_nil_or_concat ks with h | ⟨i, l, h⟩
      · exact absurd h hne
      · exact ⟨i, l, by simpa using h⟩
    simp only [List.dropLast_concat] at hd hsame
    have hup : ∃ m, withDirs (createMode umask 0o755) fs init init = some (.dir m) := by
      cases hi : fs init with
      | none => exact ⟨createMode umask 0o755, by simp [withDirs, hi]⟩
      | some nd =>
        cases nd with
        | dir m => exact ⟨m, by simp [withDirs, hi]⟩
        | file m d => exact absurd hi (hd init (List.prefix_refl _) m d)
    obtain ⟨m, hm⟩ := hup
    simp only [OpenFile, resolve_names wd _ hn, hsame, written, List.dropLast_concat]
    cases hf : fs (init ++ [last]) with
    | none => simp [openMode, hm]
    | some nd =>
      cases nd with
      | dir m => exact absurd hf (hk m)
      | file m d => simp [openMode]
  · simp only [ioCopy, written, FS.set, if_true]
    congr 1
    funext q
    by_cases hq : q = ks <;> simp [FS.set, hq]
/-! ## C5: a round trip -/

theorem joinWith_append (sep : Char) (xs ys : List GoString) (hx : xs ≠ []) (hy : ys ≠ []) :
    joinWith sep (xs ++ ys) = joinWith sep xs ++ sep :: joinWith sep ys := by
  induction xs with
  | nil => exact absurd rfl hx
  | cons a as ih =>
    cases as with
    | nil =>
      cases ys with
      | nil => exact absurd rfl hy
      | cons y ys => simp [joinWith]
    | cons b bs =>
      have h1 := ih (by simp)
      show joinWith sep (a :: b :: (bs ++ ys)) = joinWith sep (a :: b :: bs) ++ sep :: joinWith sep ys
      rw [joinWith, joinWith]
      simp only [List.cons_append] at h1
      rw [h1]
      simp

/-- A relative path made of names, joined to a root that is not `/`, is accepted
by `sanitizePath`, and the target is the root followed by those names. -/
theorem sanitizePath_below (wd : Except GoError GoString) (dest : GoString) (ds rs : Key)
    (habs : Abs wd dest = .ok (PathSeparator :: joinWith PathSeparator ds))
    (hds : ∀ k ∈ ds, isName k = true) (hrs : ∀ k ∈ rs, isName k = true)
    (hd : ds ≠ []) (hr : rs ≠ []) :
    sanitizePath wd dest (joinWith PathSeparator rs) =
      .ok (PathSeparator :: joinWith PathSeparator (ds ++ rs)) := by
  have hall : ∀ k ∈ ds ++ rs, isName k = true := by
    intro k hk
    rcases List.mem_append.1 hk with h | h
    · exact hds k h
    · exact hrs k h
  obtain ⟨d, ds', rfl⟩ := List.exists_cons_of_ne_nil hd
  obtain ⟨r, rs', rfl⟩ := List.exists_cons_of_ne_nil hr
  have hj : Join [PathSeparator :: joinWith PathSeparator (d :: ds'),
      joinWith PathSeparator (r :: rs')] =
      PathSeparator :: joinWith PathSeparator (d :: ds' ++ r :: rs') := by
    rw [Join_pair_rooted,
      Split_joinWith _ _ _ (fun c hc => ((isName_iff c).1 (hds c hc)).2.2.2),
      Split_joinWith _ _ _ (fun c hc => ((isName_iff c).1 (hrs c hc)).2.2.2),
      rootedNames_names _ hall]
  rw [sanitizePath_eq wd dest _ _ habs, hj, Clean_names _ hall, Clean_names _ hds, if_pos]
  right
  rw [joinWith_append _ _ _ hd hr]
  exact ⟨joinWith PathSeparator (r :: rs'), by simp⟩

theorem withDirs_present (perm : Nat) (fs : FS) (k : Key) (h : ∀ q, q <+: k → fs q ≠ none) :
    withDirs perm fs k = fs := by
  funext q
  by_cases hq : q <+: k
  · simp [withDirs, h q hq]
  · simp [withDirs, hq]

theorem withDirs_snoc (perm : Nat) (fs : FS) (k : Key) (c : GoString)
    (h : ∀ q, q <+: k → fs q ≠ none) (hc : fs (k ++ [c]) = none) :
    withDirs perm fs (k ++ [c]) = fs.set (k ++ [c]) (.dir perm) := by
  funext q
  by_cases hq : q = k ++ [c]
  · simp [withDirs, FS.set, hq, hc]
  · by_cases hp : q <+: k
    · simp [withDirs, FS.set, hq, h q hp]
    · have : ¬ q <+: k ++ [c] := by
        intro h'
        rcases List.prefix_concat_iff.1 h' with h1 | h1
        · exact hq h1
        · exact hp h1
      simp [withDirs, FS.set, hq, this]

theorem extractTarEntry_file (umask : Nat) (wd : Except GoError GoString) (dest : GoString) (n : Nat)
    (fs : FS) (e : TarEntry) (ks : Key) (hreg : e.Typeflag = .TypeReg)
    (hrel : stripPath e.Name n ≠ [])
    (hsan : sanitizePath wd dest (stripPath e.Name n) =
      .ok (PathSeparator :: joinWith PathSeparator ks))
    (hn : ∀ k ∈ ks, isName k = true) (hne : ks ≠ []) (hd : dirsOK fs ks.dropLast)
    (hk : ∀ m, fs ks ≠ some (.dir m)) :
    extractTarEntry umask wd dest n fs e = (written umask fs ks e.Mode e.content.data, e.content.err) := by
  obtain ⟨h1, h2, h3⟩ := write_steps_ok umask wd fs ks hn hne hd hk e.Mode e.content
  simp only [extractTarEntry, hrel, if_false, hsan, hreg, extractTarFile, h1, h2, h3]
/-! ## C5: a round trip -/

theorem partlyExtracted_above (fs : FS) (ks : Key) (b c d : GoString) (f1 dir f2 : Node)
    (hasB hasC hasD : Bool) (q : Key) (hq : q <+: ks) :
    partlyExtracted fs ks b c d f1 dir f2 hasB hasC hasD q = fs q := by
  have hlen := hq.length_le
  have h1 : q ≠ ks ++ [b] := by rintro rfl; simp at hlen
  have h2 : q ≠ ks ++ [c] := by rintro rfl; simp at hlen
  have h3 : q ≠ ks ++ [c, d] := by rintro rfl; simp at hlen
  simp [partlyExtracted, h1, h2, h3]

/-- One entry of the round trip archive, handled in a destination where some of
the three nodes have been made: a regular file to `b` or to `c/d`, a directory
`c`, an entry that is skipped, or an entry of another type. -/
theorem partlyExtracted_step (umask : Nat) (wd : Except GoError GoString) (dest : GoString)
    (n : Nat) (fs : FS) (ks : Key)
    (habs : Abs wd dest = .ok (PathSeparator :: joinWith PathSeparator ks))
    (hks : ∀ k ∈ ks, isName k = true) (hroot : ks ≠ [])
    (hdirs : ∀ q, q <+: ks → ∃ m, fs q = some (.dir m))
    (hempty : ∀ q, ks <+: q → q ≠ ks → fs q = none)
    (e1 e2 : TarEntry) (b c d : GoString)
    (hb : isName b = true) (hc : isName c = true) (hd : isName d = true) (hbc : c ≠ b)
    (h1 : stripPath e1.Name n = joinWith PathSeparator [b])
    (h2 : stripPath e2.Name n = joinWith PathSeparator [c, d])
    (r1 : e1.Typeflag = .TypeReg) (r2 : e2.Typeflag = .TypeReg)
    (o1 : e1.content.err = none) (o2 : e2.content.err = none)
    (e : TarEntry)
    (he : e = e1 ∨ e = e2 ∨ stripPath e.Name n = [] ∨
      (e.Typeflag = .TypeDir ∧ stripPath e.Name n = joinWith PathSeparator [c]) ∨
      ((∃ flag, e.Typeflag = .other flag) ∧
        ∃ t, sanitizePath wd dest (stripPath e.Name n) = .ok t))
    (hasB hasC hasD : Bool) (hinv : hasD = true → hasC = true) :
    ∃ hasB' hasC' hasD', (hasD' = true → hasC' = true) ∧
      (hasB = true → hasB' = true) ∧ (hasD = true → hasD' = true) ∧
      (e = e1 → hasB' = true) ∧ (e = e2 → hasD' = true) ∧
      extractTarEntry umask wd dest n
        (partlyExtracted fs ks b c d (.file (createMode umask e1.Mode) e1.content.data)
          (.dir (createMode umask 0o755)) (.file (createMode umask e2.Mode) e2.content.data)
          hasB hasC hasD) e =
        (partlyExtracted fs ks b c d (.file (createMode umask e1.Mode) e1.content.data)
          (.dir (createMode umask 0o755)) (.file (createMode umask e2.Mode) e2.content.data)
          hasB' hasC' hasD', none) := by
  have hbne : b ≠ [] := ((isName_iff b).1 hb).1
  have hcne : c ≠ [] := ((isName_iff c).1 hc).1
  have hk1 : fs (ks ++ [b]) = none := hempty _ (List.prefix_append _ _) (by simp)
  have hkc : fs (ks ++ [c]) = none := hempty _ (List.prefix_append _ _) (by simp)
  have hk2 : fs (ks ++ [c, d]) = none := hempty _ (List.prefix_append _ _) (by simp)
  have hcb : ks ++ [c] ≠ ks ++ [b] := by simpa using hbc
  have hdb : ks ++ [c, d] ≠ ks ++ [b] := by simp
  have hdc : ks ++ [c, d] ≠ ks ++ [c] := by simp
  have hdl : (ks ++ [c, d]).dropLast = ks ++ [c] := by
    have : ks ++ [c, d] = (ks ++ [c]) ++ [d] := by simp
    rw [this, List.dropLast_concat]
  have hn1 : ∀ k ∈ ks ++ [b], isName k = true := by
    intro k hk
    rcases List.mem_append.1 hk with h | h
    · exact hks k h
    · rw [List.mem_singleton.1 h]; exact hb
  have hnc : ∀ k ∈ ks ++ [c], isName k = true := by
    intro k hk
    rcases List.mem_append.1 hk with h | h
    · exact hks k h
    · rw [List.mem_singleton.1 h]; exact hc
  have hn2 : ∀ k ∈ ks ++ [c, d], isName k = true := by
    intro k hk
    rcases List.mem_append.1 hk with h | h
    · exact hks k h
    · simp only [List.mem_cons, List.mem_singleton, List.not_mem_nil, or_false] at h
      rcases h with rfl | rfl
      · exact hc
      · exact hd
  generalize hS : partlyExtracted fs ks b c d (.file (createMode umask e1.Mode) e1.content.data)
    (.dir (createMode umask 0o755)) (.file (createMode umask e2.Mode) e2.content.data)
    hasB hasC hasD = S
  have habove : ∀ q, q <+: ks → S q = fs q := fun q hq => by
    rw [← hS]; exact partlyExtracted_above _ _ _ _ _ _ _ _ _ _ _ q hq
  have hpres : ∀ q, q <+: ks → S q ≠ none := fun q hq => by
    obtain ⟨m, hm⟩ := hdirs q hq
    rw [habove q hq, hm]; simp
  have hSb : S (ks ++ [b]) =
      if hasB then some (.file (createMode umask e1.Mode) e1.content.data) else none := by
    rw [← hS]; simp [partlyExtracted, hk1]
  have hSc : S (ks ++ [c]) = if hasC then some (.dir (createMode umask 0o755)) else none := by
    rw [← hS]; simp [partlyExtracted, hcb, hkc]
  have hSd : S (ks ++ [c, d]) =
      if hasD then some (.file (createMode umask e2.Mode) e2.content.data) else none := by
    rw [← hS]; simp [partlyExtracted, hdb, hdc, hk2]
  have hok : dirsOK S ks := fun q hq m x hf => by
    obtain ⟨m', hm'⟩ := hdirs q hq
    rw [habove q hq, hm'] at hf
    cases hf
  have hokc : dirsOK S (ks ++ [c]) := fun q hq m x hf => by
    rcases List.prefix_concat_iff.1 hq with h | h
    · rw [h, hSc] at hf
      cases hasC <;> simp at hf
    · exact hok q h m x hf
  have hwc : withDirs (createMode umask 0o755) S (ks ++ [c]) =
      partlyExtracted fs ks b c d (.file (createMode umask e1.Mode) e1.content.data)
        (.dir (createMode umask 0o755)) (.file (createMode umask e2.Mode) e2.content.data)
        hasB true hasD := by
    funext q
    by_cases hq : q <+: ks
    · rw [partlyExtracted_above _ _ _ _ _ _ _ _ _ _ _ q hq]
      obtain ⟨m, hm⟩ := hdirs q hq
      simp [withDirs, habove q hq, hm]
    · by_cases hqc : q = ks ++ [c]
      · subst hqc
        cases hasC <;> simp [withDirs, hSc, partlyExtracted, hcb]
      · have hnp : ¬ q <+: ks ++ [c] := fun h' => by
          rcases List.prefix_concat_iff.1 h' with h | h
          · exact hqc h
          · exact hq h
        rw [← hS]
        simp [withDirs, hnp, partlyExtracted, hqc]
  have hnames : joinWith PathSeparator [b] ≠ joinWith PathSeparator [c, d] := by
    intro h
    have hsep := ((isName_iff b).1 hb).2.2.2
    simp only [joinWith] at h
    rw [h] at hsep
    simp at hsep
  have hfile1 : extractTarEntry umask wd dest n S e1 =
      (partlyExtracted fs ks b c d (.file (createMode umask e1.Mode) e1.content.data)
        (.dir (createMode umask 0o755)) (.file (createMode umask e2.Mode) e2.content.data)
        true hasC hasD, none) := by
    rw [extractTarEntry_file umask wd dest n S e1 (ks ++ [b]) r1
      (by rw [h1]; simpa [joinWith] using hbne)
      (by
        rw [h1]
        exact sanitizePath_below wd dest ks [b] habs hks
          (fun k hk => by rw [List.mem_singleton.1 hk]; exact hb) hroot (by simp))
      hn1 (by simp) (by rw [List.dropLast_concat]; exact hok)
      (by rw [hSb]; cases hasB <;> simp), o1]
    congr 1
    funext q
    by_cases hq : q = ks ++ [b]
    · subst hq
      cases hasB <;> simp [written, FS.set, partlyExtracted, openMode, hSb]
    · simp only [written, FS.set, hq, if_false, List.dropLast_concat]
      rw [withDirs_present _ S ks hpres, ← hS]
      simp [partlyExtracted, hq]
  have hfile2 : extractTarEntry umask wd dest n S e2 =
      (partlyExtracted fs ks b c d (.file (createMode umask e1.Mode) e1.content.data)
        (.dir (createMode umask 0o755)) (.file (createMode umask e2.Mode) e2.content.data)
        hasB true true, none) := by
    rw [extractTarEntry_file umask wd dest n S e2 (ks ++ [c, d]) r2
      (by rw [h2]; simp [joinWith, hcne])
      (by
        rw [h2]
        exact sanitizePath_below wd dest ks [c, d] habs hks
          (fun k hk => by
            simp only [List.mem_cons, List.mem_singleton, List.not_mem_nil, or_false] at hk
            rcases hk with rfl | rfl
            · exact hc
            · exact hd) hroot (by simp))
      hn2 (by simp) (by rw [hdl]; exact hokc)
      (by rw [hSd]; cases hasD <;> simp), o2]
    congr 1
    funext q
    by_cases hq : q = ks ++ [c, d]
    · subst hq
      cases hasD <;> simp [written, FS.set, partlyExtracted, openMode, hSd, hdb, hdc]
    · simp only [written, FS.set, hq, if_false, hdl]
      rw [hwc]
      cases hasD <;> simp [partlyExtracted, hq]
  rcases he with rfl | rfl | hskip | ⟨hdir, hname⟩ | ⟨⟨flag, hflag⟩, t, ht⟩
  · exact ⟨true, hasC, hasD, hinv, fun _ => rfl, id, fun _ => rfl,
      fun h => absurd (h1.symm.trans ((congrArg (fun x => stripPath x.Name n) h).trans h2)) hnames,
      hfile1⟩
  · exact ⟨hasB, true, true, fun _ => rfl, id, fun _ => rfl,
      fun h => absurd (h1.symm.trans ((congrArg (fun x => stripPath x.Name n) h.symm).trans h2))
        hnames,
      fun _ => rfl, hfile2⟩
  · refine ⟨hasB, hasC, hasD, hinv, id, id, ?_, ?_, ?_⟩
    · intro h
      rw [h, h1] at hskip
      simp [joinWith, hbne] at hskip
    · intro h
      rw [h, h2] at hskip
      simp [joinWith, hcne] at hskip
    · rw [extractTarEntry_skip umask wd dest n S e hskip, hS]
  · refine ⟨hasB, true, hasD, fun _ => rfl, id, id, ?_, ?_, ?_⟩
    · intro h
      rw [h, r1] at hdir
      cases hdir
    · intro h
      rw [h, r2] at hdir
      cases hdir
    · have hsan := sanitizePath_below wd dest ks [c] habs hks
        (fun k hk => by rw [List.mem_singleton.1 hk]; exact hc) hroot (by simp)
      have hrel : joinWith PathSeparator [c] ≠ [] := by simpa [joinWith] using hcne
      simp only [extractTarEntry, hname, hrel, if_false, hsan, hdir, MkdirAll,
        resolve_names wd _ hnc, mkdirFrom_root_ok _ _ _ hokc, hwc]
  · refine ⟨hasB, hasC, hasD, hinv, id, id, ?_, ?_, ?_⟩
    · intro h
      rw [h, r1] at hflag
      cases hflag
    · intro h
      rw [h, r2] at hflag
      cases hflag
    · by_cases hrel : stripPath e.Name n = []
      · rw [extractTarEntry_skip umask wd dest n S e hrel, hS]
      · simp only [extractTarEntry, hrel, if_false, ht, hflag, hS]

/-- The entries of the round trip archive, handled one after the other. -/
theorem partlyExtracted_run (umask : Nat) (wd : Except GoError GoString) (dest : GoString)
    (n : Nat) (fs : FS) (ks : Key)
    (habs : Abs wd dest = .ok (PathSeparator :: joinWith PathSeparator ks))
    (hks : ∀ k ∈ ks, isName k = true) (hroot : ks ≠ [])
    (hdirs : ∀ q, q <+: ks → ∃ m, fs q = some (.dir m))
    (hempty : ∀ q, ks <+: q → q ≠ ks → fs q = none)
    (e1 e2 : TarEntry) (b c d : GoString)
    (hb : isName b = true) (hc : isName c = true) (hd : isName d = true) (hbc : c ≠ b)
    (h1 : stripPath e1.Name n = joinWith PathSeparator [b])
    (h2 : stripPath e2.Name n = joinWith PathSeparator [c, d])
    (r1 : e1.Typeflag = .TypeReg) (r2 : e2.Typeflag = .TypeReg)
    (o1 : e1.content.err = none) (o2 : e2.content.err = none)
    (entries : List TarEntry)
    (hall : ∀ e ∈ entries, e = e1 ∨ e = e2 ∨ stripPath e.Name n = [] ∨
      (e.Typeflag = .TypeDir ∧ stripPath e.Name n = joinWith PathSeparator [c]) ∨
      ((∃ flag, e.Typeflag = .other flag) ∧
        ∃ t, sanitizePath wd dest (stripPath e.Name n) = .ok t)) :
    ∀ hasB hasC hasD : Bool, (hasD = true → hasC = true) →
    ∃ hasB' hasC' hasD', (hasD' = true → hasC' = true) ∧
      (hasB = true → hasB' = true) ∧ (hasD = true → hasD' = true) ∧
      (e1 ∈ entries → hasB' = true) ∧ (e2 ∈ entries → hasD' = true) ∧
      forEntries (extractTarEntry umask wd dest n)
        (partlyExtracted fs ks b c d (.file (createMode umask e1.Mode) e1.content.data)
          (.dir (createMode umask 0o755)) (.file (createMode umask e2.Mode) e2.content.data)
          hasB hasC hasD) entries =
        (partlyExtracted fs ks b c d (.file (createMode umask e1.Mode) e1.content.data)
          (.dir (createMode umask 0o755)) (.file (createMode umask e2.Mode) e2.content.data)
          hasB' hasC' hasD', none) := by
  induction entries with
  | nil =>
    intro hasB hasC hasD hinv
    exact ⟨hasB, hasC, hasD, hinv, id, id, fun h => absurd h (List.not_mem_nil _),
      fun h => absurd h (List.not_mem_nil _), rfl⟩
  | cons e rest ih =>
    intro hasB hasC hasD hinv
    obtain ⟨b1, c1, d1, hinv1, hB1, hD1, hE1, hE2, hstep⟩ :=
      partlyExtracted_step umask wd dest n fs ks habs hks hroot hdirs hempty e1 e2 b c d
        hb hc hd hbc h1 h2 r1 r2 o1 o2 e (hall e (List.mem_cons_self _ _)) hasB hasC hasD hinv
    obtain ⟨b2, c2, d2, hinv2, hB2, hD2, hR1, hR2, hrun⟩ :=
      ih (fun x hx => hall x (List.mem_cons_of_mem _ hx)) b1 c1 d1 hinv1
    refine ⟨b2, c2, d2, hinv2, fun h => hB2 (hB1 h), fun h => hD2 (hD1 h), ?_, ?_, ?_⟩
    · intro hmem
      rcases List.mem_cons.1 hmem with h | h
      · exact hB2 (hE1 h.symm)
      · exact hR1 h
    · intro hmem
      rcases List.mem_cons.1 hmem with h | h
      · exact hD2 (hE2 h.symm)
      · exact hR2 h
    · simp only [forEntries, hstep, hrun]

/-- C5. Let a well-formed archive hold the regular files `a/b.txt` and
`a/c/d.txt` and no other regular file, in any order and any number of times, among
directory entries for `a` and `a/c` only and entries of other types whose names
stay inside the destination. Extracting it with strip count 1 into an empty
destination directory (which is not the root of the file system, and whose
ancestors are directories) succeeds, and the state it leaves is the initial one
with exactly three more nodes, all under the destination: the file `b.txt`, the
directory `c` and the file `c/d.txt`, each file with the content of its entry
and the mode of its entry as the process creates it. -/
theorem ExtractTarGz_round_trip (umask : Nat) (wd : Except GoError GoString)
    (hwd : ∀ w, wd = .ok w → IsAbs w = true) (fs : FS) (dest absDest : GoString)
    (habs : Abs wd dest = .ok absDest) (hroot : pathKey absDest ≠ [])
    (hdirs : ∀ q, q <+: pathKey absDest → ∃ m, fs q = some (.dir m))
    (hempty : ∀ q, pathKey absDest <+: q → q ≠ pathKey absDest → fs q = none)
    (m1 m2 : Nat) (c1 c2 : Bytes) (entries : List TarEntry)
    (hfile1 : ⟨"a/b.txt".toList, .TypeReg, m1, ⟨c1, none⟩⟩ ∈ entries)
    (hfile2 : ⟨"a/c/d.txt".toList, .TypeReg, m2, ⟨c2, none⟩⟩ ∈ entries)
    (hreg : ∀ e ∈ entries, e.Typeflag = .TypeReg →
      e = ⟨"a/b.txt".toList, .TypeReg, m1, ⟨c1, none⟩⟩ ∨
      e = ⟨"a/c/d.txt".toList, .TypeReg, m2, ⟨c2, none⟩⟩)
    (hdir : ∀ e ∈ entries, e.Typeflag = .TypeDir →
      e.Name ∈ ["a".toList, "a/".toList, "a/c".toList, "a/c/".toList])
    (hother : ∀ e ∈ entries, ∀ flag, e.Typeflag = .other flag →
      stripPath e.Name 1 = [] ∨ ∃ t, sanitizePath wd dest (stripPath e.Name 1) = .ok t) :
    ExtractTarGz umask wd fs (.ok ⟨entries, none⟩) dest 1 =
      (((fs.set (pathKey absDest ++ ["b.txt".toList]) (.file (createMode umask m1) c1)).set
          (pathKey absDest ++ ["c".toList]) (.dir (createMode umask 0o755))).set
          (pathKey absDest ++ ["c".toList, "d.txt".toList]) (.file (createMode umask m2) c2),
        none) := by
  obtain ⟨ks, hks, rfl⟩ := Abs_names wd hwd dest absDest habs
  rw [pathKey_rooted ks hks] at hroot hdirs hempty ⊢
  have hs1 : stripPath "a/b.txt".toList 1 = joinWith PathSeparator ["b.txt".toList] := by
    decide
  have hs2 : stripPath "a/c/d.txt".toList 1 =
      joinWith PathSeparator ["c".toList, "d.txt".toList] := by decide
  have hd1 : stripPath "a".toList 1 = [] := by decide
  have hd2 : stripPath "a/".toList 1 = [] := by decide
  have hd3 : stripPath "a/c".toList 1 = joinWith PathSeparator ["c".toList] := by decide
  have hd4 : stripPath "a/c/".toList 1 = joinWith PathSeparator ["c".toList] := by decide
  have hall : ∀ e ∈ entries,
      e = ⟨"a/b.txt".toList, .TypeReg, m1, ⟨c1, none⟩⟩ ∨
      e = ⟨"a/c/d.txt".toList, .TypeReg, m2, ⟨c2, none⟩⟩ ∨ stripPath e.Name 1 = [] ∨
      (e.Typeflag = .TypeDir ∧ stripPath e.Name 1 = joinWith PathSeparator ["c".toList]) ∨
      ((∃ flag, e.Typeflag = .other flag) ∧
        ∃ t, sanitizePath wd dest (stripPath e.Name 1) = .ok t) := by
    intro e he
    cases hflag : e.Typeflag with
    | TypeReg =>
      rcases hreg e he hflag with h | h
      · exact Or.inl h
      · exact Or.inr (Or.inl h)
    | TypeDir =>
      have hn := hdir e he hflag
      simp only [List.mem_cons, List.mem_singleton, List.not_mem_nil, or_false] at hn
      rcases hn with h | h | h | h
      · exact Or.inr (Or.inr (Or.inl (by rw [h]; exact hd1)))
      · exact Or.inr (Or.inr (Or.inl (by rw [h]; exact hd2)))
      · exact Or.inr (Or.inr (Or.inr (Or.inl ⟨rfl, by rw [h]; exact hd3⟩)))
      · exact Or.inr (Or.inr (Or.inr (Or.inl ⟨rfl, by rw [h]; exact hd4⟩)))
    | other flag =>
      rcases hother e he flag hflag with h | h
      · exact Or.inr (Or.inr (Or.inl h))
      · exact Or.inr (Or.inr (Or.inr (Or.inr ⟨⟨flag, rfl⟩, h⟩)))
  obtain ⟨hasB, hasC, hasD, hinv, _, _, hB, hD, hrun⟩ :=
    partlyExtracted_run umask wd dest 1 fs ks habs hks hroot hdirs hempty
      ⟨"a/b.txt".toList, .TypeReg, m1, ⟨c1, none⟩⟩ ⟨"a/c/d.txt".toList, .TypeReg, m2, ⟨c2, none⟩⟩
      "b.txt".toList "c".toList "d.txt".toList (by decide) (by decide) (by decide) (by decide)
      hs1 hs2 rfl rfl rfl rfl entries hall false false false (fun h => by cases h)
  have hB' := hB hfile1
  have hD' := hD hfile2
  have hC' := hinv hD'
  subst hB' hD' hC'
  have hstart : partlyExtracted fs ks "b.txt".toList "c".toList "d.txt".toList
      (.file (createMode umask m1) c1) (.dir (createMode umask 0o755))
      (.file (createMode umask m2) c2) false false false = fs := by
    funext q
    simp [partlyExtracted]
  have hend : partlyExtracted fs ks "b.txt".toList "c".toList "d.txt".toList
      (.file (createMode umask m1) c1) (.dir (createMode umask 0o755))
      (.file (createMode umask m2) c2) true true true =
      ((fs.set (ks ++ ["b.txt".toList]) (.file (createMode umask m1) c1)).set
        (ks ++ ["c".toList]) (.dir (createMode umask 0o755))).set
        (ks ++ ["c".toList, "d.txt".toList]) (.file (createMode umask m2) c2) := by
    have hcb : ks ++ ["c".toList] ≠ ks ++ ["b.txt".toList] := by
      simp only [ne_eq, List.append_cancel_left_eq, List.cons.injEq, and_true]; decide
    have hdb : ks ++ ["c".toList, "d.txt".toList] ≠ ks ++ ["b.txt".toList] := by simp
    have hdc : ks ++ ["c".toList, "d.txt".toList] ≠ ks ++ ["c".toList] := by simp
    funext q
    by_cases hq1 : q = ks ++ ["b.txt".toList]
    · subst hq1
      simp [partlyExtracted, FS.set, Ne.symm hcb, Ne.symm hdb]
    · by_cases hq2 : q = ks ++ ["c".toList]
      · subst hq2
        simp [partlyExtracted, FS.set, hcb, Ne.symm hdc]
      · by_cases hq3 : q = ks ++ ["c".toList, "d.txt".toList]
        · subst hq3
          simp [partlyExtracted, FS.set, hdb, hdc]
        · simp only [partlyExtracted, FS.set, if_neg hq1, if_neg hq2, if_neg hq3]
  rw [hstart] at hrun
  simp only [ExtractTarGz, hrun, hend]
theorem ExtractTarGz_round_trip_witness :
    Abs (.ok "/".toList) "/dest".toList = .ok "/dest".toList ∧
    ExtractTarGz 0o022 (.ok "/".toList) emptyDest (.ok ⟨roundTripArchive, none⟩)
        "/dest".toList 1 =
      (((emptyDest.set ["dest".toList, "b.txt".toList] (.file 0o644 [104, 105])).set
          ["dest".toList, "c".toList] (.dir 0o755)).set
          ["dest".toList, "c".toList, "d.txt".toList] (.file 0o755 [33]), none) := by
  have hk : pathKey "/dest".toList = ["dest".toList] := by decide
  refine ⟨by decide, ?_⟩
  have h := ExtractTarGz_round_trip 0o022 (.ok "/".toList) (fun w h => by cases h; rfl)
    emptyDest "/dest".toList "/dest".toList (by decide)
    (by rw [hk]; exact fun h => by cases h)
    (by
      rw [hk]
      intro q hq
      rcases List.prefix_cons_iff.1 hq with rfl | ⟨t, rfl, ht⟩
      · exact ⟨0o755, rfl⟩
      · rw [List.prefix_nil] at ht
        subst ht
        exact ⟨0o755, rfl⟩)
    (by
      rw [hk]
      intro q hq hne
      obtain ⟨t, rfl⟩ := hq
      cases t with
      | nil => exact absurd (by simp) hne
      | cons x xs => rfl)
    0o644 0o755 [104, 105] [33] roundTripArchive (by decide) (by decide) (by decide)
    (by decide)
    (by
      intro e he flag hflag
      simp only [roundTripArchive, List.mem_cons, List.mem_singleton, List.not_mem_nil,
        or_false] at he
      rcases he with rfl | rfl | rfl | rfl | rfl
      · cases hflag
      · cases hflag
      · cases hflag
      · cases hflag
      · exact Or.inr ⟨"/dest/link".toList, by decide⟩)
  rw [hk] at h
  exact h

/-- C5, as stated, fails: an archive whose regular files are `a/b.txt` and
`a/c/d.txt` and which also holds an entry for the directory `a/e/` is extracted
without error, and leaves the directory `e` in the destination besides the two
files and the directory `c`. -/
theorem ExtractTarGz_extra_directory :
    (∀ e ∈ extraDirArchive, e.Typeflag = .TypeReg →
      e.Name = "a/b.txt".toList ∨ e.Name = "a/c/d.txt".toList) ∧
    (ExtractTarGz 0o022 (.ok "/".toList) emptyDest (.ok ⟨extraDirArchive, none⟩)
      "/dest".toList 1).2 = none ∧
    (ExtractTarGz 0o022 (.ok "/".toList) emptyDest (.ok ⟨extraDirArchive, none⟩)
      "/dest".toList 1).1 ["dest".toList, "e".toList] = some (.dir 0o755) := by
  refine ⟨by decide, by decide, by decide⟩
/-! ## C6: the order of the records of a zip archive -/

theorem withDirs_comm (perm : Nat) (fs : FS) (a b : Key) :
    withDirs perm (withDirs perm fs a) b = withDirs perm (withDirs perm fs b) a := by
  funext q
  by_cases h : fs q = none <;> by_cases ha : q <+: a <;> by_cases hb : q <+: b <;>
    simp [withDirs, h, ha, hb]

theorem withDirs_file (perm : Nat) (fs : FS) (a q : Key) (m : Nat) (d : Bytes) :
    withDirs perm fs a q = some (.file m d) ↔ fs q = some (.file m d) := by
  by_cases h : q <+: a ∧ fs q = none
  · simp [withDirs, h]
  · simp [withDirs, h]

theorem dirsOK_withDirs (perm : Nat) (fs : FS) (a b : Key) :
    dirsOK (withDirs perm fs a) b ↔ dirsOK fs b := by
  simp only [dirsOK, ne_eq, withDirs_file]

theorem withDirs_set_file (perm : Nat) (fs : FS) (a k : Key) (m : Nat) (d : Bytes) :
    withDirs perm (fs.set k (.file m d)) a = (withDirs perm fs a).set k (.file m d) := by
  funext q
  by_cases hq : q = k
  · simp [withDirs, FS.set, hq]
  · simp [withDirs, FS.set, hq]

theorem dirsOK_set_file (fs : FS) (a k : Key) (m : Nat) (d : Bytes) :
    dirsOK (fs.set k (.file m d)) a ↔ dirsOK fs a ∧ ¬ k <+: a := by
  constructor
  · intro h
    have hk : ¬ k <+: a := fun hp => h k hp m d (by simp [FS.set])
    refine ⟨?_, hk⟩
    intro q hq m' d' hf
    have hne : q ≠ k := by rintro rfl; exact hk hq
    exact h q hq m' d' (by simp [FS.set, hne, hf])
  · rintro ⟨h, hk⟩ q hq m' d' hf
    have hne : q ≠ k := by rintro rfl; exact hk hq
    simp only [FS.set, hne, if_false] at hf
    exact h q hq m' d' hf

theorem set_comm (fs : FS) (k1 k2 : Key) (n1 n2 : Node) (h : k1 ≠ k2) :
    (fs.set k1 n1).set k2 n2 = (fs.set k2 n2).set k1 n1 := by
  funext q
  by_cases h1 : q = k1
  · have : q ≠ k2 := by rw [h1]; exact h
    simp [FS.set, h1, h]
  · simp [FS.set, h1]

theorem openMode_withDirs (perm : Nat) (fs : FS) (a q : Key) (mode : Nat) :
    openMode (withDirs perm fs a q) mode = openMode (fs q) mode := by
  by_cases h : q <+: a ∧ fs q = none
  · simp [withDirs, h, openMode]
  · simp [withDirs, h]

theorem withDirs_not_dir (perm : Nat) (fs : FS) (a q : Key) :
    (∀ m, withDirs perm fs a q ≠ some (.dir m)) ↔
      (∀ m, fs q ≠ some (.dir m)) ∧ ¬ (q <+: a ∧ fs q = none) := by
  by_cases h : q <+: a ∧ fs q = none
  · simp [withDirs, h]
  · simp [withDirs, h]

theorem not_prefix_of_not_dir (fs : FS) (a k : Key) (hok : dirsOK fs a)
    (hk : ∀ m, fs k ≠ some (.dir m)) (hn : ¬ (k <+: a ∧ fs k = none)) : ¬ k <+: a := by
  intro hp
  cases hf : fs k with
  | none => exact hn ⟨hp, hf⟩
  | some nd =>
    cases nd with
    | dir m => exact hk m hf
    | file m d => exact hok k hp m d hf

theorem written_eq (umask : Nat) (fs : FS) (k : Key) (mode : Nat) (data : Bytes) :
    written umask fs k mode data =
      (withDirs (createMode umask 0o755) fs k.dropLast).set k
        (.file (openMode (fs k) (createMode umask mode)) data) := rfl

/-- Two actions that both succeed, one after the other, succeed in the other
order as well and leave the same state, unless they write the same file. -/
theorem effect_swap (umask : Nat) (a b : Action) (hc : a.compat b) (fs s1 s2 : FS)
    (h1 : a.effect umask fs s1) (h2 : b.effect umask s1 s2) :
    ∃ t, b.effect umask fs t ∧ a.effect umask t s2 := by
  cases a with
  | skip =>
    simp only [Action.effect] at h1
    subst h1
    exact ⟨s2, h2, rfl⟩
  | fail e => exact absurd h1 (by simp [Action.effect])
  | mkdir ka =>
    obtain ⟨hoka, rfl⟩ := h1
    cases b with
    | skip =>
      simp only [Action.effect] at h2
      subst h2
      exact ⟨fs, rfl, hoka, rfl⟩
    | fail e => exact absurd h2 (by simp [Action.effect])
    | mkdir kb =>
      obtain ⟨hokb, rfl⟩ := h2
      rw [dirsOK_withDirs] at hokb
      exact ⟨withDirs (createMode umask 0o755) fs kb, ⟨hokb, rfl⟩, (dirsOK_withDirs _ _ _ _).2 hoka,
        withDirs_comm _ _ _ _⟩
    | write k mode o =>
      obtain ⟨hne, hokp, hnd, rc, ho, he, rfl⟩ := h2
      rw [dirsOK_withDirs] at hokp
      rw [withDirs_not_dir] at hnd
      have hnp : ¬ k <+: ka := not_prefix_of_not_dir fs ka k hoka hnd.1 hnd.2
      refine ⟨written umask fs k mode rc.data, ⟨hne, hokp, hnd.1, rc, ho, he, rfl⟩, ?_, ?_⟩
      · rw [written_eq, dirsOK_set_file, dirsOK_withDirs]
        exact ⟨hoka, hnp⟩
      · rw [written_eq, written_eq, withDirs_set_file, openMode_withDirs, withDirs_comm]
  | write k mode o =>
    obtain ⟨hne, hokp, hnd, rc, ho, he, rfl⟩ := h1
    cases b with
    | skip =>
      simp only [Action.effect] at h2
      subst h2
      exact ⟨fs, rfl, hne, hokp, hnd, rc, ho, he, rfl⟩
    | fail e => exact absurd h2 (by simp [Action.effect])
    | mkdir kb =>
      obtain ⟨hokb, rfl⟩ := h2
      rw [written_eq, dirsOK_set_file, dirsOK_withDirs] at hokb
      refine ⟨withDirs (createMode umask 0o755) fs kb, ⟨hokb.1, rfl⟩, hne, (dirsOK_withDirs _ _ _ _).2 hokp, ?_,
        rc, ho, he, ?_⟩
      · rw [withDirs_not_dir]
        exact ⟨hnd, fun h => hokb.2 h.1⟩
      · rw [written_eq, written_eq, withDirs_set_file, openMode_withDirs, withDirs_comm]
    | write k2 mode2 o2 =>
      have hkk : k ≠ k2 := hc k mode o k2 mode2 o2 rfl rfl
      obtain ⟨hne2, hokp2, hnd2, rc2, ho2, he2, rfl⟩ := h2
      rw [written_eq, dirsOK_set_file, dirsOK_withDirs] at hokp2
      have hs1 : written umask fs k mode rc.data k2 = withDirs (createMode umask 0o755) fs k.dropLast k2 := by
        simp [written, FS.set, Ne.symm hkk]
      rw [hs1, withDirs_not_dir] at hnd2
      have hnp2 : ¬ k2 <+: k.dropLast :=
        not_prefix_of_not_dir fs _ k2 hokp hnd2.1 hnd2.2
      have ht1 : written umask fs k2 mode2 rc2.data k = withDirs (createMode umask 0o755) fs k2.dropLast k := by
        simp [written, FS.set, hkk]
      refine ⟨written umask fs k2 mode2 rc2.data, ⟨hne2, hokp2.1, hnd2.1, rc2, ho2, he2, rfl⟩,
        hne, ?_, ?_, rc, ho, he, ?_⟩
      · rw [written_eq, dirsOK_set_file, dirsOK_withDirs]
        exact ⟨hokp, hnp2⟩
      · rw [ht1, withDirs_not_dir]
        exact ⟨hnd, fun h => hokp2.2 h.1⟩
      · rw [written_eq umask (written umask fs k mode rc.data),
          written_eq umask (written umask fs k2 mode2 rc2.data),
          hs1, ht1, openMode_withDirs, openMode_withDirs, written_eq, written_eq,
          withDirs_set_file, withDirs_set_file, withDirs_comm, set_comm _ _ _ _ _ hkk]

theorem compat_symm (a b : Action) (h : a.compat b) : b.compat a := by
  intro k1 m1 o1 k2 m2 o2 h1 h2
  exact (h k2 m2 o2 k1 m1 o1 h2 h1).symm

/-- A run of actions that succeeds also succeeds in any other order, with the same
final state, when no two actions write the same file. -/
theorem effects_perm (umask : Nat) (l l' : List Action) (hp : l.Perm l') :
    ∀ fs fs', l.Pairwise Action.compat → effects umask fs l fs' → effects umask fs l' fs' := by
  induction hp with
  | nil => intro fs fs' _ h; exact h
  | cons x _ ih =>
    intro fs fs' hpw h
    obtain ⟨s, hs, hrest⟩ := h
    exact ⟨s, hs, ih s fs' (List.Pairwise.of_cons hpw) hrest⟩
  | swap x y l =>
    intro fs fs' hpw h
    obtain ⟨s1, hy, s2, hx, hrest⟩ := h
    have hyx : y.compat x := (List.pairwise_cons.1 hpw).1 x (by simp)
    obtain ⟨t, hx', hy'⟩ := effect_swap umask y x hyx fs s1 s2 hy hx
    exact ⟨t, hx', s2, hy', hrest⟩
  | trans h12 _ ih1 ih2 =>
    intro fs fs' hpw h
    have hpw2 := (h12.pairwise_iff (fun {a b} hab => compat_symm a b hab)).1 hpw
    exact ih2 fs fs' hpw2 (ih1 fs fs' hpw h)
theorem OpenFile_not_dir (umask : Nat) (wd : Except GoError GoString) (fs : FS) (ks : Key)
    (hn : ∀ k ∈ ks, isName k = true) (mode : Nat) (x : FS × Key)
    (h : OpenFile umask wd fs (PathSeparator :: joinWith PathSeparator ks) mode = .ok x) :
    ∀ m, fs ks ≠ some (.dir m) := by
  intro m hm
  simp [OpenFile, resolve_names wd ks hn, hm] at h

theorem withDirs_root_dir (perm : Nat) (fs : FS) (h : dirsOK fs []) :
    ∃ m, withDirs perm fs [] [] = some (.dir m) := by
  cases hf : fs [] with
  | none => exact ⟨perm, by simp [withDirs, hf]⟩
  | some nd =>
    cases nd with
    | dir m => exact ⟨m, by simp [withDirs, hf]⟩
    | file m d => exact absurd hf (h [] (List.prefix_refl _) m d)

/-- The file branch of `extractZipFile` and `extractTarFile` succeeds exactly when
the parents can be made, the target is not a directory and the content is read
to its end; the state it leaves is `written`. -/
theorem write_branch_iff (umask : Nat) (wd : Except GoError GoString) (fs fs' : FS) (ks : Key)
    (hn : ∀ k ∈ ks, isName k = true) (mode : Nat) (opened : Except GoError Reader) :
    (match MkdirAll umask wd fs (Dir (PathSeparator :: joinWith PathSeparator ks)) 0o755 with
      | .error err => (fs, some err)
      | .ok fs1 =>
        match opened with
        | .error err => (fs1, some err)
        | .ok rc =>
          match OpenFile umask wd fs1 (PathSeparator :: joinWith PathSeparator ks) mode with
          | .error err => (fs1, some err)
          | .ok (fs2, out) => ioCopy fs2 out rc) = (fs', none) ↔
      (Action.write ks mode opened).effect umask fs fs' := by
  have hnd : ∀ k ∈ ks.dropLast, isName k = true :=
    fun k hk' => hn k (List.mem_of_mem_dropLast hk')
  have hmk : MkdirAll umask wd fs (Dir (PathSeparator :: joinWith PathSeparator ks)) 0o755 =
      mkdirFrom (createMode umask 0o755) fs [] ks.dropLast := by
    simp only [Dir_names _ hn, MkdirAll, resolve_names wd _ hnd]
  constructor
  · intro h
    rw [hmk] at h
    cases hm : mkdirFrom (createMode umask 0o755) fs [] ks.dropLast with
    | error e => rw [hm] at h; simp at h
    | ok fs1 =>
      obtain ⟨hok, rfl⟩ := mkdirFrom_root_inv _ _ _ _ hm
      rw [hm] at h
      cases ho : opened with
      | error e => rw [ho] at h; simp at h
      | ok rc =>
        rw [ho] at h
        simp only at h
        cases hop : OpenFile umask wd (withDirs (createMode umask 0o755) fs ks.dropLast)
            (PathSeparator :: joinWith PathSeparator ks) mode with
        | error e => rw [hop] at h; simp at h
        | ok x =>
          have hnd1 := OpenFile_not_dir umask wd _ ks hn mode x hop
          have hne : ks ≠ [] := by
            rintro rfl
            obtain ⟨m, hm'⟩ := withDirs_root_dir (createMode umask 0o755) fs hok
            exact hnd1 m hm'
          have hnd2 := ((withDirs_not_dir _ _ _ _).1 hnd1).1
          obtain ⟨_, h2, h3⟩ := write_steps_ok umask wd fs ks hn hne hok hnd2 mode rc
          rw [h2] at h
          simp only [h3, Prod.mk.injEq] at h
          exact ⟨hne, hok, hnd2, rc, rfl, h.2, h.1.symm⟩
  · rintro ⟨hne, hok, hnd2, rc, rfl, he, rfl⟩
    obtain ⟨h1, h2, h3⟩ := write_steps_ok umask wd fs ks hn hne hok hnd2 mode rc
    simp only [h1, h2, h3, he]

theorem extractZipFile_iff (umask : Nat) (wd : Except GoError GoString) (ds : Key)
    (hds : ∀ k ∈ ds, isName k = true) (n : Nat) (f : ZipFile) (fs fs' : FS) :
    extractZipFile umask wd fs f (PathSeparator :: joinWith PathSeparator ds) n = (fs', none) ↔
      (zipAction wd (PathSeparator :: joinWith PathSeparator ds) n f).effect umask fs fs' := by
  unfold extractZipFile zipAction
  by_cases hrel : stripPath f.Name n = []
  · simp only [hrel, if_true, Action.effect, Prod.mk.injEq, and_true]
    exact eq_comm
  · simp only [hrel, if_false]
    cases hs : sanitizePath wd (PathSeparator :: joinWith PathSeparator ds) (stripPath f.Name n) with
    | error e => simp [Action.effect]
    | ok target =>
      obtain ⟨ks, hks, rfl⟩ := sanitizePath_names wd _ _ _ target (Abs_of_names wd ds hds)
        (by simp [IsAbs]) hs
      simp only [pathKey_rooted ks hks]
      cases hdir : f.IsDir with
      | true =>
        simp only [if_true, MkdirAll, resolve_names wd ks hks, Action.effect]
        cases hm : mkdirFrom (createMode umask 0o755) fs [] ks with
        | error e =>
          constructor
          · intro h
            simp at h
          · rintro ⟨hok, -⟩
            rw [mkdirFrom_root_ok _ _ _ hok] at hm
            cases hm
        | ok fs1 =>
          obtain ⟨hok, rfl⟩ := mkdirFrom_root_inv _ _ _ _ hm
          simp only [Prod.mk.injEq, and_true, hok, true_and]
          exact eq_comm
      | false =>
        simp only [Bool.false_eq_true, if_false]
        exact write_branch_iff umask wd fs fs' ks hks f.Mode f.opened

theorem forEntries_none_iff (umask : Nat) {ε : Type} (step : FS → ε → FS × Option GoError)
    (act : ε → Action) (hstep : ∀ fs e fs', step fs e = (fs', none) ↔ (act e).effect umask fs fs')
    (l : List ε) : ∀ fs fs',
    forEntries step fs l = (fs', none) ↔ effects umask fs (l.map act) fs' := by
  induction l with
  | nil =>
    intro fs fs'
    simp only [forEntries, List.map_nil, effects, Prod.mk.injEq, and_true]
    exact eq_comm
  | cons e rest ih =>
    intro fs fs'
    simp only [forEntries, List.map_cons, effects]
    constructor
    · intro h
      rcases hs : step fs e with ⟨s, _ | err⟩
      · rw [hs] at h
        exact ⟨s, (hstep fs e s).1 hs, (ih s fs').1 h⟩
      · rw [hs] at h
        simp at h
    · rintro ⟨s, h1, h2⟩
      rw [(hstep fs e s).2 h1]
      exact (ih s fs').2 h2
theorem zipAction_write (wd : Except GoError GoString) (ds : Key)
    (hds : ∀ k ∈ ds, isName k = true) (n : Nat) (f : ZipFile) (k : Key) (m : Nat)
    (o : Except GoError Reader)
    (h : zipAction wd (PathSeparator :: joinWith PathSeparator ds) n f = .write k m o) :
    f.IsDir = false ∧ stripPath f.Name n ≠ [] ∧
      sanitizePath wd (PathSeparator :: joinWith PathSeparator ds) (stripPath f.Name n) =
        .ok (PathSeparator :: joinWith PathSeparator k) := by
  unfold zipAction at h
  by_cases hrel : stripPath f.Name n = []
  · simp [hrel] at h
  · simp only [hrel, if_false] at h
    cases hs : sanitizePath wd (PathSeparator :: joinWith PathSeparator ds) (stripPath f.Name n) with
    | error e => rw [hs] at h; simp at h
    | ok target =>
      obtain ⟨ks, hks, rfl⟩ := sanitizePath_names wd _ _ _ target (Abs_of_names wd ds hds)
        (by simp [IsAbs]) hs
      rw [hs] at h
      simp only [pathKey_rooted ks hks] at h
      cases hdir : f.IsDir with
      | true => rw [hdir] at h; simp at h
      | false =>
        rw [hdir] at h
        simp only [Bool.false_eq_true, if_false, Action.write.injEq] at h
        exact ⟨rfl, hrel, by rw [h.1]⟩

/-- C6, as the code has it. Take the records of a zip archive in two orders, such
that no two file records are written to the same target. If `ExtractZip` returns
no error for the first order, it returns no error for the second and leaves the
same file system: the same files with the same contents and the same
directories. -/
theorem ExtractZip_order_independent (umask : Nat) (wd : Except GoError GoString)
    (hwd : ∀ w, wd = .ok w → IsAbs w = true) (fs : FS) (dest : GoString) (n : Nat)
    (files files' : List ZipFile) (hperm : files.Perm files')
    (hdist : files.Pairwise (fun f g =>
      f.IsDir = false → g.IsDir = false → stripPath f.Name n ≠ [] → stripPath g.Name n ≠ [] →
        sanitizePath wd dest (stripPath f.Name n) ≠ sanitizePath wd dest (stripPath g.Name n)))
    (hok : (ExtractZip umask wd fs (.ok files) dest n).2 = none) :
    ExtractZip umask wd fs (.ok files') dest n = ExtractZip umask wd fs (.ok files) dest n := by
  unfold ExtractZip at hok ⊢
  cases habs : Abs wd dest with
  | error e => simp [habs] at hok
  | ok absDest =>
    obtain ⟨ds, hds, rfl⟩ := Abs_names wd hwd dest absDest habs
    rw [habs] at hok
    simp only at hok ⊢
    have hiff := forEntries_none_iff umask
      (fun fs1 f => extractZipFile umask wd fs1 f (PathSeparator :: joinWith PathSeparator ds) n)
      (zipAction wd (PathSeparator :: joinWith PathSeparator ds) n)
      (fun s e s' => extractZipFile_iff umask wd ds hds n e s s')
    have hrun : forEntries
        (fun fs1 f => extractZipFile umask wd fs1 f (PathSeparator :: joinWith PathSeparator ds) n)
        fs files =
        ((forEntries (fun fs1 f =>
          extractZipFile umask wd fs1 f (PathSeparator :: joinWith PathSeparator ds) n) fs files).1,
          none) := by
      rw [← hok]
    have hcompat : (files.map (zipAction wd (PathSeparator :: joinWith PathSeparator ds) n)).Pairwise
        Action.compat := by
      rw [List.pairwise_map]
      refine hdist.imp ?_
      intro f g hfg k1 m1 o1 k2 m2 o2 h1 h2 hk
      obtain ⟨f1, f2, f3⟩ := zipAction_write wd ds hds n f k1 m1 o1 h1
      obtain ⟨g1, g2, g3⟩ := zipAction_write wd ds hds n g k2 m2 o2 h2
      apply hfg f1 g1 f2 g2
      rw [← sanitizePath_absDest wd hwd dest _ _ habs, ← sanitizePath_absDest wd hwd dest _ _ habs,
        f3, g3, hk]
    have heff := (hiff files fs _).1 hrun
    have heff' := effects_perm _ _ _ (hperm.map _) fs _ hcompat heff
    rw [(hiff files' fs _).2 heff']
    exact hrun.symm

theorem ExtractZip_order_independent_witness :
    (ExtractZip 0o022 (.ok "/".toList) emptyDest (.ok [binDirRecord, binToolRecord]) "/dest".toList 0).2
      = none ∧
    ExtractZip 0o022 (.ok "/".toList) emptyDest (.ok [binToolRecord, binDirRecord]) "/dest".toList 0 =
      ExtractZip 0o022 (.ok "/".toList) emptyDest (.ok [binDirRecord, binToolRecord]) "/dest".toList 0 ∧
    (ExtractZip 0o022 (.ok "/".toList) emptyDest (.ok [binDirRecord, binToolRecord])
        "/dest".toList 0).1 ["dest".toList, "bin".toList, "tool".toList] =
      some (.file 0o755 [127, 69, 76, 70]) ∧
    (ExtractZip 0o022 (.ok "/".toList) emptyDest (.ok [binToolRecord, binDirRecord])
        "/dest".toList 0).1 ["dest".toList, "bin".toList, "tool".toList] =
      some (.file 0o755 [127, 69, 76, 70]) := by
  refine ⟨by decide, ?_, by decide, by decide⟩
  exact ExtractZip_order_independent 0o022 (.ok "/".toList) (fun w h => by cases h; rfl) emptyDest
    "/dest".toList 0 [binDirRecord, binToolRecord] [binToolRecord, binDirRecord]
    (List.Perm.swap _ _ _)
    (List.pairwise_cons.2 ⟨fun g _ h => absurd h (by decide), List.pairwise_singleton _ _⟩)
    (by decide)

/-- C6, counterexample. The destination `/dest` holds a regular file `x`; the
archive has the directory record `x/` and the file record `y`. With the directory
record first, extraction stops at it and `y` is not written; with the file record
first, `y` is written before extraction stops. -/
theorem ExtractZip_order_matters_on_failure :
    (ExtractZip 0o022 (.ok "/".toList) destWithFile (.ok [xDirRecord, yFileRecord])
        "/dest".toList 0).1 ["dest".toList, "y".toList] = none ∧
    (ExtractZip 0o022 (.ok "/".toList) destWithFile (.ok [yFileRecord, xDirRecord])
        "/dest".toList 0).1 ["dest".toList, "y".toList] = some (.file 0o644 [7]) ∧
    (ExtractZip 0o022 (.ok "/".toList) destWithFile (.ok [xDirRecord, yFileRecord])
        "/dest".toList 0).2 =
      some (.sys "mkdir".toList "/dest/x".toList "not a directory".toList) ∧
    (ExtractZip 0o022 (.ok "/".toList) destWithFile (.ok [yFileRecord, xDirRecord])
        "/dest".toList 0).2 =
      some (.sys "mkdir".toList "/dest/x".toList "not a directory".toList) := by
  decide
/-! ## C8 and C9: `verifyChecksum` -/

theorem verifyChecksum_file (wd : Except GoError GoString) (fs : FS) (path expected : GoString)
    (k : Key) (perm : Nat) (content : Bytes) (hres : resolve wd path = .ok k)
    (hfile : fs k = some (.file perm content)) :
    verifyChecksum wd fs path expected =
      if hexEncodeToString (sha256Sum content) ≠ expected then
        some (.errorf ("expected ".toList ++ expected ++ ", got ".toList ++
          hexEncodeToString (sha256Sum content)))
      else none := by
  simp only [verifyChecksum, openRead, hres, hfile]

/-- C8. For a file that can be read, with any content, and any expected string,
`verifyChecksum` returns no error if and only if the hex-encoded SHA-256 digest
of the whole content equals the expected string; when they differ it returns an
error whose text is `expected <expected>, got <digest>`. -/
theorem verifyChecksum_iff_digest (wd : Except GoError GoString) (fs : FS)
    (path expected : GoString) (k : Key) (perm : Nat) (content : Bytes)
    (hres : resolve wd path = .ok k) (hfile : fs k = some (.file perm content)) :
    (verifyChecksum wd fs path expected = none ↔
      hexEncodeToString (sha256Sum content) = expected) ∧
    (hexEncodeToString (sha256Sum content) ≠ expected →
      ∃ err, verifyChecksum wd fs path expected = some err ∧
        err.Error = "expected ".toList ++ expected ++ ", got ".toList ++
          hexEncodeToString (sha256Sum content)) := by
  rw [verifyChecksum_file wd fs path expected k perm content hres hfile]
  by_cases h : hexEncodeToString (sha256Sum content) = expected
  · simp [h]
  · simp only [ne_eq, h, not_false_eq_true, if_true, iff_false, true_implies]
    exact ⟨by simp, _, rfl, rfl⟩

set_option maxRecDepth 100000 in
theorem verifyChecksum_iff_digest_witness :
    resolve (.ok "/".toList) "/tmp/f".toList = .ok ["tmp".toList, "f".toList] ∧
    downloadedAbc ["tmp".toList, "f".toList] = some (.file 0o644 [97, 98, 99]) ∧
    verifyChecksum (.ok "/".toList) downloadedAbc "/tmp/f".toList
      "ba7816bf8f01cfea414140de5dae2223b00361a396177a9cb410ff61f20015ad".toList = none :=
  ⟨by decide, by decide,
    (verifyChecksum_iff_digest (.ok "/".toList) downloadedAbc "/tmp/f".toList
      "ba7816bf8f01cfea414140de5dae2223b00361a396177a9cb410ff61f20015ad".toList
      ["tmp".toList, "f".toList] 0o644 [97, 98, 99] (by decide) (by decide)).1.2 (by decide)⟩

theorem hexDigit_mem (n : Nat) : hexDigit n ∈ "0123456789abcdef".toList := by
  by_cases h : n < 16
  · revert n
    decide
  · rw [hexDigit, List.getD_eq_default _ _ (by simp; omega)]
    decide

theorem hexEncodeToString_digits (data : Bytes) :
    ∀ c ∈ hexEncodeToString data, c ∈ "0123456789abcdef".toList := by
  intro c hc
  simp only [hexEncodeToString, List.mem_flatMap, List.mem_cons, List.mem_singleton,
    List.not_mem_nil, or_false] at hc
  obtain ⟨b, _, rfl | rfl⟩ := hc
  · exact hexDigit_mem _
  · exact hexDigit_mem _

/-- C9, as the code has it. The comparison is exact: for a file that can be read,
`verifyChecksum` returns no error only when the expected string is, character for
character, the lower-case hex digest, so every character of an accepted string
is one of `0123456789abcdef`; an expected string that equals the digest up to
letter case but is not the digest itself gets the mismatch error. -/
theorem verifyChecksum_case_sensitive (wd : Except GoError GoString) (fs : FS)
    (path expected : GoString) (k : Key) (perm : Nat) (content : Bytes)
    (hres : resolve wd path = .ok k) (hfile : fs k = some (.file perm content)) :
    (verifyChecksum wd fs path expected = none →
      expected = hexEncodeToString (sha256Sum content) ∧
      ∀ c ∈ expected, c ∈ "0123456789abcdef".toList) ∧
    (equalFold expected (hexEncodeToString (sha256Sum content)) = true →
      expected ≠ hexEncodeToString (sha256Sum content) →
      verifyChecksum wd fs path expected =
        some (.errorf ("expected ".toList ++ expected ++ ", got ".toList ++
          hexEncodeToString (sha256Sum content)))) := by
  rw [verifyChecksum_file wd fs path expected k perm content hres hfile]
  constructor
  · intro h
    by_cases he : hexEncodeToString (sha256Sum content) = expected
    · exact ⟨he.symm, he ▸ hexEncodeToString_digits _⟩
    · simp [he] at h
  · intro _ hne
    rw [if_pos (Ne.symm hne)]

set_option maxRecDepth 100000 in
theorem verifyChecksum_case_sensitive_witness :
    resolve (.ok "/".toList) "/tmp/f".toList = .ok ["tmp".toList, "f".toList] ∧
    downloadedAbc ["tmp".toList, "f".toList] = some (.file 0o644 [97, 98, 99]) ∧
    verifyChecksum (.ok "/".toList) downloadedAbc "/tmp/f".toList
      "ba7816bf8f01cfea414140de5dae2223b00361a396177a9cb410ff61f20015aD".toList =
      some (.errorf ("expected ".toList ++
        "ba7816bf8f01cfea414140de5dae2223b00361a396177a9cb410ff61f20015aD".toList ++
        ", got ".toList ++ hexEncodeToString (sha256Sum [97, 98, 99]))) :=
  ⟨by decide, by decide,
    (verifyChecksum_case_sensitive (.ok "/".toList) downloadedAbc "/tmp/f".toList
      "ba7816bf8f01cfea414140de5dae2223b00361a396177a9cb410ff61f20015aD".toList
      ["tmp".toList, "f".toList] 0o644 [97, 98, 99] (by decide) (by decide)).2
      (by decide) (by decide)⟩

set_option maxRecDepth 100000 in
/-- C9, counterexample. The file `/tmp/f` holds `abc`; the expected string is its
SHA-256 digest written in upper-case hex. It equals the digest up to letter case,
and `verifyChecksum` returns an error. -/
theorem verifyChecksum_rejects_upper_case :
    hexEncodeToString (sha256Sum [97, 98, 99]) =
      "ba7816bf8f01cfea414140de5dae2223b00361a396177a9cb410ff61f20015ad".toList ∧
    equalFold "BA7816BF8F01CFEA414140DE5DAE2223B00361A396177A9CB410FF61F20015AD".toList
      (hexEncodeToString (sha256Sum [97, 98, 99])) = true ∧
    verifyChecksum (.ok "/".toList) downloadedAbc "/tmp/f".toList
      "BA7816BF8F01CFEA414140DE5DAE2223B00361A396177A9CB410FF61F20015AD".toList ≠ none := by
  decide
/-! ## C7: the extraction variant -/

theorem targz_is_gz (filename : GoString) (h : ".tar.gz".toList.isSuffixOf filename = true) :
    ".gz".toList.isSuffixOf filename = true := by
  rw [List.isSuffixOf_iff_suffix] at h ⊢
  exact (show ".gz".toList <:+ ".tar.gz".toList from ⟨".tar".toList, rfl⟩).trans h

/-- C7. For every file name, `Install` extracts by the branch `variantOf` gives:
tar+gzip exactly for the names that end in `.tar.gz` or `.tgz`; gzip-only exactly
for the other names that end in `.gz`; zip exactly for the names, among the rest,
that end in `.zip`; and the raw copy for all remaining names. A `.tar.gz` name is
never handled as gzip-only. The raw copy is not kept to bare executables: for
`Registry["zls"]` on Linux/amd64 the rendered name is `zls-x86_64-linux.tar.xz`,
the raw branch is taken, and the run installs the bytes of the xz-compressed tar
archive as the executable `bin/zls`. -/
theorem Install_variant_by_suffix :
    (∀ filename : GoString,
      (variantOf filename = .tarGz ↔
        (".tar.gz".toList.isSuffixOf filename = true ∨
          ".tgz".toList.isSuffixOf filename = true)) ∧
      (variantOf filename = .gz ↔
        (".tgz".toList.isSuffixOf filename = false ∧
          ".tar.gz".toList.isSuffixOf filename = false ∧
          ".gz".toList.isSuffixOf filename = true)) ∧
      (variantOf filename = .zip ↔
        (".tgz".toList.isSuffixOf filename = false ∧
          ".gz".toList.isSuffixOf filename = false ∧
          ".zip".toList.isSuffixOf filename = true)) ∧
      (variantOf filename = .raw ↔
        (".tgz".toList.isSuffixOf filename = false ∧
          ".gz".toList.isSuffixOf filename = false ∧
          ".zip".toList.isSuffixOf filename = false)) ∧
      (".tar.gz".toList.isSuffixOf filename = true → variantOf filename ≠ .gz)) ∧
    (∀ (host : Host) (fs : FS) (plugin : PluginConfig)
        (filename downloadPath installDir relBinPath : GoString),
      (variantOf filename = .tarGz →
        extractArtifact host fs plugin filename downloadPath installDir relBinPath =
          ExtractTarGz host.umask host.wd fs (decodeFile host.untargz host.wd fs downloadPath) installDir
            plugin.StripComponents) ∧
      (variantOf filename = .gz →
        extractArtifact host fs plugin filename downloadPath installDir relBinPath =
          ExtractGz host.umask host.wd fs (decodeFile host.gunzip host.wd fs downloadPath)
            (Join [installDir, relBinPath])) ∧
      (variantOf filename = .zip →
        extractArtifact host fs plugin filename downloadPath installDir relBinPath =
          ExtractZip host.umask host.wd fs (decodeFile host.unzip host.wd fs downloadPath) installDir
            plugin.StripComponents)) ∧
    (renderTemplate zls.AssetTemplate
        ⟨"0.15.0".toList, "linux".toList, "x86_64".toList⟩ =
        .ok "zls-x86_64-linux.tar.xz".toList ∧
      variantOf "zls-x86_64-linux.tar.xz".toList = .raw ∧
      (Install zlsHost freshWorld zls "0.15.0".toList "tools".toList).2 = .returned none ∧
      (Install zlsHost freshWorld zls "0.15.0".toList "tools".toList).1.fs
          ["home".toList, "u".toList, "tools".toList, "bin".toList, "zls".toList] =
        some (.file 0o755 [253, 55, 122, 88, 90, 0])) := by
  refine ⟨?_, ?_, by decide, by decide, by decide, by decide⟩
  · intro filename
    have hx := targz_is_gz filename
    unfold variantOf
    generalize ".tar.gz".toList.isSuffixOf filename = b1 at hx ⊢
    generalize ".tgz".toList.isSuffixOf filename = b2
    generalize ".gz".toList.isSuffixOf filename = b3 at hx ⊢
    generalize ".zip".toList.isSuffixOf filename = b4
    cases b1 <;> cases b2 <;> cases b3 <;> cases b4 <;> simp at hx ⊢
  · intro host fs plugin filename downloadPath installDir relBinPath
    refine ⟨?_, ?_, ?_⟩ <;> intro h <;> simp only [extractArtifact, h]
/-! ## C10: no expected digest -/

theorem not_prefix_of_head (p x q : GoString) (c d : Char) (hp : p.head? = some c)
    (hq : q.head? = some d) (hcd : c ≠ d) : ¬ q <+: p ++ x := by
  rintro ⟨t, ht⟩
  cases p with
  | nil => simp at hp
  | cons a p' =>
    cases q with
    | nil => simp at hq
    | cons b q' =>
      simp only [List.head?_cons, Option.some.injEq] at hp hq
      simp only [List.cons_append, List.cons.injEq] at ht
      exact hcd (hp ▸ hq ▸ ht.1.symm)

theorem DownloadReleaseAsset_stdout (host : Host) (w : World)
    (repo tag filename destPath : GoString) :
    (DownloadReleaseAsset host w repo tag filename destPath).1.stdout = w.stdout := by
  unfold DownloadReleaseAsset
  cases host.download (assetURL repo tag filename) with
  | error e => rfl
  | ok body =>
    simp only
    cases OpenFile host.umask host.wd (w.request (assetURL repo tag filename)).fs destPath 0o666 with
    | error e => rfl
    | ok x => rfl

theorem relocate_stdout (host : Host) (w : World) (plugin : PluginConfig)
    (installDir relBinPath : GoString) :
    ∃ lines, (relocate host w plugin installDir relBinPath).1.stdout = w.stdout ++ lines ∧
      ∀ l ∈ lines, isLateLine l := by
  have hm : ∀ x : GoString, isLateLine ("Moving ".toList ++ x) := fun x => Or.inr ⟨x, rfl⟩
  simp only [relocate]
  split
  · exact ⟨[], by simp, by simp⟩
  · split
    · exact ⟨[], by simp, by simp⟩
    · split
      · rename_i hmoved
        split at hmoved
        · split at hmoved
          · simp only [Prod.mk.injEq] at hmoved
            rw [← hmoved.1]
            exact ⟨[_], rfl, fun l hl => by
              rw [List.mem_singleton] at hl
              rw [hl]
              simpa only [List.append_assoc] using hm _⟩
          · simp at hmoved
        · simp only [Prod.mk.injEq] at hmoved
          rw [← hmoved.1]
          exact ⟨[], by simp, by simp⟩
      · rename_i hmoved
        have hw3 : ∃ lines, (‹World›).stdout = w.stdout ++ lines ∧ ∀ l ∈ lines, isLateLine l := by
          split at hmoved
          · split at hmoved
            · simp at hmoved
            · simp only [Prod.mk.injEq] at hmoved
              rw [← hmoved.1]
              exact ⟨[_], rfl, fun l hl => by
                rw [List.mem_singleton] at hl
                rw [hl]
                simpa only [List.append_assoc] using hm _⟩
          · simp only [Prod.mk.injEq] at hmoved
            rw [← hmoved.1]
            exact ⟨[], by simp, by simp⟩
        split
        · exact hw3
        · exact hw3
theorem print_stdout (w : World) (l : GoString) : (w.print l).stdout = w.stdout ++ [l] := rfl

theorem request_stdout (w : World) (u : GoString) : (w.request u).stdout = w.stdout := rfl

theorem afterChecksum_stdout (host : Host) (w : World) (plugin : PluginConfig) (ctx : Context)
    (filename downloadPath installDir : GoString) :
    ∃ lines, (afterChecksum host w plugin ctx filename downloadPath installDir).1.stdout =
        w.stdout ++ lines ∧ ∀ l ∈ lines, isLateLine l := by
  have he : ∀ x : GoString, isLateLine ("Extracting to ".toList ++ x) := fun x => Or.inl ⟨x, rfl⟩
  simp only [afterChecksum]
  split
  · exact ⟨[], by simp, by simp⟩
  · split
    · exact ⟨[_], rfl, fun l hl => by
        rw [List.mem_singleton] at hl
        rw [hl]
        simpa only [List.append_assoc] using he _⟩
    · rename_i _ relBinPath _ _ fs2 _
      obtain ⟨lines, h1, h2⟩ := relocate_stdout host
        { fs := fs2,
          stdout := (w.print ("Extracting to ".toList ++ installDir ++ "...".toList)).stdout,
          requests := (w.print ("Extracting to ".toList ++ installDir ++ "...".toList)).requests }
        plugin installDir relBinPath
      refine ⟨("Extracting to ".toList ++ installDir ++ "...".toList) :: lines, ?_, ?_⟩
      · rw [h1]
        simp only [print_stdout, List.append_assoc, List.singleton_append]
      · intro l hl
        rcases List.mem_cons.1 hl with h | h
        · rw [h]
          simpa only [List.append_assoc] using he _
        · exact h2 l h

theorem lateLine_not_prefix (q : GoString) (d : Char) (hq : q.head? = some d)
    (hE : d ≠ 'E') (hM : d ≠ 'M') (l : GoString) (hl : isLateLine l) : ¬ q <+: l := by
  rcases hl with ⟨x, rfl⟩ | ⟨x, rfl⟩
  · exact not_prefix_of_head _ x q 'E' d rfl hq (Ne.symm hE)
  · exact not_prefix_of_head _ x q 'M' d rfl hq (Ne.symm hM)

theorem noteChecksumError_stdout (w : World) (err : Option GoError) :
    (noteChecksumError w err).stdout = w.stdout ++ warningLines err := by
  cases err <;> simp [noteChecksumError, warningLines, print_stdout]

theorem noteChecksumError_fs (w : World) (err : Option GoError) :
    (noteChecksumError w err).fs = w.fs := by
  cases err <;> rfl

/-- The lines a run prints when verification is skipped do not look like the
lines of a verification. -/
theorem skipped_lines (q : GoString) (d : Char) (hq : q.head? = some d)
    (hD : d ≠ 'D') (hW : d ≠ 'W') (hN : d ≠ 'N') (hE : d ≠ 'E') (hM : d ≠ 'M')
    (plugin : PluginConfig) (filename tag : GoString) (err : Option GoError)
    (late : List GoString) (hlate : ∀ l ∈ late, isLateLine l) :
    ∀ l ∈ [downloadingLine plugin filename tag] ++ warningLines err ++ [skippedLine] ++ late,
      ¬ q <+: l := by
  intro l hl
  simp only [List.mem_append, List.mem_singleton] at hl
  rcases hl with ((h | h) | h) | h
  · rw [h]; exact not_prefix_of_head _ _ q 'D' d rfl hq (Ne.symm hD)
  · cases err with
    | none => simp [warningLines] at h
    | some e =>
      rw [List.mem_singleton.1 h]
      exact not_prefix_of_head _ _ q 'W' d rfl hq (Ne.symm hW)
  · rw [h]
    exact not_prefix_of_head "N".toList _ q 'N' d rfl hq (Ne.symm hN)
  · exact lateLine_not_prefix q d hq hE hM l (hlate l h)

/-- C10. Let a run of `Install` have passed the download. If `GetAssetChecksum`
returns the empty string (as it does when the asset is absent from the release or
its digest is empty), `Install` does not stop at the verification step: its result
is the result of the steps that follow (rendering the binary path, extraction,
relocation), run in a world where the line `No checksum found in GitHub API,
skipping verification.` has been printed; `verifyChecksum` plays no part. The
lines the run prints contain that line, do not contain `Checksum verified.` and
no line starts with `Verifying checksum for `, while a run that verifies a
non-empty checksum prints `Checksum verified.`. -/
theorem Install_without_digest (host : Host) (w w2 : World) (plugin : PluginConfig)
    (version installDir filename tempDir : GoString) (plat : Platform) (arch : Arch) (fs1 : FS)
    (hsys : GetSystemInfo host.GOOS host.GOARCH = .ok (plat, arch))
    (hfile : renderTemplate plugin.AssetTemplate (renderContext plugin version plat arch) =
      .ok filename)
    (htemp : MkdirTemp host w.fs = .ok (fs1, tempDir))
    (hdl : DownloadReleaseAsset host
      ((World.mk fs1 w.stdout w.requests).print
        (downloadingLine plugin filename (releaseTag plugin version)))
      plugin.Repo (releaseTag plugin version) filename (Join [tempDir, filename]) = (w2, none)) :
    (∀ err, GetAssetChecksum host plugin.Repo (releaseTag plugin version) filename =
        .returned ([], err) →
      Install host w plugin version installDir =
        (match afterChecksum host
            ((noteChecksumError (w2.request (releaseURL plugin.Repo (releaseTag plugin version)))
              err).print skippedLine)
            plugin (renderContext plugin version plat arch) filename (Join [tempDir, filename])
            installDir with
         | (w', r) => ({ w' with fs := RemoveAll host.wd w'.fs tempDir }, r)) ∧
      ∃ lines, (Install host w plugin version installDir).1.stdout = w.stdout ++ lines ∧
        skippedLine ∈ lines ∧ verifiedLine ∉ lines ∧
        ∀ l ∈ lines, ¬ "Verifying checksum for ".toList <+: l) ∧
    (∀ checksum err, GetAssetChecksum host plugin.Repo (releaseTag plugin version) filename =
        .returned (checksum, err) → checksum ≠ [] →
      verifyChecksum host.wd w2.fs (Join [tempDir, filename]) checksum = none →
      ∃ lines, (Install host w plugin version installDir).1.stdout = w.stdout ++ lines ∧
        verifiedLine ∈ lines) ∧
    (∀ release, GetReleaseByTag host plugin.Repo (releaseTag plugin version) = .ok release →
      (release.Assets.find? (fun asset => asset.Name = filename) = none ∨
        ∃ asset, release.Assets.find? (fun asset => asset.Name = filename) = some asset ∧
          asset.Digest = []) →
      GetAssetChecksum host plugin.Repo (releaseTag plugin version) filename =
        .returned ([], none)) := by
  have hw2 : w2.stdout =
      w.stdout ++ [downloadingLine plugin filename (releaseTag plugin version)] := by
    have := DownloadReleaseAsset_stdout host
      ((World.mk fs1 w.stdout w.requests).print
        (downloadingLine plugin filename (releaseTag plugin version)))
      plugin.Repo (releaseTag plugin version) filename (Join [tempDir, filename])
    rw [hdl] at this
    exact this
  refine ⟨?_, ?_, ?_⟩
  · intro err hsum
    have hI : Install host w plugin version installDir =
        (match afterChecksum host
            ((noteChecksumError (w2.request (releaseURL plugin.Repo (releaseTag plugin version)))
              err).print skippedLine)
            plugin (renderContext plugin version plat arch) filename (Join [tempDir, filename])
            installDir with
         | (w', r) => ({ w' with fs := RemoveAll host.wd w'.fs tempDir }, r)) := by
      simp only [Install, hsys, hfile, htemp, installInTemp, hdl, hsum, ne_eq,
        not_true_eq_false, if_false]
    refine ⟨hI, ?_⟩
    rw [hI]
    obtain ⟨late, h1, h2⟩ := afterChecksum_stdout host
      ((noteChecksumError (w2.request (releaseURL plugin.Repo (releaseTag plugin version)))
        err).print skippedLine)
      plugin (renderContext plugin version plat arch) filename (Join [tempDir, filename])
      installDir
    simp only [h1]
    refine ⟨[downloadingLine plugin filename (releaseTag plugin version)] ++ warningLines err ++
      [skippedLine] ++ late, ?_, ?_, ?_, ?_⟩
    · simp only [print_stdout, noteChecksumError_stdout, request_stdout, hw2,
        List.append_assoc]
    · simp
    · intro hmem
      exact skipped_lines verifiedLine 'C' rfl (by decide) (by decide) (by decide) (by decide)
        (by decide) plugin filename _ err late h2 _ hmem (List.prefix_refl _)
    · exact skipped_lines "Verifying checksum for ".toList 'V' rfl (by decide) (by decide)
        (by decide) (by decide) (by decide) plugin filename _ err late h2
  · intro checksum err hsum hne hver
    have hI : Install host w plugin version installDir =
        (match afterChecksum host
            (((noteChecksumError (w2.request (releaseURL plugin.Repo (releaseTag plugin version)))
              err).print (verifyingLine filename)).print verifiedLine)
            plugin (renderContext plugin version plat arch) filename (Join [tempDir, filename])
            installDir with
         | (w', r) => ({ w' with fs := RemoveAll host.wd w'.fs tempDir }, r)) := by
      have hver' : verifyChecksum host.wd
          ((noteChecksumError (w2.request (releaseURL plugin.Repo (releaseTag plugin version)))
            err).print (verifyingLine filename)).fs
          (Join [tempDir, filename]) checksum = none := by
        have : ((noteChecksumError
            (w2.request (releaseURL plugin.Repo (releaseTag plugin version))) err).print
            (verifyingLine filename)).fs = w2.fs := noteChecksumError_fs _ err
        rw [this]
        exact hver
      simp only [Install, hsys, hfile, htemp, installInTemp, hdl, hsum, ne_eq, hne,
        not_false_eq_true, if_true, hver']
    rw [hI]
    obtain ⟨late, h1, _⟩ := afterChecksum_stdout host
      (((noteChecksumError (w2.request (releaseURL plugin.Repo (releaseTag plugin version)))
        err).print (verifyingLine filename)).print verifiedLine)
      plugin (renderContext plugin version plat arch) filename (Join [tempDir, filename])
      installDir
    simp only [h1]
    refine ⟨[downloadingLine plugin filename (releaseTag plugin version)] ++ warningLines err ++
      [verifyingLine filename] ++ [verifiedLine] ++ late, ?_, ?_⟩
    · simp only [print_stdout, noteChecksumError_stdout, request_stdout, hw2,
        List.append_assoc]
    · simp
  · intro release hrel hcase
    rcases hcase with h | ⟨asset, h, hd⟩
    · simp only [GetAssetChecksum, hrel, h]
    · simp only [GetAssetChecksum, hrel, h, hd, ne_eq, not_true_eq_false, if_false]
theorem Install_without_digest_witness :
    GetSystemInfo zlsHost.GOOS zlsHost.GOARCH = .ok (.Linux, .X86_64) ∧
    GetAssetChecksum zlsHost zls.Repo (releaseTag zls "0.15.0".toList)
      "zls-x86_64-linux.tar.xz".toList = .returned ([], none) ∧
    ∃ lines, (Install zlsHost freshWorld zls "0.15.0".toList "tools".toList).1.stdout =
        freshWorld.stdout ++ lines ∧
      skippedLine ∈ lines ∧ verifiedLine ∉ lines ∧
      ∀ l ∈ lines, ¬ "Verifying checksum for ".toList <+: l :=
  ⟨by decide, by decide,
    ((Install_without_digest zlsHost freshWorld
      (DownloadReleaseAsset zlsHost
        ((World.mk (freshWorld.fs.set ["tmp".toList, "sous-chef1".toList] (.dir 0o700))
          freshWorld.stdout freshWorld.requests).print
          (downloadingLine zls "zls-x86_64-linux.tar.xz".toList (releaseTag zls "0.15.0".toList)))
        zls.Repo (releaseTag zls "0.15.0".toList) "zls-x86_64-linux.tar.xz".toList
        (Join ["/tmp/sous-chef1".toList, "zls-x86_64-linux.tar.xz".toList])).1
      zls "0.15.0".toList "tools".toList "zls-x86_64-linux.tar.xz".toList
      "/tmp/sous-chef1".toList .Linux .X86_64
      (freshWorld.fs.set ["tmp".toList, "sous-chef1".toList] (.dir 0o700))
      (by decide) (by decide) (by rfl)
      (Prod.ext rfl (by decide))).1 none (by decide)).2⟩
theorem sliceFrom_one (c : Char) (cs : GoString) (n : Nat) (h : c.utf8Size = 1) :
    sliceFrom (c :: cs) (n + 1) = sliceFrom cs n := by
  rw [sliceFrom, if_neg (by omega), if_pos (by omega), h]; rfl

theorem sliceFrom_zero (s : GoString) : sliceFrom s 0 = s := by
  cases s <;> simp [sliceFrom]

theorem sliceFrom_sha256 (hex : GoString) : sliceFrom ("sha256:".toList ++ hex) 7 = hex := by
  show sliceFrom ('s' :: 'h' :: 'a' :: '2' :: '5' :: '6' :: ':' :: hex) 7 = hex
  rw [sliceFrom_one _ _ 6 (by decide), sliceFrom_one _ _ 5 (by decide),
    sliceFrom_one _ _ 4 (by decide), sliceFrom_one _ _ 3 (by decide),
    sliceFrom_one _ _ 2 (by decide), sliceFrom_one _ _ 1 (by decide),
    sliceFrom_one _ _ 0 (by decide), sliceFrom_zero]

theorem byteLen_sha256 (hex : GoString) : byteLen ("sha256:".toList ++ hex) = 7 + byteLen hex := by
  show (1 + (1 + (1 + (1 + (1 + (1 + (1 + byteLen hex))))))) = _
  omega

/-- C14. `GetAssetChecksum` returns the hex part of a digest `sha256:` + hex, but
its slice `asset.Digest[7:]` is not validated: on the non-empty digest `md5:`,
shorter than seven bytes, the call panics with a slice out of range, and on the
digest `sha512:cf83e135` it returns `cf83e135`, the digest less its first seven
bytes, instead of the empty "unverified" result. -/
theorem GetAssetChecksum_slices_unvalidated :
    (∀ (host : Host) (repo tag filename : GoString) (release : Release) (asset : Asset)
        (hex : GoString),
        GetReleaseByTag host repo tag = .ok release →
        release.Assets.find? (fun a => a.Name = filename) = some asset →
        asset.Digest = "sha256:".toList ++ hex →
        GetAssetChecksum host repo tag filename = .returned (hex, none)) ∧
    GetAssetChecksum (hostServing shortDigestRelease) "acme/tool".toList "v1.0.0".toList
        "tool.tar.gz".toList
      = .panicked "runtime error: slice bounds out of range".toList ∧
    GetAssetChecksum (hostServing sha512Release) "acme/tool".toList "v1.0.0".toList
        "tool.tar.gz".toList
      = .returned ("cf83e135".toList, none) := by
  refine ⟨?_, by decide, by decide⟩
  intro host repo tag filename release asset hex hrel hfind hdig
  have hne : asset.Digest ≠ [] := by rw [hdig]; exact fun h => by cases h
  have hlen : ¬ byteLen asset.Digest < 7 := by rw [hdig, byteLen_sha256]; omega
  unfold GetAssetChecksum
  rw [hrel]
  simp only [hfind, if_pos hne, if_neg hlen]
  rw [hdig, sliceFrom_sha256]
theorem trimLeading_v_cons (cs : GoString) : trimLeading ('v' :: cs) "v".toList = cs := by
  simp [trimLeading, List.isPrefixOf]

theorem trimLeading_v_other (c : Char) (cs : GoString) (h : c ≠ 'v') :
    trimLeading (c :: cs) "v".toList = c :: cs := by
  have : ('v' == c) = false := by simpa using fun h' => h h'.symm
  simp [trimLeading, List.isPrefixOf, this]

theorem AddV_cons (c : Char) (cs : GoString) :
    AddVPrefixRecoverVersion (c :: cs) =
      if c ≠ 'v' ∧ '0' ≤ c ∧ c ≤ '9' then 'v' :: c :: cs else c :: cs := by
  by_cases hv : c = 'v'
  · subst hv; simp [AddVPrefixRecoverVersion, List.isPrefixOf]
  · have : ('v' == c) = false := by simpa using fun h' => hv h'.symm
    by_cases h0 : '0' ≤ c <;> by_cases h9 : c ≤ '9' <;>
      simp [AddVPrefixRecoverVersion, List.isPrefixOf, this, hv, h0, h9]

theorem AddV_RemoveV_iff (tag : GoString) :
    AddVPrefixRecoverVersion (RemoveVPrefixFormatVersion tag) = tag ↔
      (tag = [] ∨ (∃ d ds, tag = 'v' :: d :: ds ∧ '0' ≤ d ∧ d ≤ '9') ∨
        (∃ c cs, tag = c :: cs ∧ c ≠ 'v' ∧ ¬ ('0' ≤ c ∧ c ≤ '9'))) := by
  unfold RemoveVPrefixFormatVersion
  cases tag with
  | nil => simp [trimLeading, AddVPrefixRecoverVersion, List.isPrefixOf]
  | cons c cs =>
    by_cases hv : c = 'v'
    · subst hv
      rw [trimLeading_v_cons]
      cases cs with
      | nil => simp [AddVPrefixRecoverVersion]
      | cons d ds =>
        rw [AddV_cons]
        by_cases hd : d ≠ 'v' ∧ '0' ≤ d ∧ d ≤ '9'
        · rw [if_pos hd]; simp [hd.2.1, hd.2.2]
        · rw [if_neg hd]
          have hne : d :: ds ≠ 'v' :: d :: ds := fun h => by
            have := congrArg List.length h; simp at this
          constructor
          · intro h; exact absurd h hne
          · rintro (h | ⟨d', ds', h, h0, h9⟩ | ⟨c, cs, h, hc, _⟩)
            · cases h
            · simp only [List.cons.injEq, true_and] at h
              obtain ⟨rfl, rfl⟩ := h
              exfalso; apply hd
              refine ⟨?_, h0, h9⟩
              rintro rfl; revert h9; decide
            · simp only [List.cons.injEq] at h
              exact absurd h.1.symm hc
    · rw [trimLeading_v_other c cs hv, AddV_cons]
      by_cases hd : '0' ≤ c ∧ c ≤ '9'
      · rw [if_pos ⟨hv, hd⟩]
        constructor
        · intro h; have := congrArg List.length h; simp at this
        · rintro (h | ⟨d', ds', h, -, -⟩ | ⟨c', cs', h, -, hc'⟩)
          · cases h
          · simp only [List.cons.injEq] at h; exact absurd h.1 hv
          · simp only [List.cons.injEq] at h; obtain ⟨rfl, rfl⟩ := h; exact absurd hd hc'
      · rw [if_neg (fun h => hd h.2)]
        simp only [true_iff]
        exact Or.inr (Or.inr ⟨c, cs, rfl, hv, hd⟩)

theorem replaceAllChar_round (tag : GoString) :
    replaceAllChar (replaceAllChar tag '-' '.') '.' '-' = tag ↔ '.' ∉ tag := by
  induction tag with
  | nil => simp [replaceAllChar]
  | cons c cs ih =>
    have ih' : List.map (fun c => if c = '.' then '-' else c)
        (List.map (fun c => if c = '-' then '.' else c) cs) = cs ↔ '.' ∉ cs := ih
    simp only [replaceAllChar, List.map_cons, List.cons.injEq, List.mem_cons, not_or]
    rw [ih']
    by_cases h1 : c = '-'
    · subst h1; simp
    · by_cases h2 : c = '.'
      · subst h2; simp
      · simp [h1, h2, Ne.symm h2]

/-- C16. `RecoverVersion` is not the inverse of `FormatVersion` on every accepted
tag: `fzf` (no `ReleaseFilter`, the pair `RemoveVPrefixFormatVersion` and
`AddVPrefixRecoverVersion`) shows the tag `0.55.0` as `0.55.0` and recovers
`v0.55.0`, so that an install of the displayed version asks for the asset of
the tag `v0.55.0`. The pair, used by eleven profiles, round-trips exactly the
empty tag, the tags `v` + digit + rest, and the tags that start neither with `v`
nor with a digit. The profiles with `NoOpVersion` on both sides round-trip every
tag, `rust-analyzer` exactly the tags without a dot, and `codex` the tags
`rust-v` + digit + rest. -/
theorem RecoverVersion_misses_unprefixed_tag :
    Registry "fzf".toList = some fzf ∧ fzf.ReleaseFilter = none ∧
    GetDisplayVersion fzf "0.55.0".toList = "0.55.0".toList ∧
    releaseTag fzf (GetDisplayVersion fzf "0.55.0".toList) = "v0.55.0".toList ∧
    (Install zlsHost freshWorld fzf (GetDisplayVersion fzf "0.55.0".toList)
        "tools".toList).1.requests =
      [("https://github.com/junegunn/fzf/releases/download/v0.55.0/".toList ++
        "fzf-0.55.0-linux_amd64.tar.gz".toList)] ∧
    (∀ plugin ∈ [neovim, lazygit, fzf, fd, gh, shfmt, gofumpt, stylua, starship, zoxide,
        treeSitter], ∀ tag : GoString,
      releaseTag plugin (GetDisplayVersion plugin tag) =
        AddVPrefixRecoverVersion (RemoveVPrefixFormatVersion tag)) ∧
    (∀ tag : GoString,
      AddVPrefixRecoverVersion (RemoveVPrefixFormatVersion tag) = tag ↔
        (tag = [] ∨ (∃ d ds, tag = 'v' :: d :: ds ∧ '0' ≤ d ∧ d ≤ '9') ∨
          (∃ c cs, tag = c :: cs ∧ c ≠ 'v' ∧ ¬ ('0' ≤ c ∧ c ≤ '9')))) ∧
    (∀ plugin ∈ [ripgrep, taplo, luaLanguageServer, uv, ty, zls], ∀ tag : GoString,
      releaseTag plugin (GetDisplayVersion plugin tag) = tag) ∧
    (∀ tag : GoString,
      releaseTag rustAnalyzer (GetDisplayVersion rustAnalyzer tag) = tag ↔ '.' ∉ tag) ∧
    (∀ (d : Char) (ds : GoString), '0' ≤ d → d ≤ '9' →
      releaseTag codex (GetDisplayVersion codex ("rust-v".toList ++ d :: ds)) =
        "rust-v".toList ++ d :: ds) := by
  refine ⟨rfl, rfl, by decide, by decide, by decide, ?_, AddV_RemoveV_iff, ?_,
    replaceAllChar_round, ?_⟩
  · intro plugin hp tag
    simp only [List.mem_cons, List.mem_singleton, List.not_mem_nil, or_false] at hp
    rcases hp with rfl | rfl | rfl | rfl | rfl | rfl | rfl | rfl | rfl | rfl | rfl <;> rfl
  · intro plugin hp tag
    simp only [List.mem_cons, List.mem_singleton, List.not_mem_nil, or_false] at hp
    rcases hp with rfl | rfl | rfl | rfl | rfl | rfl <;> rfl
  · intro d ds h0 h9
    have hr : d ≠ 'r' := by rintro rfl; revert h9; decide
    have hv : d ≠ 'v' := by rintro rfl; revert h9; decide
    have h1 : trimLeading ("rust-v".toList ++ d :: ds) "rust-v".toList = d :: ds := by
      show trimLeading ('r' :: 'u' :: 's' :: 't' :: '-' :: 'v' :: d :: ds) _ = _
      simp [trimLeading, List.isPrefixOf]
    have h2 : ("rust-v".toList.isPrefixOf (d :: ds)) = false := by
      show List.isPrefixOf ('r' :: _) (d :: ds) = false
      have : ('r' == d) = false := by simpa using fun h' => hr h'.symm
      simp [List.isPrefixOf, this]
    show (if "rust-v".toList.isPrefixOf (trimLeading ("rust-v".toList ++ d :: ds) "rust-v".toList)
      then _ else _) = _
    rw [h1, h2]
    simp only [Bool.false_eq_true, if_false]
    show "rust-v".toList ++
      trimLeading (trimLeading ("rust-v".toList ++ d :: ds) "rust-v".toList) "v".toList = _
    rw [h1, trimLeading_v_other d ds hv]
theorem DownloadReleaseAsset_requests (host : Host) (w : World)
    (repo tag filename destPath : GoString) :
    (DownloadReleaseAsset host w repo tag filename destPath).1.requests =
      w.requests ++ [assetURL repo tag filename] := by
  simp only [DownloadReleaseAsset]
  split
  · rfl
  · split
    · rfl
    · rfl

theorem noteChecksumError_requests (w : World) (err : Option GoError) :
    (noteChecksumError w err).requests = w.requests := by
  cases err <;> rfl

/-- C11. A failure to render the file name template ends `Install` before
anything is requested or written: the world is the one before the call. The
relative binary path template is rendered after the download and the lookup of
the checksum: when it fails, `Install` returns that error after the asset and
the release have been requested, and the files are those left by the download
less the temporary directory; nothing is extracted. Neither failure occurs for
a profile of the registry: its two templates render on every platform and
architecture, for every version. -/
theorem Install_template_errors (host : Host) (w : World) (plugin : PluginConfig)
    (version installDir : GoString) (plat : Platform) (arch : Arch)
    (hsys : GetSystemInfo host.GOOS host.GOARCH = .ok (plat, arch)) :
    (∀ err, renderTemplate plugin.AssetTemplate (renderContext plugin version plat arch)
        = .error err →
      Install host w plugin version installDir
        = (w, .returned (some (.wrapf "failed to render filename: ".toList err [])))) ∧
    (∀ (filename tempDir : GoString) (fs1 : FS) (w2 : World) (checksum : GoString)
        (e : Option GoError) (err : GoError),
      renderTemplate plugin.AssetTemplate (renderContext plugin version plat arch)
        = .ok filename →
      MkdirTemp host w.fs = .ok (fs1, tempDir) →
      DownloadReleaseAsset host
        ((World.mk fs1 w.stdout w.requests).print
          (downloadingLine plugin filename (releaseTag plugin version)))
        plugin.Repo (releaseTag plugin version) filename (Join [tempDir, filename])
        = (w2, none) →
      GetAssetChecksum host plugin.Repo (releaseTag plugin version) filename =
        .returned (checksum, e) →
      (checksum = [] ∨
        verifyChecksum host.wd w2.fs (Join [tempDir, filename]) checksum = none) →
      renderTemplate plugin.RelativeBinPathTemplate (renderContext plugin version plat arch)
        = .error err →
      (Install host w plugin version installDir).2 =
          .returned (some (.wrapf "failed to render relative bin path: ".toList err [])) ∧
        (Install host w plugin version installDir).1.fs = RemoveAll host.wd w2.fs tempDir ∧
        (Install host w plugin version installDir).1.requests =
          w.requests ++ [assetURL plugin.Repo (releaseTag plugin version) filename,
            releaseURL plugin.Repo (releaseTag plugin version)]) ∧
    (∀ entry ∈ registryEntries, ∀ (v : GoString) (p : Platform) (a : Arch),
      ∃ filename relBinPath,
        renderTemplate entry.2.AssetTemplate (renderContext entry.2 v p a) = .ok filename ∧
        renderTemplate entry.2.RelativeBinPathTemplate (renderContext entry.2 v p a)
          = .ok relBinPath) := by
  refine ⟨?_, ?_, ?_⟩
  · intro err hfile
    unfold Install
    rw [hsys]
    simp only [hfile]
  · intro filename tempDir fs1 w2 checksum e err hfile htemp hdl hsum hver hrel
    have hreq : w2.requests =
        w.requests ++ [assetURL plugin.Repo (releaseTag plugin version) filename] := by
      have h := DownloadReleaseAsset_requests host
        ((World.mk fs1 w.stdout w.requests).print
          (downloadingLine plugin filename (releaseTag plugin version)))
        plugin.Repo (releaseTag plugin version) filename (Join [tempDir, filename])
      rw [hdl] at h
      exact h
    have hfs : ∀ line, ((noteChecksumError
        (w2.request (releaseURL plugin.Repo (releaseTag plugin version))) e).print line).fs =
        w2.fs := fun line => noteChecksumError_fs _ e
    have hrq : ∀ line, ((noteChecksumError
        (w2.request (releaseURL plugin.Repo (releaseTag plugin version))) e).print line).requests =
        w.requests ++ [assetURL plugin.Repo (releaseTag plugin version) filename,
          releaseURL plugin.Repo (releaseTag plugin version)] := fun line => by
      show (noteChecksumError _ e).requests = _
      rw [noteChecksumError_requests]
      show w2.requests ++ [_] = _
      rw [hreq]
      simp
    by_cases hne : checksum = []
    · subst hne
      have hI : Install host w plugin version installDir =
          ({ (noteChecksumError (w2.request (releaseURL plugin.Repo (releaseTag plugin version)))
              e).print skippedLine with
              fs := RemoveAll host.wd
                ((noteChecksumError
                  (w2.request (releaseURL plugin.Repo (releaseTag plugin version)))
                  e).print skippedLine).fs tempDir },
            .returned (some (.wrapf "failed to render relative bin path: ".toList err []))) := by
        simp only [Install, hsys, hfile, htemp, installInTemp, hdl, hsum, ne_eq,
          not_true_eq_false, if_false, afterChecksum, hrel]
      rw [hI]
      refine ⟨rfl, ?_, hrq skippedLine⟩
      show RemoveAll host.wd _ tempDir = _
      rw [hfs]
    · have hv : verifyChecksum host.wd w2.fs (Join [tempDir, filename]) checksum = none :=
        hver.resolve_left hne
      have hv' : verifyChecksum host.wd
          ((noteChecksumError (w2.request (releaseURL plugin.Repo (releaseTag plugin version)))
            e).print (verifyingLine filename)).fs
          (Join [tempDir, filename]) checksum = none := by rw [hfs]; exact hv
      have hI : Install host w plugin version installDir =
          ({ ((noteChecksumError (w2.request (releaseURL plugin.Repo (releaseTag plugin version)))
              e).print (verifyingLine filename)).print verifiedLine with
              fs := RemoveAll host.wd
                ((noteChecksumError
                  (w2.request (releaseURL plugin.Repo (releaseTag plugin version)))
                  e).print (verifyingLine filename)).fs tempDir },
            .returned (some (.wrapf "failed to render relative bin path: ".toList err []))) := by
        simp only [Install, hsys, hfile, htemp, installInTemp, hdl, hsum, ne_eq, hne,
          not_false_eq_true, if_true, hv', afterChecksum, hrel]
        rfl
      rw [hI]
      refine ⟨rfl, ?_, hrq (verifyingLine filename)⟩
      show RemoveAll host.wd _ tempDir = _
      rw [hfs]
  · intro entry hentry v p a
    simp only [registryEntries, List.mem_cons, List.mem_singleton, List.not_mem_nil,
      or_false] at hentry
    rcases hentry with rfl | rfl | rfl | rfl | rfl | rfl | rfl | rfl | rfl | rfl | rfl | rfl |
      rfl | rfl | rfl | rfl | rfl | rfl | rfl <;> cases p <;> cases a <;>
      exact ⟨_, _, rfl, rfl⟩

theorem Install_template_errors_witness :
    ∃ err, Install zlsHost freshWorld unrenderableAsset "0.15.0".toList "tools".toList =
      (freshWorld, .returned (some (.wrapf "failed to render filename: ".toList err []))) :=
  ⟨.external "template: can't evaluate field .Bin".toList,
    (Install_template_errors zlsHost freshWorld unrenderableAsset "0.15.0".toList
      "tools".toList .Linux .X86_64 (by decide)).1 _ (by decide)⟩

/-- C11, as stated, fails for the second template: with the relative binary path
template `\x7b\x7b.Bin\x7d\x7d`, which does not render, the run of `Install` on
`zlsHost` makes the temporary directory, downloads the asset into it and asks
for the release before it returns the render error. -/
theorem Install_bin_path_error_after_download :
    (∃ err, renderTemplate unrenderableBinPath.RelativeBinPathTemplate
        (renderContext unrenderableBinPath "0.15.0".toList .Linux .X86_64) = .error err ∧
      (Install zlsHost freshWorld unrenderableBinPath "0.15.0".toList "tools".toList).2
        = .returned (some (.wrapf "failed to render relative bin path: ".toList err []))) ∧
    (Install zlsHost freshWorld unrenderableBinPath "0.15.0".toList "tools".toList).1.requests
      = [("https://github.com/zigtools/zls/releases/download/0.15.0/".toList ++
          "zls-x86_64-linux.tar.xz".toList),
         "https://api.github.com/repos/zigtools/zls/releases/tags/0.15.0".toList] ∧
    (∃ fs1 : FS, MkdirTemp zlsHost freshWorld.fs = .ok (fs1, "/tmp/sous-chef1".toList) ∧
      (∃ m, fs1 ["tmp".toList, "sous-chef1".toList] = some (.dir m)) ∧
      ∃ m, (installInTemp zlsHost { freshWorld with fs := fs1 } unrenderableBinPath
          (renderContext unrenderableBinPath "0.15.0".toList .Linux .X86_64)
          "zls-x86_64-linux.tar.xz".toList "0.15.0".toList "/tmp/sous-chef1".toList
          "tools".toList).1.fs
          ["tmp".toList, "sous-chef1".toList, "zls-x86_64-linux.tar.xz".toList]
        = some (.file m [253, 55, 122, 88, 90, 0])) := by
  refine ⟨⟨.external "template: can't evaluate field .Bin".toList, by decide, by decide⟩,
    by decide, ⟨_, rfl, ⟨0o700, by decide⟩, ⟨0o644, by decide⟩⟩⟩
theorem OpenFile_frame (umask : Nat) (wd : Except GoError GoString) (fs fs1 : FS) (path : GoString)
    (perm : Nat) (k : Key) (h : OpenFile umask wd fs path perm = .ok (fs1, k)) :
    resolve wd path = .ok k ∧ ∀ q, q ≠ k → fs1 q = fs q := by
  unfold OpenFile at h
  cases hr : resolve wd path with
  | error e => simp [hr] at h
  | ok k' =>
    simp only [hr] at h
    have key : ∀ n, (Except.ok (fs.set k' n, k') : Except GoError (FS × Key)) = .ok (fs1, k) →
        Except.ok k' = (Except.ok k : Except GoError Key) ∧ ∀ q, q ≠ k → fs1 q = fs q := by
      intro n hn
      simp only [Except.ok.injEq, Prod.mk.injEq] at hn
      obtain ⟨h1, h2⟩ := hn
      subst h2
      refine ⟨rfl, fun q hq => ?_⟩
      rw [← h1]
      simp [FS.set, hq]
    split at h
    · cases h
    · exact key _ h
    · split at h
      · cases h
      · split at h
        · exact key _ h
        · cases h
        · cases h

theorem ioCopy_frame (fs : FS) (k : Key) (r : Reader) (q : Key) (hq : q ≠ k) :
    (ioCopy fs k r).1 q = fs q := by
  unfold ioCopy
  split
  · simp [FS.set, hq]
  · rfl

theorem DownloadReleaseAsset_fs (host : Host) (w : World)
    (repo tag filename destPath : GoString) (q : Key)
    (hq : ∀ dk, resolve host.wd destPath = .ok dk → q ≠ dk) :
    (DownloadReleaseAsset host w repo tag filename destPath).1.fs q = w.fs q := by
  simp only [DownloadReleaseAsset]
  split
  · rfl
  · split
    · rfl
    · rename_i fs1 out hopen
      obtain ⟨hres, hframe⟩ := OpenFile_frame _ _ _ _ _ _ _ hopen
      have hne := hq out hres
      show (ioCopy fs1 out _).1 q = w.fs q
      rw [ioCopy_frame _ _ _ _ hne, hframe q hne]
      rfl

theorem MkdirTemp_ok (host : Host) (fs fs1 : FS) (tempDir : GoString)
    (h : MkdirTemp host fs = .ok (fs1, tempDir)) :
    ∃ k, resolve host.wd tempDir = .ok k ∧
      fs1 = fs.set k (.dir (createMode host.umask 0o700)) := by
  unfold MkdirTemp at h
  split at h
  · cases h
  · split at h
    · cases h
    · rename_i dir _ k hk
      split at h
      · simp only [Except.ok.injEq, Prod.mk.injEq] at h
        obtain ⟨h1, h2⟩ := h
        subst h2
        exact ⟨k, hk, h1.symm⟩
      · cases h
      · cases h
/-- A run of `Install` that has passed the checksum step ends as the steps from
the rendering of the binary path on end, started in a world that holds the
files of the world after the download. -/
theorem Install_past_checksum (host : Host) (w w2 : World) (plugin : PluginConfig)
    (version installDir filename tempDir : GoString) (plat : Platform) (arch : Arch) (fs1 : FS)
    (checksum : GoString) (e : Option GoError)
    (hsys : GetSystemInfo host.GOOS host.GOARCH = .ok (plat, arch))
    (hfile : renderTemplate plugin.AssetTemplate (renderContext plugin version plat arch) =
      .ok filename)
    (htemp : MkdirTemp host w.fs = .ok (fs1, tempDir))
    (hdl : DownloadReleaseAsset host
      ((World.mk fs1 w.stdout w.requests).print
        (downloadingLine plugin filename (releaseTag plugin version)))
      plugin.Repo (releaseTag plugin version) filename (Join [tempDir, filename]) = (w2, none))
    (hsum : GetAssetChecksum host plugin.Repo (releaseTag plugin version) filename =
      .returned (checksum, e))
    (hver : checksum = [] ∨
      verifyChecksum host.wd w2.fs (Join [tempDir, filename]) checksum = none) :
    ∃ wc : World, wc.fs = w2.fs ∧
      Install host w plugin version installDir =
        (match afterChecksum host wc plugin (renderContext plugin version plat arch) filename
            (Join [tempDir, filename]) installDir with
         | (w', r) => ({ w' with fs := RemoveAll host.wd w'.fs tempDir }, r)) := by
  by_cases hne : checksum = []
  · subst hne
    refine ⟨(noteChecksumError (w2.request (releaseURL plugin.Repo (releaseTag plugin version)))
      e).print skippedLine, noteChecksumError_fs _ e, ?_⟩
    simp only [Install, hsys, hfile, htemp, installInTemp, hdl, hsum, ne_eq,
      not_true_eq_false, if_false]
  · have hv : verifyChecksum host.wd w2.fs (Join [tempDir, filename]) checksum = none :=
      hver.resolve_left hne
    have hfs : ((noteChecksumError
        (w2.request (releaseURL plugin.Repo (releaseTag plugin version))) e).print
        (verifyingLine filename)).fs = w2.fs := noteChecksumError_fs _ e
    refine ⟨((noteChecksumError (w2.request (releaseURL plugin.Repo (releaseTag plugin version)))
      e).print (verifyingLine filename)).print verifiedLine, hfs, ?_⟩
    have hv' : verifyChecksum host.wd
        ((noteChecksumError (w2.request (releaseURL plugin.Repo (releaseTag plugin version)))
          e).print (verifyingLine filename)).fs
        (Join [tempDir, filename]) checksum = none := by rw [hfs]; exact hv
    simp only [Install, hsys, hfile, htemp, installInTemp, hdl, hsum, ne_eq, hne,
      not_false_eq_true, if_true, hv']

theorem RemoveAll_apply (wd : Except GoError GoString) (fs : FS) (path : GoString) (k q : Key)
    (hk : resolve wd path = .ok k) :
    RemoveAll wd fs path q = if k.isPrefixOf q then none else fs q := by
  simp only [RemoveAll, hk]

/-- What a location outside the temporary directory holds after the download is
what it held before the run. -/
theorem download_outside_temp (host : Host) (w w2 : World) (repo tag filename tempDir : GoString)
    (line : GoString) (fs1 : FS) (tk q : Key) (r : Option GoError)
    (htemp : MkdirTemp host w.fs = .ok (fs1, tempDir))
    (htk : resolve host.wd tempDir = .ok tk)
    (hin : ∀ dk, resolve host.wd (Join [tempDir, filename]) = .ok dk → tk.isPrefixOf dk = true)
    (hdl : DownloadReleaseAsset host ((World.mk fs1 w.stdout w.requests).print line)
      repo tag filename (Join [tempDir, filename]) = (w2, r))
    (hq : tk.isPrefixOf q = false) : w2.fs q = w.fs q := by
  obtain ⟨k, hk, hfs1⟩ := MkdirTemp_ok host w.fs fs1 tempDir htemp
  rw [htk] at hk
  cases hk
  have h := DownloadReleaseAsset_fs host ((World.mk fs1 w.stdout w.requests).print line)
    repo tag filename (Join [tempDir, filename]) q
    (fun dk hdk hqd => by rw [hqd, hin dk hdk] at hq; cases hq)
  rw [hdl] at h
  rw [h]
  show fs1 q = w.fs q
  rw [hfs1]
  have hne : q ≠ tk := fun hqt => by
    rw [hqt, List.isPrefixOf_iff_prefix.2 (List.prefix_refl tk)] at hq
    cases hq
  simp [FS.set, hne]

/-- C12. A run of `Install` that fails in the download or in the verification of
the checksum has written only inside its temporary directory (the rendered file
name staying inside it), which is removed on return: every other location holds
what it held before. A run that fails in the extraction has extracted into the
install directory itself: the locations outside the temporary directory hold
what the extraction had written when it failed. -/
theorem Install_failure_leaves (host : Host) (w : World) (plugin : PluginConfig)
    (version installDir filename tempDir : GoString) (plat : Platform) (arch : Arch) (fs1 : FS)
    (tk : Key)
    (hsys : GetSystemInfo host.GOOS host.GOARCH = .ok (plat, arch))
    (hfile : renderTemplate plugin.AssetTemplate (renderContext plugin version plat arch) =
      .ok filename)
    (htemp : MkdirTemp host w.fs = .ok (fs1, tempDir))
    (htk : resolve host.wd tempDir = .ok tk)
    (hin : ∀ dk, resolve host.wd (Join [tempDir, filename]) = .ok dk →
      tk.isPrefixOf dk = true) :
    (∀ w2 err,
      DownloadReleaseAsset host
        ((World.mk fs1 w.stdout w.requests).print
          (downloadingLine plugin filename (releaseTag plugin version)))
        plugin.Repo (releaseTag plugin version) filename (Join [tempDir, filename])
        = (w2, some err) →
      (Install host w plugin version installDir).2 =
          .returned (some (.wrapf "failed to download asset: ".toList err [])) ∧
        ∀ q, (Install host w plugin version installDir).1.fs q =
          if tk.isPrefixOf q then none else w.fs q) ∧
    (∀ w2 checksum e err,
      DownloadReleaseAsset host
        ((World.mk fs1 w.stdout w.requests).print
          (downloadingLine plugin filename (releaseTag plugin version)))
        plugin.Repo (releaseTag plugin version) filename (Join [tempDir, filename])
        = (w2, none) →
      GetAssetChecksum host plugin.Repo (releaseTag plugin version) filename =
        .returned (checksum, e) →
      checksum ≠ [] →
      verifyChecksum host.wd w2.fs (Join [tempDir, filename]) checksum = some err →
      (Install host w plugin version installDir).2 =
          .returned (some (.wrapf "checksum verification failed: ".toList err [])) ∧
        ∀ q, (Install host w plugin version installDir).1.fs q =
          if tk.isPrefixOf q then none else w.fs q) ∧
    (∀ w2 checksum e relBinPath fs2 err,
      DownloadReleaseAsset host
        ((World.mk fs1 w.stdout w.requests).print
          (downloadingLine plugin filename (releaseTag plugin version)))
        plugin.Repo (releaseTag plugin version) filename (Join [tempDir, filename])
        = (w2, none) →
      GetAssetChecksum host plugin.Repo (releaseTag plugin version) filename =
        .returned (checksum, e) →
      (checksum = [] ∨
        verifyChecksum host.wd w2.fs (Join [tempDir, filename]) checksum = none) →
      renderTemplate plugin.RelativeBinPathTemplate (renderContext plugin version plat arch) =
        .ok relBinPath →
      extractArtifact host w2.fs plugin filename (Join [tempDir, filename]) installDir
        relBinPath = (fs2, some err) →
      (Install host w plugin version installDir).2 = .returned (some err) ∧
        ∀ q, (Install host w plugin version installDir).1.fs q =
          if tk.isPrefixOf q then none else fs2 q) := by
  refine ⟨?_, ?_, ?_⟩
  · intro w2 err hdl
    have hI : Install host w plugin version installDir =
        ({ w2 with fs := RemoveAll host.wd w2.fs tempDir },
          .returned (some (.wrapf "failed to download asset: ".toList err []))) := by
      simp only [Install, hsys, hfile, htemp, installInTemp, hdl]
    rw [hI]
    refine ⟨rfl, fun q => ?_⟩
    show RemoveAll host.wd w2.fs tempDir q = _
    rw [RemoveAll_apply _ _ _ tk q htk]
    cases hq : tk.isPrefixOf q with
    | true => simp
    | false =>
      simp only [Bool.false_eq_true, if_false]
      exact download_outside_temp host w w2 _ _ filename tempDir _ fs1 tk q _ htemp htk hin hdl hq
  · intro w2 checksum e err hdl hsum hne hver
    have hfs : ((noteChecksumError
        (w2.request (releaseURL plugin.Repo (releaseTag plugin version))) e).print
        (verifyingLine filename)).fs = w2.fs := noteChecksumError_fs _ e
    have hv' : verifyChecksum host.wd
        ((noteChecksumError (w2.request (releaseURL plugin.Repo (releaseTag plugin version)))
          e).print (verifyingLine filename)).fs
        (Join [tempDir, filename]) checksum = some err := by rw [hfs]; exact hver
    have hI : Install host w plugin version installDir =
        ({ (noteChecksumError (w2.request (releaseURL plugin.Repo (releaseTag plugin version)))
            e).print (verifyingLine filename) with
            fs := RemoveAll host.wd
              ((noteChecksumError (w2.request (releaseURL plugin.Repo (releaseTag plugin version)))
                e).print (verifyingLine filename)).fs tempDir },
          .returned (some (.wrapf "checksum verification failed: ".toList err []))) := by
      simp only [Install, hsys, hfile, htemp, installInTemp, hdl, hsum, ne_eq, hne,
        not_false_eq_true, if_true, hv']
    rw [hI]
    refine ⟨rfl, fun q => ?_⟩
    show RemoveAll host.wd _ tempDir q = _
    rw [RemoveAll_apply _ _ _ tk q htk, hfs]
    cases hq : tk.isPrefixOf q with
    | true => simp
    | false =>
      simp only [Bool.false_eq_true, if_false]
      exact download_outside_temp host w w2 _ _ filename tempDir _ fs1 tk q _ htemp htk hin hdl hq
  · intro w2 checksum e relBinPath fs2 err hdl hsum hver hrel hext
    obtain ⟨wc, hwc, hI⟩ := Install_past_checksum host w w2 plugin version installDir filename
      tempDir plat arch fs1 checksum e hsys hfile htemp hdl hsum hver
    have hext' : extractArtifact host
        (wc.print ("Extracting to ".toList ++ installDir ++ "...".toList)).fs plugin filename
        (Join [tempDir, filename]) installDir relBinPath = (fs2, some err) := by
      show extractArtifact host wc.fs _ _ _ _ _ = _
      rw [hwc]; exact hext
    rw [hI]
    simp only [afterChecksum, hrel, hext']
    refine ⟨trivial, fun q => ?_⟩
    rw [RemoveAll_apply _ _ _ tk q htk]

theorem Install_failure_leaves_witness :
    (Install zlsHost freshWorld zls "9.9.9".toList "tools".toList).2 =
        .returned (some (.wrapf "failed to download asset: ".toList
          (.errorf "download failed: 404 Not Found".toList) [])) ∧
      ∀ q, (Install zlsHost freshWorld zls "9.9.9".toList "tools".toList).1.fs q =
        if ["tmp".toList, "sous-chef1".toList].isPrefixOf q then none else freshWorld.fs q :=
  (Install_failure_leaves zlsHost freshWorld zls "9.9.9".toList "tools".toList
    "zls-x86_64-linux.tar.xz".toList "/tmp/sous-chef1".toList .Linux .X86_64
    (freshWorld.fs.set ["tmp".toList, "sous-chef1".toList] (.dir 0o700))
    ["tmp".toList, "sous-chef1".toList]
    (by decide) (by decide) (by rfl) (by decide)
    (fun dk h => by
      have hk : resolve zlsHost.wd
          (Join ["/tmp/sous-chef1".toList, "zls-x86_64-linux.tar.xz".toList]) =
          .ok ["tmp".toList, "sous-chef1".toList, "zls-x86_64-linux.tar.xz".toList] := by
        decide
      rw [hk] at h
      cases h
      decide)).1
    (DownloadReleaseAsset zlsHost
      ((World.mk (freshWorld.fs.set ["tmp".toList, "sous-chef1".toList] (.dir 0o700))
        freshWorld.stdout freshWorld.requests).print
        (downloadingLine zls "zls-x86_64-linux.tar.xz".toList (releaseTag zls "9.9.9".toList)))
      zls.Repo (releaseTag zls "9.9.9".toList) "zls-x86_64-linux.tar.xz".toList
      (Join ["/tmp/sous-chef1".toList, "zls-x86_64-linux.tar.xz".toList])).1
    (.errorf "download failed: 404 Not Found".toList)
    (Prod.ext rfl (by decide))

/-- C12, as stated, fails: the run of `Install` for `neovim` on a host whose
archive breaks off inside `nvim-linux-x86_64/bin/nvim` fails in the extraction
step, and the four bytes read so far stay as `tools/bin/nvim`, the place of the
installed binary, where nothing was before; the temporary directory is gone. -/
theorem Install_failed_extraction_leaves_binary :
    (Install truncatedNvimHost freshWorld neovim "0.10.0".toList "tools".toList).2 =
      .returned (some (.external "unexpected EOF".toList)) ∧
    freshWorld.fs ["home".toList, "u".toList, "tools".toList] = none ∧
    (Install truncatedNvimHost freshWorld neovim "0.10.0".toList "tools".toList).1.fs
        ["home".toList, "u".toList, "tools".toList, "bin".toList, "nvim".toList] =
      some (.file 0o755 [127, 69, 76, 70]) ∧
    (Install truncatedNvimHost freshWorld neovim "0.10.0".toList "tools".toList).1.fs
        ["tmp".toList, "sous-chef1".toList] = none := by
  refine ⟨by decide, by decide, by decide, by decide⟩
/-- C13. Let a run of `Install` have extracted the artifact, and let the
directory `bin` of the install directory have been made (the step that follows
the extraction). If then `os.Stat` finds nothing at the rendered relative binary
path under the install directory, `Install` fails with the error `binary not
found at ` followed by that path, and neither moves nor changes a mode: the files
are those left by the making of `bin`, less the temporary directory. If there is
something and the source path equals the path `bin/` + command name, nothing is
moved: the only change is the mode set by `os.Chmod`. -/
theorem Install_locates_binary (host : Host) (w w2 : World) (plugin : PluginConfig)
    (version installDir filename tempDir relBinPath : GoString) (plat : Platform) (arch : Arch)
    (fs1 fs2 fs3 : FS) (checksum : GoString) (e : Option GoError)
    (hsys : GetSystemInfo host.GOOS host.GOARCH = .ok (plat, arch))
    (hfile : renderTemplate plugin.AssetTemplate (renderContext plugin version plat arch) =
      .ok filename)
    (htemp : MkdirTemp host w.fs = .ok (fs1, tempDir))
    (hdl : DownloadReleaseAsset host
      ((World.mk fs1 w.stdout w.requests).print
        (downloadingLine plugin filename (releaseTag plugin version)))
      plugin.Repo (releaseTag plugin version) filename (Join [tempDir, filename]) = (w2, none))
    (hsum : GetAssetChecksum host plugin.Repo (releaseTag plugin version) filename =
      .returned (checksum, e))
    (hver : checksum = [] ∨
      verifyChecksum host.wd w2.fs (Join [tempDir, filename]) checksum = none)
    (hrel : renderTemplate plugin.RelativeBinPathTemplate
      (renderContext plugin version plat arch) = .ok relBinPath)
    (hext : extractArtifact host w2.fs plugin filename (Join [tempDir, filename]) installDir
      relBinPath = (fs2, none))
    (hbin : MkdirAll host.umask host.wd fs2 (Join [installDir, "bin".toList]) 0o755 = .ok fs3) :
    (statNotExist host.wd fs3 (Join [installDir, relBinPath]) = true →
      (Install host w plugin version installDir).2 =
          .returned (some (.errorf ("binary not found at ".toList ++
            Join [installDir, relBinPath]))) ∧
        (Install host w plugin version installDir).1.fs = RemoveAll host.wd fs3 tempDir) ∧
    (statNotExist host.wd fs3 (Join [installDir, relBinPath]) = false →
      Join [installDir, relBinPath] = Join [Join [installDir, "bin".toList], plugin.Cmd] →
      (Install host w plugin version installDir).2 =
          .returned
            (match Chmod host.wd fs3 (Join [Join [installDir, "bin".toList], plugin.Cmd])
                0o755 with
             | .error err => some err
             | .ok _ => none) ∧
        (Install host w plugin version installDir).1.fs =
          RemoveAll host.wd
            (match Chmod host.wd fs3 (Join [Join [installDir, "bin".toList], plugin.Cmd])
                0o755 with
             | .error _ => fs3
             | .ok fs4 => fs4) tempDir) := by
  obtain ⟨wc, hwc, hI⟩ := Install_past_checksum host w w2 plugin version installDir filename
    tempDir plat arch fs1 checksum e hsys hfile htemp hdl hsum hver
  have hext' : extractArtifact host
      (wc.print ("Extracting to ".toList ++ installDir ++ "...".toList)).fs plugin filename
      (Join [tempDir, filename]) installDir relBinPath = (fs2, none) := by
    show extractArtifact host wc.fs _ _ _ _ _ = _
    rw [hwc]; exact hext
  rw [hI]
  constructor
  · intro hstat
    simp only [afterChecksum, hrel, hext', relocate, hbin, hstat, if_true]
    exact ⟨trivial, trivial⟩
  · intro hstat heq
    have hstat' : statNotExist host.wd fs3
        (Join [Join [installDir, "bin".toList], plugin.Cmd]) = false := by
      rw [← heq]; exact hstat
    simp only [afterChecksum, hrel, hext', relocate, hbin, hstat', Bool.false_eq_true, if_false,
      heq, ne_eq, not_true_eq_false]
    cases hch : Chmod host.wd fs3 (Join [Join [installDir, "bin".toList], plugin.Cmd]) 0o755 with
    | error err => exact ⟨rfl, rfl⟩
    | ok fs4 => exact ⟨rfl, rfl⟩

theorem Install_locates_binary_witness :
    (Install noBinaryLazygitHost freshWorld lazygit "0.44.1".toList "tools".toList).2 =
        .returned (some (.errorf ("binary not found at ".toList ++
          Join ["tools".toList, "lazygit".toList]))) ∧
      (Install noBinaryLazygitHost freshWorld lazygit "0.44.1".toList "tools".toList).1.fs =
        RemoveAll noBinaryLazygitHost.wd noBinaryWithBin "/tmp/sous-chef1".toList :=
  (Install_locates_binary noBinaryLazygitHost freshWorld noBinaryDownloaded
    lazygit "0.44.1".toList "tools".toList "lazygit_0.44.1_linux_x86_64.tar.gz".toList
    "/tmp/sous-chef1".toList "lazygit".toList .Linux .X86_64
    (freshWorld.fs.set ["tmp".toList, "sous-chef1".toList] (.dir 0o700))
    noBinaryExtracted noBinaryWithBin [] none
    (by decide) (by decide) (by rfl) (Prod.ext rfl (by decide)) (by decide) (Or.inl rfl)
    (by decide) (Prod.ext rfl (by decide)) (by rfl)).1 (by decide)

/-- C13, as stated, fails: for `lazygit` on a host whose archive holds a regular
file named `bin` and no `lazygit`, the extraction succeeds and nothing exists at
`tools/lazygit`, yet `Install` fails with the error of making the directory
`bin`, not with `binary not found`. -/
theorem Install_bin_in_the_way :
    (∃ path, (Install binFileLazygitHost freshWorld lazygit "0.44.1".toList "tools".toList).2 =
      .returned (some (.sys "mkdir".toList path "not a directory".toList))) ∧
    (Install binFileLazygitHost freshWorld lazygit "0.44.1".toList "tools".toList).1.fs
        ["home".toList, "u".toList, "tools".toList, "bin".toList] =
      some (.file 0o644 [35, 33]) ∧
    (Install binFileLazygitHost freshWorld lazygit "0.44.1".toList "tools".toList).1.fs
        ["home".toList, "u".toList, "tools".toList, "lazygit".toList] = none ∧
    statNotExist binFileLazygitHost.wd
        (Install binFileLazygitHost freshWorld lazygit "0.44.1".toList "tools".toList).1.fs
        (Join ["tools".toList, "lazygit".toList]) = true := by
  refine ⟨⟨"/home/u/tools/bin".toList, by decide⟩, by decide, by decide, by decide⟩
/-! ## The order of `GetReleases` -/

theorem keyLess_nil_right (a : List Nat) : keyLess a [] = false := by
  cases a <;> rfl

theorem keyLess_cons (x y : Nat) (as bs : List Nat) :
    keyLess (x :: as) (y :: bs) = true ↔ x < y ∨ (x = y ∧ keyLess as bs = true) := by
  simp [keyLess]

theorem keyLess_irrefl (a : List Nat) : keyLess a a = false := by
  induction a with
  | nil => rfl
  | cons x as ih =>
    cases h : keyLess (x :: as) (x :: as) with
    | false => rfl
    | true =>
      rw [keyLess_cons] at h
      rcases h with h | ⟨_, h⟩
      · omega
      · rw [ih] at h; cases h

theorem keyLess_cotrans (a b c : List Nat) (h : keyLess a c = true) :
    keyLess a b = true ∨ keyLess b c = true := by
  induction a generalizing b c with
  | nil =>
    cases c with
    | nil => cases h
    | cons z cs =>
      cases b with
      | nil => exact Or.inr rfl
      | cons y bs => exact Or.inl rfl
  | cons x as ih =>
    cases c with
    | nil => rw [keyLess_nil_right] at h; cases h
    | cons z cs =>
      cases b with
      | nil => exact Or.inr rfl
      | cons y bs =>
        rw [keyLess_cons] at h
        rw [keyLess_cons, keyLess_cons]
        rcases h with h | ⟨hxz, h⟩
        · by_cases hxy : x < y
          · exact Or.inl (Or.inl hxy)
          · exact Or.inr (Or.inl (by omega))
        · rcases Nat.lt_trichotomy x y with hxy | hxy | hxy
          · exact Or.inl (Or.inl hxy)
          · rcases ih bs cs h with h' | h'
            · exact Or.inl (Or.inr ⟨hxy, h'⟩)
            · exact Or.inr (Or.inr ⟨by omega, h'⟩)
          · exact Or.inr (Or.inl (by omega))

theorem keyLess_trans (a b c : List Nat) (h1 : keyLess a b = true) (h2 : keyLess b c = true) :
    keyLess a c = true := by
  induction a generalizing b c with
  | nil =>
    cases c with
    | nil => rw [keyLess_nil_right] at h2; cases h2
    | cons z cs => rfl
  | cons x as ih =>
    cases b with
    | nil => rw [keyLess_nil_right] at h1; cases h1
    | cons y bs =>
      cases c with
      | nil => rw [keyLess_nil_right] at h2; cases h2
      | cons z cs =>
        rw [keyLess_cons] at h1 h2 ⊢
        rcases h1 with h1 | ⟨hxy, h1⟩ <;> rcases h2 with h2 | ⟨hyz, h2⟩
        · exact Or.inl (by omega)
        · exact Or.inl (by omega)
        · exact Or.inl (by omega)
        · exact Or.inr ⟨by omega, ih bs cs h1 h2⟩

theorem keyLess_asymm (a b : List Nat) (h : keyLess a b = true) : keyLess b a = false := by
  cases h' : keyLess b a with
  | false => rfl
  | true =>
    have := keyLess_trans a b a h h'
    rw [keyLess_irrefl] at this
    cases this

/-- The comparator of `GetReleases`, by the parses of the two versions. -/
theorem releaseLess_iff (f : GoString → GoString) (a b : Release) :
    releaseLess f a b = true ↔
      match parse ('v' :: f a.TagName), parse ('v' :: f b.TagName) with
      | some p, some q => keyLess (precedenceKey q) (precedenceKey p) = true
      | some _, none => True
      | none, some _ => False
      | none, none => b.PublishedAt < a.PublishedAt := by
  unfold releaseLess IsValid Compare
  cases hp : parse ('v' :: f a.TagName) with
  | none =>
    cases hq : parse ('v' :: f b.TagName) with
    | none => simp [hp, hq]
    | some q => simp [hp, hq]
  | some p =>
    cases hq : parse ('v' :: f b.TagName) with
    | none => simp [hp, hq]
    | some q =>
      by_cases h1 : keyLess (precedenceKey p) (precedenceKey q) = true
      · have h2 := keyLess_asymm _ _ h1
        simp [hp, hq, h1, h2]
      · by_cases h2 : keyLess (precedenceKey q) (precedenceKey p) = true
        · simp [hp, hq, h1, h2]
        · simp [hp, hq, h1, h2]

theorem releaseLess_irrefl (f : GoString → GoString) (a : Release) :
    releaseLess f a a = false := by
  cases h : releaseLess f a a with
  | false => rfl
  | true =>
    rw [releaseLess_iff] at h
    cases hp : parse ('v' :: f a.TagName) with
    | none => simp [hp] at h
    | some p => simp [hp, keyLess_irrefl] at h

theorem releaseLess_cotrans (f : GoString → GoString) (a b c : Release)
    (h : releaseLess f a c = true) : releaseLess f a b = true ∨ releaseLess f b c = true := by
  rw [releaseLess_iff] at h ⊢
  rw [releaseLess_iff]
  cases hp : parse ('v' :: f a.TagName) <;> cases hq : parse ('v' :: f b.TagName) <;>
    cases hr : parse ('v' :: f c.TagName) <;> simp only [hp, hr] at h <;> simp
  · omega
  · rename_i pa pb pc
    rcases keyLess_cotrans _ (precedenceKey pb) _ h with h' | h'
    · exact Or.inr h'
    · exact Or.inl h'

theorem releaseLess_asymm (f : GoString → GoString) (a b : Release)
    (h : releaseLess f a b = true) : releaseLess f b a = false := by
  cases h' : releaseLess f b a with
  | false => rfl
  | true =>
    rw [releaseLess_iff] at h h'
    cases hp : parse ('v' :: f a.TagName) <;> cases hq : parse ('v' :: f b.TagName) <;>
      simp only [hp, hq] at h h'
    · omega
    · rw [keyLess_asymm _ _ h] at h'; cases h'

theorem releaseLess_trans (f : GoString → GoString) (a b c : Release)
    (h1 : releaseLess f a b = true) (h2 : releaseLess f b c = true) :
    releaseLess f a c = true := by
  rcases releaseLess_cotrans f a c b h1 with h | h
  · exact h
  · rw [releaseLess_asymm f b c h2] at h; cases h

/-! ## `sort.Slice` -/

theorem insertBack_perm {α : Type} (less : α → α → Bool) (x : α) (l : List α) :
    (insertBack less x l).Perm (x :: l) := by
  induction l with
  | nil => exact List.Perm.refl _
  | cons y ys ih =>
    unfold insertBack
    split
    · exact ((List.Perm.cons y ih).trans (List.Perm.swap x y ys))
    · exact List.Perm.refl _

theorem foldl_insertBack_perm {α : Type} (less : α → α → Bool) (s sorted : List α) :
    (s.foldl (fun sorted x => insertBack less x sorted) sorted).Perm (s ++ sorted) := by
  induction s generalizing sorted with
  | nil => exact List.Perm.refl _
  | cons x xs ih =>
    rw [List.foldl_cons]
    refine (ih _).trans ?_
    refine (List.Perm.append_left xs (insertBack_perm less x sorted)).trans ?_
    simp

theorem sortSlice_perm {α : Type} (less : α → α → Bool) (s : List α) :
    (sortSlice less s).Perm s := by
  unfold sortSlice
  refine (List.reverse_perm _).trans ?_
  simpa using foldl_insertBack_perm less s []

theorem insertBack_sorted {α : Type} (less : α → α → Bool)
    (hasymm : ∀ a b, less a b = true → less b a = false)
    (hco : ∀ a b c, less a c = true → less a b = true ∨ less b c = true)
    (x : α) (l : List α) (h : l.Pairwise (fun later earlier => less later earlier = false)) :
    (insertBack less x l).Pairwise (fun later earlier => less later earlier = false) := by
  induction l with
  | nil => simp [insertBack]
  | cons y ys ih =>
    rw [List.pairwise_cons] at h
    unfold insertBack
    split
    · rename_i hxy
      rw [List.pairwise_cons]
      refine ⟨fun z hz => ?_, ih h.2⟩
      rcases List.mem_cons.1 ((insertBack_perm less x ys).mem_iff.1 hz) with rfl | hz'
      · exact hasymm _ _ hxy
      · exact h.1 z hz'
    · rename_i hxy
      rw [List.pairwise_cons]
      refine ⟨fun z hz => ?_, List.pairwise_cons.2 h⟩
      rcases List.mem_cons.1 hz with rfl | hz'
      · simpa using hxy
      · cases hxz : less x z with
        | false => rfl
        | true =>
          rcases hco x y z hxz with h' | h'
          · exact absurd h' hxy
          · rw [h.1 z hz'] at h'; cases h'

theorem sortSlice_sorted {α : Type} (less : α → α → Bool)
    (hasymm : ∀ a b, less a b = true → less b a = false)
    (hco : ∀ a b c, less a c = true → less a b = true ∨ less b c = true) (s : List α) :
    (sortSlice less s).Pairwise (fun a b => less b a = false) := by
  unfold sortSlice
  rw [List.pairwise_reverse]
  suffices h : ∀ sorted : List α,
      sorted.Pairwise (fun later earlier => less later earlier = false) →
      (s.foldl (fun sorted x => insertBack less x sorted) sorted).Pairwise
        (fun later earlier => less later earlier = false) from h [] List.Pairwise.nil
  induction s with
  | nil => exact fun _ h => h
  | cons x xs ih =>
    intro sorted h
    rw [List.foldl_cons]
    exact ih _ (insertBack_sorted less hasymm hco x sorted h)
theorem Compare_invalid_right (v w : GoString) (h : IsValid w = false) : 0 ≤ Compare v w := by
  unfold IsValid at h
  unfold Compare
  cases hq : parse w with
  | some q => rw [hq] at h; cases h
  | none => cases hp : parse v <;> simp

theorem Compare_self (v : GoString) : Compare v v = 0 := by
  unfold Compare
  cases hp : parse v with
  | none => rfl
  | some p => simp [keyLess_irrefl]

/-- What the comparator of `GetReleases` says of two releases in sorted order. -/
theorem releaseLess_false (f : GoString → GoString) (a b : Release)
    (h : releaseLess f b a = false) :
    (IsValid ('v' :: f b.TagName) = true → IsValid ('v' :: f a.TagName) = true) ∧
    (IsValid ('v' :: f a.TagName) = true → IsValid ('v' :: f b.TagName) = true →
      0 ≤ Compare ('v' :: f a.TagName) ('v' :: f b.TagName)) ∧
    (IsValid ('v' :: f a.TagName) = false → IsValid ('v' :: f b.TagName) = false →
      b.PublishedAt ≤ a.PublishedAt) := by
  have h' : ¬ releaseLess f b a = true := by rw [h]; exact fun h => by cases h
  rw [releaseLess_iff] at h'
  unfold IsValid Compare
  cases hp : parse ('v' :: f a.TagName) with
  | none =>
    cases hq : parse ('v' :: f b.TagName) with
    | none =>
      simp only [hp, hq] at h'
      simp
      omega
    | some q => simp [hp, hq] at h'
  | some p =>
    cases hq : parse ('v' :: f b.TagName) with
    | none => simp
    | some q =>
      simp only [hp, hq] at h'
      simp only [Bool.not_eq_true] at h'
      simp [h']
      split <;> omega

/-- C15. For a profile with a `FormatVersion`, `GetReleases` returns the
releases that the `ReleaseFilter` accepts (all of them where there is no
filter), in another order: a permutation in which every release whose
`"v" + FormatVersion(tag)` is a valid semantic version stands before every
release for which it is not, the valid ones stand in non-increasing order of
`semver.Compare`, and the others in non-increasing order of `PublishedAt`. The
comparator is a strict weak ordering (irreflexive, transitive, with a transitive
incomparability), and the first release of the result is a greatest one by
`semver.Compare`. -/
theorem GetReleases_sorted (p : PluginConfig) (f : GoString → GoString)
    (releases : List Release) (hf : p.FormatVersion = some f) :
    ∃ out, GetReleases p (.ok releases) = .returned (.ok out) ∧
      (∀ g, p.ReleaseFilter = some g → out.Perm (releases.filter g)) ∧
      (p.ReleaseFilter = none → out.Perm releases) ∧
      out.Pairwise (fun a b =>
        (IsValid ('v' :: f b.TagName) = true → IsValid ('v' :: f a.TagName) = true) ∧
        (IsValid ('v' :: f a.TagName) = true → IsValid ('v' :: f b.TagName) = true →
          0 ≤ Compare ('v' :: f a.TagName) ('v' :: f b.TagName)) ∧
        (IsValid ('v' :: f a.TagName) = false → IsValid ('v' :: f b.TagName) = false →
          b.PublishedAt ≤ a.PublishedAt)) ∧
      ((∀ a, releaseLess f a a = false) ∧
        (∀ a b c, releaseLess f a b = true → releaseLess f b c = true →
          releaseLess f a c = true) ∧
        (∀ a b c, releaseLess f a b = false → releaseLess f b a = false →
          releaseLess f b c = false → releaseLess f c b = false →
          releaseLess f a c = false ∧ releaseLess f c a = false)) ∧
      (∀ top ∈ out.head?, ∀ r ∈ out,
        0 ≤ Compare ('v' :: f top.TagName) ('v' :: f r.TagName)) := by
  have hsorted := sortSlice_sorted (releaseLess f) (releaseLess_asymm f)
    (releaseLess_cotrans f) (releases.filter (accepted p))
  have hpair := hsorted.imp (fun {a b} h => releaseLess_false f a b h)
  refine ⟨sortSlice (releaseLess f) (releases.filter (accepted p)), ?_, ?_, ?_, hpair, ?_, ?_⟩
  · simp only [GetReleases, hf]
  · intro g hg
    have hacc : accepted p = g := by
      funext r
      simp only [accepted, hg]
    rw [hacc]
    exact sortSlice_perm _ _
  · intro hnone
    have hall : releases.filter (accepted p) = releases := by
      rw [List.filter_eq_self]
      intro r _
      simp [accepted, hnone]
    rw [hall]
    exact sortSlice_perm _ _
  · refine ⟨releaseLess_irrefl f, releaseLess_trans f, ?_⟩
    intro a b c hab hba hbc hcb
    constructor
    · cases h : releaseLess f a c with
      | false => rfl
      | true =>
        rcases releaseLess_cotrans f a b c h with h' | h'
        · rw [hab] at h'; cases h'
        · rw [hbc] at h'; cases h'
    · cases h : releaseLess f c a with
      | false => rfl
      | true =>
        rcases releaseLess_cotrans f c b a h with h' | h'
        · rw [hcb] at h'; cases h'
        · rw [hba] at h'; cases h'
  · intro top htop r hr
    generalize sortSlice (releaseLess f) (releases.filter (accepted p)) = out at hpair htop hr
    cases out with
    | nil => cases hr
    | cons x xs =>
      simp only [List.head?_cons, Option.mem_def, Option.some.injEq] at htop
      subst htop
      rcases List.mem_cons.1 hr with rfl | hr'
      · rw [Compare_self]
      · have h := (List.pairwise_cons.1 hpair).1 r hr'
        cases hv : IsValid ('v' :: f r.TagName) with
        | false => exact Compare_invalid_right _ _ hv
        | true => exact h.2.1 (h.1 hv) hv

theorem GetReleases_sorted_witness :
    ty.FormatVersion = some NoOpVersion ∧
    GetReleases ty (.ok tyReleases) =
      .returned (.ok
        [⟨"0.0.1-alpha.8".toList, 4, false, false, []⟩,
         ⟨"0.0.1-alpha.7".toList, 3, false, false, []⟩,
         ⟨"nightly".toList, 6, false, false, []⟩]) ∧
    ∃ out, GetReleases ty (.ok tyReleases) = .returned (.ok out) ∧
      out.Perm (tyReleases.filter (fun r => !r.Prerelease)) ∧
      (∀ top ∈ out.head?, ∀ r ∈ out,
        0 ≤ Compare ('v' :: NoOpVersion top.TagName) ('v' :: NoOpVersion r.TagName)) :=
  ⟨rfl, by decide,
    match GetReleases_sorted ty NoOpVersion tyReleases rfl with
    | ⟨out, h1, h2, _, _, _, h6⟩ => ⟨out, h1, h2 _ rfl, h6⟩⟩

end SousChef
